import Mathlib

/-!
# cursync: a shallow embedding of the rule-file synchroniser

The development follows the Go sources:

* `pkg/file_ops/file_ops.go`: `ReadFileNormalized` (content normalisation) and
  `FileExists`;
* `service/file/filter/get_file_patterns.go`: `GetFilePatterns`;
* `service/sync/{service,pull_rules,push_rules}.go`: the reconciliation engine;
* `service/file/service.go`: `AreEqual` and `Copy`, which forward to packages that
  are not among the sources and are modelled from the specification.

Go strings that hold file content are byte sequences and are modelled as
`List UInt8`.  Go strings that are only passed around, compared or concatenated
(paths, flag values, messages) are modelled as `String`.
-/

namespace Cursync

/-! ## Go errors -/

/-- A Go `error` value.  `leaf` is an error made by a collaborator, by the operating
system or by `fmt.Errorf` without `%w`; `notExist` records whether `os.IsNotExist`
holds for it.  `wrap pre cause` is `fmt.Errorf(pre + "%w", cause)`. -/
inductive GoError where
  | leaf (msg : String) (notExist : Bool)
  | wrap (pre : String) (cause : GoError)
  deriving DecidableEq

/-- The method `err.Error()`: the message of an error. -/
def GoError.Error : GoError → String
  | .leaf msg _ => msg
  | .wrap pre cause => pre ++ cause.Error

/-- Go `os.IsNotExist(err)` for a non-nil `err`; it does not look through
`fmt.Errorf` wrappers. -/
def IsNotExist : GoError → Bool
  | .leaf _ notExist => notExist
  | .wrap _ _ => false

deriving instance DecidableEq for Except

/-! ## Byte strings and the two `strings` functions used by the normaliser -/

/-- A Go string holding file content: a sequence of bytes. -/
abbrev Bytes := List UInt8

/-- The byte of a carriage return. -/
def CR : UInt8 := 13

/-- The byte of a line feed. -/
def LF : UInt8 := 10

/-- The byte of a space. -/
def SP : UInt8 := 32

/-- The byte of a horizontal tab. -/
def TAB : UInt8 := 9

/-- Scanning loop of `strings.ReplaceAll` for a non-empty `old`: `skip` counts the
bytes of a matched occurrence that are still to be consumed.  Occurrences are
found left to right and do not overlap. -/
def replaceFrom (old new : Bytes) : Nat → Bytes → Bytes
  | _, [] => []
  | skip + 1, _ :: rest => replaceFrom old new skip rest
  | 0, b :: rest =>
      if old.isPrefixOf (b :: rest) then new ++ replaceFrom old new (old.length - 1) rest
      else b :: replaceFrom old new 0 rest

/-- Go `strings.ReplaceAll(s, old, new)` on bytes, for a non-empty `old` (both
calls in `ReadFileNormalized` pass a non-empty literal).  For an empty `old` Go
inserts `new` at every rune boundary; that case is outside this model and
leaves `s` as it is. -/
def ReplaceAll (s old new : Bytes) : Bytes :=
  if old = [] then s else replaceFrom old new 0 s

/-- Go `strings.TrimRight(s, cutset)` for a cutset of ASCII bytes: bytes are
removed from the end of `s` for as long as the last byte is in `cutset`. -/
def TrimRight (s cutset : Bytes) : Bytes :=
  (s.reverse.dropWhile (fun b => cutset.contains b)).reverse

/-! ## `pkg/file_ops`: `ReadFileNormalized` -/

/-- Lines 43-56 of `file_ops.go`: the normalisation applied to the content that
`os.ReadFile` returned. -/
def normalize (content : Bytes) : Bytes :=
  -- Normalize line endings - convert to LF
  let normalized := ReplaceAll content [CR, LF] [LF]
  let normalized := ReplaceAll normalized [CR] [LF]
  -- Remove trailing whitespace except newlines, then normalize newlines at the end
  let normalized := TrimRight normalized [SP, TAB]
  let normalized := TrimRight normalized [LF]
  -- Add one newline at the end if file is not empty
  if normalized.length > 0 then normalized ++ [LF] else normalized

/-- The method `FileOps.ReadFileNormalized`; `readFile` stands for `os.ReadFile`.
On a read error Go returns the empty string together with the error. -/
def ReadFileNormalized (readFile : String → Except GoError Bytes) (filePath : String) :
    Except GoError Bytes :=
  match readFile filePath with
  | .error err => .error err
  | .ok content => .ok (normalize content)

/-- The content after the two `ReplaceAll` calls of `ReadFileNormalized`. -/
def convertLineEndings (content : Bytes) : Bytes :=
  ReplaceAll (ReplaceAll content [CR, LF] [LF]) [CR] [LF]

/-- The content after the two `TrimRight` calls of `ReadFileNormalized`. -/
def trimmed (content : Bytes) : Bytes :=
  TrimRight (TrimRight (convertLineEndings content) [SP, TAB]) [LF]

/-! ### The normalisation as the specification words it -/

/-- Specification step: every pair CR LF becomes one LF. -/
def crlfToLf : Bytes → Bytes
  | [] => []
  | [b] => [b]
  | b :: c :: rest =>
      if b = CR ∧ c = LF then LF :: crlfToLf rest else b :: crlfToLf (c :: rest)

/-- Specification step: every (remaining) CR becomes LF. -/
def crToLf (s : Bytes) : Bytes := s.map (fun b => if b = CR then LF else b)

/-- Specification step: drop the run of bytes satisfying `p` that ends the content. -/
def stripTrailing (p : UInt8 → Bool) (s : Bytes) : Bytes :=
  s.foldr (fun b acc => if acc.isEmpty && p b then [] else b :: acc) []

/-- The normalisation as section 4.1 of the specification lists its steps. -/
def normalizeSpec (content : Bytes) : Bytes :=
  let converted := crToLf (crlfToLf content)
  let stripped := stripTrailing (fun b => b == SP || b == TAB) converted
  let stripped := stripTrailing (fun b => b == LF) stripped
  if stripped = [] then [] else stripped ++ [LF]

/-! ### Vocabulary for the statements about normalised content -/

/-- Go `strings.Split(s, sep)` for a one-element separator: the fields between the
occurrences of `sep` (always at least one field). -/
def splitSep {α : Type} [DecidableEq α] (sep : α) : List α → List (List α)
  | [] => [[]]
  | b :: rest =>
      if b = sep then [] :: splitSep sep rest
      else
        match splitSep sep rest with
        | [] => [[b]]
        | l :: ls => (b :: l) :: ls

/-- The lines of a content: the pieces between its LF bytes. -/
def lines (s : Bytes) : List Bytes := splitSep LF s

/-- A space or a tab. -/
def isHSpace (b : UInt8) : Bool := b == SP || b == TAB

/-- The line ends with a space or a tab. -/
def endsWithHSpace (l : Bytes) : Bool :=
  match l.getLast? with
  | some b => isHSpace b
  | none => false

/-- Every line is free of trailing horizontal whitespace. -/
def allLinesClean (s : Bytes) : Prop := ∀ l ∈ lines s, endsWithHSpace l = false

instance (s : Bytes) : Decidable (allLinesClean s) :=
  inferInstanceAs (Decidable (∀ l ∈ lines s, endsWithHSpace l = false))

/-- Every newline-terminated line is free of trailing horizontal whitespace. -/
def terminatedLinesClean (s : Bytes) : Prop :=
  ∀ l ∈ (lines s).dropLast, endsWithHSpace l = false

instance (s : Bytes) : Decidable (terminatedLinesClean s) :=
  inferInstanceAs (Decidable (∀ l ∈ (lines s).dropLast, endsWithHSpace l = false))

/-- The content with every LF replaced by CR LF. -/
def withCRLF (x : Bytes) : Bytes := x.flatMap (fun b => if b = LF then [CR, LF] else [b])

/-- The content with every LF replaced by CR. -/
def withCR (x : Bytes) : Bytes := x.map (fun b => if b = LF then CR else b)


/-! ## `service/file/filter`: `GetFilePatterns` -/

/-- Go `unicode.IsSpace`: the white space characters that `strings.TrimSpace` removes. -/
def isSpace (c : Char) : Bool :=
  [0x09, 0x0A, 0x0B, 0x0C, 0x0D, 0x20, 0x85, 0xA0, 0x1680, 0x2028, 0x2029, 0x202F, 0x205F,
    0x3000].contains c.toNat || (0x2000 ≤ c.toNat && c.toNat ≤ 0x200A)

/-- Go `strings.TrimSpace` on the characters of a string: leading and trailing white
space is removed. -/
def TrimSpace (s : List Char) : List Char :=
  ((s.dropWhile isSpace).reverse.dropWhile isSpace).reverse

/-- Modelled from the spec: `string_utils.RemoveDuplicates` is called by
`cleanupExtraFilesWithPatterns` but `pkg/string_utils` is not among the sources.
The specification says of the pattern set that it "preserves order of first
occurrence, removes duplicates": the first occurrence of every string is kept,
later ones are dropped. -/
def RemoveDuplicates : List String → List String
  | [] => []
  | x :: xs => x :: (RemoveDuplicates xs).filter (fun y => y ≠ x)

/-- The trimmed, non-empty tokens of a separated list, in the order in which they
occur: what "splits on `,`, trims surrounding whitespace from each token, discards
empty tokens" leaves. -/
def trimmedTokens (s : String) (sep : Char) : List String :=
  ((splitSep sep s.data).map (fun tok => String.mk (TrimSpace tok))).filter (fun tok => tok ≠ "")

/-- Modelled from the spec: `string_utils.SplitTrimFilter` is called by
`GetFilePatterns` but `pkg/string_utils` is not among the sources.  Section 4.3 of
the specification says of the parsed pattern list: "splits on `,`, trims
surrounding whitespace from each token, discards empty tokens, preserves order of
first occurrence, removes duplicates".  Go passes the separator as the
one-character string `","`; here it is that character. -/
def SplitTrimFilter (s : String) (sep : Char) : List String :=
  RemoveDuplicates (trimmedTokens s sep)

/-- The method `Filter.GetFilePatterns` of `get_file_patterns.go`. -/
def GetFilePatterns (flagValue : String) : Except GoError (List String) :=
  if flagValue = "" then .ok []
  else
    let patterns := SplitTrimFilter flagValue ','
    .ok patterns


/-! ## `service/sync`: data model

The package `models` is not among the sources; the three types are read off the way
`pull_rules.go` and `push_rules.go` use them. -/

/-- The type `models.OperationType`, a string type. -/
abbrev OperationType := String

/-- The type `models.SyncOptions`. -/
structure SyncOptions where
  RulesDir : String
  FilePatterns : String
  OverwriteHeaders : Bool
  GitWithoutPush : Bool
  deriving DecidableEq

/-- The type `models.FileOperation`; the Go field `Type` is `OpType` here. -/
structure FileOperation where
  OpType : OperationType
  SourcePath : String
  TargetPath : String
  RelativePath : String
  deriving DecidableEq

/-- The type `models.SyncResult`. -/
structure SyncResult where
  Operations : List FileOperation
  HasChanges : Bool
  deriving DecidableEq

/-! ## `service/sync`: collaborators

`SyncService` reaches the outside world only through the five interfaces of
`service.go`.  A collaborator method is a function of its arguments and of a world
`W` (the state of the mocks, or of disk and repository) and returns its Go results
with the next world.  A Go result `(T, error)` is an `Except GoError T`: every caller
in the package tests `err` first and never reads the value next to a non-nil error. -/

/-- The methods of `outputService`, `pathUtils`, `gitOps`, `fileService` and `fileOps`.
The variadic arguments of `PrintErrorf` are passed as rendered strings; the
`os.FileInfo` of `Stat` is never read and is `Unit`; an `os.FileMode` is a number. -/
structure Collaborators (W : Type) where
  PrintErrorf : String → List String → W → W
  PrintOperation : String → String → W → W
  PrintOperationWithTarget : String → String → String → W → W
  RecreateDirectoryStructure : String → String → String → W → Except GoError String × W
  GetRelativePath : String → String → W → Except GoError String × W
  GetBaseName : String → W → String × W
  GetGitRootDir : String → W → Except GoError String × W
  CommitChanges : String → String → Bool → W → Option GoError × W
  GetFilePatterns : String → W → Except GoError (List String) × W
  FindFilesByPatterns : String → List String → W → Except GoError (List String) × W
  CleanupExtraFilesByPatterns :
    List String → String → String → List String → W → Option GoError × W
  AreEqual : String → String → Bool → W → Except GoError Bool × W
  Copy : String → String → Bool → W → Option GoError × W
  FindAllFiles : String → W → Except GoError (List String) × W
  GetCurrentDir : W → Except GoError String × W
  MkdirAll : String → Nat → W → Option GoError × W
  Stat : String → W → Except GoError Unit × W
  FileExists : String → W → Except GoError Bool × W
  RemoveFile : String → W → Option GoError × W

/-- One call of a collaborator method, with its arguments. -/
inductive Call where
  | PrintErrorf (format : String) (args : List String)
  | PrintOperation (operationType relativePath : String)
  | PrintOperationWithTarget (operationType relativePath target : String)
  | RecreateDirectoryStructure (srcPath srcBase dstBase : String)
  | GetRelativePath (filePath baseDir : String)
  | GetBaseName (filePath : String)
  | GetGitRootDir (startDir : String)
  | CommitChanges (repoDir commitMessage : String) (withoutPush : Bool)
  | GetFilePatterns (flagValue : String)
  | FindFilesByPatterns (dir : String) (patterns : List String)
  | CleanupExtraFilesByPatterns (srcFiles : List String) (srcBase dstBase : String)
      (patterns : List String)
  | AreEqual (file1 file2 : String) (overwriteHeaders : Bool)
  | Copy (srcPath dstPath : String) (overwriteHeaders : Bool)
  | FindAllFiles (dir : String)
  | GetCurrentDir
  | MkdirAll (path : String) (perm : Nat)
  | Stat (filePath : String)
  | FileExists (filePath : String)
  | RemoveFile (filePath : String)
  deriving DecidableEq

/-- The call is a call of `AreEqual`. -/
def Call.isAreEqual : Call → Bool
  | .AreEqual _ _ _ => true
  | _ => false

/-- The call is a call of `Copy`. -/
def Call.isCopy : Call → Bool
  | .Copy _ _ _ => true
  | _ => false

/-- The call is a call of `PrintErrorf`. -/
def Call.isPrintErrorf : Call → Bool
  | .PrintErrorf _ _ => true
  | _ => false

/-- The state of a run: the world of the collaborators and the calls made so far, in
the order in which they were made. -/
structure State (W : Type) where
  world : W
  calls : List Call

/-- Call a collaborator method that returns a result: the call is recorded and the
world is the one the method leaves. -/
def invoke {W α : Type} (call : Call) (f : W → α × W) (s : State W) : α × State W :=
  ((f s.world).1, { world := (f s.world).2, calls := s.calls ++ [call] })

/-- Call a collaborator method that returns nothing. -/
def emit {W : Type} (call : Call) (f : W → W) (s : State W) : State W :=
  { world := f s.world, calls := s.calls ++ [call] }

/-- Go `os.ModePerm`. -/
def ModePerm : Nat := 0o777

/-! ## `service/sync/service.go` -/

/-- The method `SyncService.getRulesSourceDir`. -/
def getRulesSourceDir (flagValue : String) : Except GoError String :=
  if flagValue = "" then
    .error (.leaf "rules directory not specified: use --rules-dir flag" false)
  else .ok flagValue

/-- The first loop of `cleanupExtraFiles`: the keys of `srcFilesMap`, the relative
paths of the source files for which `GetRelativePath` succeeds. -/
def srcFilesMapOf {W : Type} (c : Collaborators W) (srcFiles : List String) (srcBase : String)
    (s : State W) : List String × State W :=
  srcFiles.foldl
    (fun acc srcFile =>
      match invoke (.GetRelativePath srcFile srcBase) (c.GetRelativePath srcFile srcBase) acc.2 with
      | (.error _, s1) => (acc.1, s1)
      | (.ok relativePath, s1) => (acc.1 ++ [relativePath], s1))
    ([], s)

/-- The body of the second loop of `cleanupExtraFiles`, for one destination file. -/
def cleanupExtraFilesStep {W : Type} (c : Collaborators W) (srcFilesMap : List String)
    (dstBase : String) (s : State W) (destFile : String) : State W :=
  match invoke (.GetRelativePath destFile dstBase) (c.GetRelativePath destFile dstBase) s with
  | (.error _, s1) => s1
  | (.ok relativePath, s1) =>
      if !(srcFilesMap.contains relativePath) then
        match invoke (.RemoveFile destFile) (c.RemoveFile destFile) s1 with
        | (some err, s2) =>
            emit (.PrintErrorf "Error deleting file %s: %v\n" [relativePath, err.Error])
              (c.PrintErrorf "Error deleting file %s: %v\n" [relativePath, err.Error]) s2
        | (none, s2) =>
            emit (.PrintOperation "delete" relativePath) (c.PrintOperation "delete" relativePath) s2
      else s1

/-- The method `SyncService.cleanupExtraFiles`; `none` is the Go result `nil`. -/
def cleanupExtraFiles {W : Type} (c : Collaborators W) (srcFiles : List String)
    (srcBase dstBase : String) (s : State W) : Option GoError × State W :=
  match srcFilesMapOf c srcFiles srcBase s with
  | (srcFilesMap, s1) =>
      match invoke (.FindAllFiles dstBase) (c.FindAllFiles dstBase) s1 with
      | (.error err, s2) => (some (.wrap "error walking destination directory: " err), s2)
      | (.ok destFiles, s2) =>
          (none, destFiles.foldl (cleanupExtraFilesStep c srcFilesMap dstBase) s2)

/-! ## `service/sync/pull_rules.go` -/

/-- The method `SyncService.preparePullPaths`.  `join` stands for `filepath.Join`. -/
def preparePullPaths {W : Type} (c : Collaborators W) (join : List String → String)
    (rulesDir : String) (s : State W) : Except GoError (String × String) × State W :=
  match getRulesSourceDir rulesDir with
  | .error err => (.error (.wrap "failed to get rules source dir: " err), s)
  | .ok rulesSourceDir =>
      match invoke .GetCurrentDir c.GetCurrentDir s with
      | (.error err, s1) => (.error (.wrap "failed to get current directory: " err), s1)
      | (.ok currentDir, s1) =>
          match invoke (.GetGitRootDir currentDir) (c.GetGitRootDir currentDir) s1 with
          | (.error err, s2) => (.error (.wrap "failed to find git root: " err), s2)
          | (.ok gitRoot, s2) =>
              let destRulesDir := join [gitRoot, ".cursor", "rules"]
              (.ok (rulesSourceDir, destRulesDir), s2)

/-- The method `SyncService.findFilesWithPatterns`. -/
def findFilesWithPatterns {W : Type} (c : Collaborators W) (dir : String)
    (patterns : List String) (s : State W) : Except GoError (List String) × State W :=
  if patterns.length = 0 then
    match invoke (.FindAllFiles dir) (c.FindAllFiles dir) s with
    | (.error err, s1) =>
        (.error (.wrap ("failed to find source files in " ++ dir ++ ": ") err), s1)
    | (.ok files, s1) => (.ok files, s1)
  else
    match invoke (.FindFilesByPatterns dir patterns) (c.FindFilesByPatterns dir patterns) s with
    | (.error err, s1) =>
        (.error (.wrap ("failed to find files by patterns in " ++ dir ++ ": ") err), s1)
    | (.ok files, s1) => (.ok files, s1)

/-- The method `SyncService.cleanupExtraFilesWithPatterns`. -/
def cleanupExtraFilesWithPatterns {W : Type} (c : Collaborators W) (sourceFiles : List String)
    (srcBase dstBase : String) (patterns : List String) (s : State W) :
    Option GoError × State W :=
  let effectivePatterns := RemoveDuplicates patterns
  if effectivePatterns.length = 0 then
    match cleanupExtraFiles c sourceFiles srcBase dstBase s with
    | (some err, s1) => (some (.wrap "failed to cleanup extra files: " err), s1)
    | (none, s1) => (none, s1)
  else
    match invoke (.CleanupExtraFilesByPatterns sourceFiles srcBase dstBase effectivePatterns)
        (c.CleanupExtraFilesByPatterns sourceFiles srcBase dstBase effectivePatterns) s with
    | (some err, s1) => (some (.wrap "failed to cleanup extra files: " err), s1)
    | (none, s1) => (none, s1)

/-- The first statements of the loop bodies of `copyFiles` and `copyFilesForPush` (the
same in both): the destination path of a source file and its relative path.  When
`RecreateDirectoryStructure` fails the file is skipped; when `GetRelativePath` fails
the relative path is the base name. -/
def resolvePaths {W : Type} (c : Collaborators W) (srcFileFullPath srcBase dstBase : String)
    (s : State W) : Except GoError (String × String) × State W :=
  match invoke (.RecreateDirectoryStructure srcFileFullPath srcBase dstBase)
      (c.RecreateDirectoryStructure srcFileFullPath srcBase dstBase) s with
  | (.error err, s1) => (.error err, s1)
  | (.ok dstFileFullPath, s1) =>
      match invoke (.GetRelativePath srcFileFullPath srcBase)
          (c.GetRelativePath srcFileFullPath srcBase) s1 with
      | (.ok relativePath, s2) => (.ok (dstFileFullPath, relativePath), s2)
      | (.error _, s2) =>
          match invoke (.GetBaseName srcFileFullPath) (c.GetBaseName srcFileFullPath) s2 with
          | (relativePath, s3) => (.ok (dstFileFullPath, relativePath), s3)

/-- The method `SyncService.checkFileExists`. -/
def checkFileExists {W : Type} (c : Collaborators W) (dstFileFullPath relativePath : String)
    (s : State W) : Except GoError Bool × State W :=
  match invoke (.Stat dstFileFullPath) (c.Stat dstFileFullPath) s with
  | (.ok _, s1) => (.ok true, s1)
  | (.error err, s1) =>
      if IsNotExist err then (.ok false, s1)
      else
        (.error err,
          emit (.PrintErrorf "Error checking destination file %s: %v\n" [relativePath, err.Error])
            (c.PrintErrorf "Error checking destination file %s: %v\n" [relativePath, err.Error])
            s1)

/-- The method `SyncService.shouldCopyFile`. -/
def shouldCopyFile {W : Type} (c : Collaborators W) (srcFileFullPath dstFileFullPath : String)
    (fileExistedBeforeCopy overwriteHeaders : Bool) (relativePath : String) (s : State W) :
    Bool × State W :=
  if !fileExistedBeforeCopy then (true, s)
  else
    match invoke (.AreEqual srcFileFullPath dstFileFullPath overwriteHeaders)
        (c.AreEqual srcFileFullPath dstFileFullPath overwriteHeaders) s with
    | (.error err, s1) =>
        (true,
          emit (.PrintErrorf "Error comparing files %s: %v\n" [relativePath, err.Error])
            (c.PrintErrorf "Error comparing files %s: %v\n" [relativePath, err.Error]) s1)
    | (.ok equal, s1) => (!equal, s1)

/-- The method `SyncService.copySingleFile`; the second component is `*result` after
the call. -/
def copySingleFile {W : Type} (c : Collaborators W)
    (srcFileFullPath dstFileFullPath relativePath : String)
    (fileExistedBeforeCopy overwriteHeaders : Bool) (result : SyncResult) (s : State W) :
    Bool × SyncResult × State W :=
  match invoke (.Copy srcFileFullPath dstFileFullPath overwriteHeaders)
      (c.Copy srcFileFullPath dstFileFullPath overwriteHeaders) s with
  | (some copyErr, s1) =>
      (false, result,
        emit (.PrintErrorf "Error synchronizing file %s: %v\n" [relativePath, copyErr.Error])
          (c.PrintErrorf "Error synchronizing file %s: %v\n" [relativePath, copyErr.Error]) s1)
  | (none, s1) =>
      let operationType := if !fileExistedBeforeCopy then "add" else "update"
      let s2 := emit (.PrintOperation operationType relativePath)
        (c.PrintOperation operationType relativePath) s1
      (true,
        { result with
          Operations := result.Operations ++
            [{ OpType := operationType, SourcePath := srcFileFullPath,
               TargetPath := dstFileFullPath, RelativePath := relativePath }] },
        s2)

/-- The body of the loop of `copyFiles` for one source file. -/
def copyFilesStep {W : Type} (c : Collaborators W) (srcBase dstBase : String)
    (overwriteHeaders : Bool) (acc : SyncResult × State W) (srcFileFullPath : String) :
    SyncResult × State W :=
  match resolvePaths c srcFileFullPath srcBase dstBase acc.2 with
  | (.error err, s1) =>
      (acc.1,
        emit
          (.PrintErrorf "Error recreating directory structure for %s: %v\n"
            [srcFileFullPath, err.Error])
          (c.PrintErrorf "Error recreating directory structure for %s: %v\n"
            [srcFileFullPath, err.Error]) s1)
  | (.ok (dstFileFullPath, relativePath), s1) =>
      match checkFileExists c dstFileFullPath relativePath s1 with
      | (.error _, s2) => (acc.1, s2)
      | (.ok fileExistedBeforeCopy, s2) =>
          match shouldCopyFile c srcFileFullPath dstFileFullPath fileExistedBeforeCopy
              overwriteHeaders relativePath s2 with
          | (false, s3) => (acc.1, s3)
          | (true, s3) =>
              match copySingleFile c srcFileFullPath dstFileFullPath relativePath
                  fileExistedBeforeCopy overwriteHeaders acc.1 s3 with
              | (true, result, s4) => ({ result with HasChanges := true }, s4)
              | (false, result, s4) => (result, s4)

/-- The method `SyncService.copyFiles`. -/
def copyFiles {W : Type} (c : Collaborators W) (sourceFiles : List String)
    (srcBase dstBase : String) (overwriteHeaders : Bool) (s : State W) :
    SyncResult × State W :=
  sourceFiles.foldl (copyFilesStep c srcBase dstBase overwriteHeaders)
    ({ Operations := [], HasChanges := false }, s)

/-- The method `SyncService.PullRules`; an error stands for the Go result `(nil, err)`. -/
def PullRules {W : Type} (c : Collaborators W) (join : List String → String)
    (options : SyncOptions) (s : State W) : Except GoError SyncResult × State W :=
  match preparePullPaths c join options.RulesDir s with
  | (.error err, s1) => (.error err, s1)
  | (.ok (rulesSourceDir, destRulesDir), s1) =>
      match invoke (.GetFilePatterns options.FilePatterns)
          (c.GetFilePatterns options.FilePatterns) s1 with
      | (.error err, s2) => (.error (.wrap "failed to get file patterns: " err), s2)
      | (.ok filePatterns, s2) =>
          match invoke (.MkdirAll destRulesDir ModePerm) (c.MkdirAll destRulesDir ModePerm) s2 with
          | (some mkdirErr, s3) =>
              (.error
                (.wrap ("failed to create destination directory " ++ destRulesDir ++ ": ")
                  mkdirErr), s3)
          | (none, s3) =>
              match findFilesWithPatterns c rulesSourceDir filePatterns s3 with
              | (.error err, s4) => (.error err, s4)
              | (.ok sourceFiles, s4) =>
                  match cleanupExtraFilesWithPatterns c sourceFiles rulesSourceDir destRulesDir
                      filePatterns s4 with
                  | (some err, s5) => (.error err, s5)
                  | (none, s5) =>
                      match copyFiles c sourceFiles rulesSourceDir destRulesDir
                          options.OverwriteHeaders s5 with
                      | (result, s6) => (.ok result, s6)

/-! ## `service/sync/push_rules.go` -/

/-- The method `SyncService.preparePushPaths`. -/
def preparePushPaths {W : Type} (c : Collaborators W) (join : List String → String)
    (rulesDir : String) (s : State W) : Except GoError (String × String × String) × State W :=
  match getRulesSourceDir rulesDir with
  | .error err => (.error (.wrap "failed to get rules source dir: " err), s)
  | .ok rulesEnvDir =>
      match invoke .GetCurrentDir c.GetCurrentDir s with
      | (.error err, s1) => (.error (.wrap "failed to get current directory: " err), s1)
      | (.ok currentDir, s1) =>
          match invoke (.GetGitRootDir currentDir) (c.GetGitRootDir currentDir) s1 with
          | (.error err, s2) => (.error (.wrap "failed to find git root for project: " err), s2)
          | (.ok projectGitRoot, s2) =>
              let rulesSourceDirInProject := join [projectGitRoot, ".cursor", "rules"]
              (.ok (rulesEnvDir, rulesSourceDirInProject, projectGitRoot), s2)

/-- The method `SyncService.validateRulesDirectory`. -/
def validateRulesDirectory {W : Type} (c : Collaborators W) (rulesSourceDirInProject : String)
    (s : State W) : Option GoError × State W :=
  match invoke (.FileExists rulesSourceDirInProject) (c.FileExists rulesSourceDirInProject) s with
  | (.error err, s1) => (some (.wrap "failed to check if rules directory exists: " err), s1)
  | (.ok false, s1) =>
      (some
        (.leaf ("project rules directory " ++ rulesSourceDirInProject ++
          " not found. Nothing to push") false), s1)
  | (.ok true, s1) => (none, s1)

/-- The method `SyncService.checkFileExistsForPush`. -/
def checkFileExistsForPush {W : Type} (c : Collaborators W)
    (dstFileFullPath relativePath dstBase : String) (s : State W) :
    Except GoError Bool × State W :=
  match invoke (.FileExists dstFileFullPath) (c.FileExists dstFileFullPath) s with
  | (.error err, s1) =>
      (.error err,
        emit
          (.PrintErrorf "Error checking destination file %s in %s: %v\n"
            [relativePath, dstBase, err.Error])
          (c.PrintErrorf "Error checking destination file %s in %s: %v\n"
            [relativePath, dstBase, err.Error]) s1)
  | (.ok fileExists, s1) => (.ok fileExists, s1)

/-- The method `SyncService.copySingleFileForPush`. -/
def copySingleFileForPush {W : Type} (c : Collaborators W)
    (srcFileFullPath dstFileFullPath relativePath : String) (fileExists overwriteHeaders : Bool)
    (dstBase : String) (result : SyncResult) (s : State W) : Bool × SyncResult × State W :=
  match invoke (.Copy srcFileFullPath dstFileFullPath overwriteHeaders)
      (c.Copy srcFileFullPath dstFileFullPath overwriteHeaders) s with
  | (some copyErr, s1) =>
      (false, result,
        emit
          (.PrintErrorf "Error synchronizing file %s to %s: %v\n"
            [relativePath, dstBase, copyErr.Error])
          (c.PrintErrorf "Error synchronizing file %s to %s: %v\n"
            [relativePath, dstBase, copyErr.Error]) s1)
  | (none, s1) =>
      let operationType := if !fileExists then "add" else "update"
      match invoke (.GetBaseName dstBase) (c.GetBaseName dstBase) s1 with
      | (target, s2) =>
          let s3 := emit (.PrintOperationWithTarget operationType relativePath target)
            (c.PrintOperationWithTarget operationType relativePath target) s2
          (true,
            { result with
              Operations := result.Operations ++
                [{ OpType := operationType, SourcePath := srcFileFullPath,
                   TargetPath := dstFileFullPath, RelativePath := relativePath }] },
            s3)

/-- The body of the loop of `copyFilesForPush` for one project file. -/
def copyFilesForPushStep {W : Type} (c : Collaborators W) (srcBase dstBase : String)
    (overwriteHeaders : Bool) (acc : SyncResult × State W) (srcFileFullPath : String) :
    SyncResult × State W :=
  match resolvePaths c srcFileFullPath srcBase dstBase acc.2 with
  | (.error err, s1) =>
      (acc.1,
        emit
          (.PrintErrorf "Error recreating directory structure for %s: %v\n"
            [srcFileFullPath, err.Error])
          (c.PrintErrorf "Error recreating directory structure for %s: %v\n"
            [srcFileFullPath, err.Error]) s1)
  | (.ok (dstFileFullPath, relativePath), s1) =>
      match checkFileExistsForPush c dstFileFullPath relativePath dstBase s1 with
      | (.error _, s2) => (acc.1, s2)
      | (.ok fileExists, s2) =>
          match shouldCopyFile c srcFileFullPath dstFileFullPath fileExists overwriteHeaders
              relativePath s2 with
          | (false, s3) => (acc.1, s3)
          | (true, s3) =>
              match copySingleFileForPush c srcFileFullPath dstFileFullPath relativePath
                  fileExists overwriteHeaders dstBase acc.1 s3 with
              | (true, result, s4) => ({ result with HasChanges := true }, s4)
              | (false, result, s4) => (result, s4)

/-- The method `SyncService.copyFilesForPush`. -/
def copyFilesForPush {W : Type} (c : Collaborators W) (projectFiles : List String)
    (srcBase dstBase : String) (overwriteHeaders : Bool) (s : State W) :
    SyncResult × State W :=
  if projectFiles.length = 0 then ({ Operations := [], HasChanges := false }, s)
  else
    projectFiles.foldl (copyFilesForPushStep c srcBase dstBase overwriteHeaders)
      ({ Operations := [], HasChanges := false }, s)

/-- The method `SyncService.PushRules`; an error stands for the Go result `(nil, err)`. -/
def PushRules {W : Type} (c : Collaborators W) (join : List String → String)
    (options : SyncOptions) (s : State W) : Except GoError SyncResult × State W :=
  match preparePushPaths c join options.RulesDir s with
  | (.error err, s1) => (.error err, s1)
  | (.ok (rulesEnvDir, rulesSourceDirInProject, projectGitRoot), s1) =>
      match validateRulesDirectory c rulesSourceDirInProject s1 with
      | (some validateErr, s2) => (.error validateErr, s2)
      | (none, s2) =>
          match invoke (.GetFilePatterns options.FilePatterns)
              (c.GetFilePatterns options.FilePatterns) s2 with
          | (.error err, s3) => (.error (.wrap "failed to get file patterns: " err), s3)
          | (.ok filePatterns, s3) =>
              match findFilesWithPatterns c rulesSourceDirInProject filePatterns s3 with
              | (.error err, s4) => (.error err, s4)
              | (.ok projectFiles, s4) =>
                  match invoke (.MkdirAll rulesEnvDir ModePerm) (c.MkdirAll rulesEnvDir ModePerm)
                      s4 with
                  | (some mkdirErr, s5) =>
                      (.error
                        (.wrap ("failed to create destination directory " ++ rulesEnvDir ++ ": ")
                          mkdirErr), s5)
                  | (none, s5) =>
                      match cleanupExtraFilesWithPatterns c projectFiles rulesSourceDirInProject
                          rulesEnvDir filePatterns s5 with
                      | (some err, s6) => (.error err, s6)
                      | (none, s6) =>
                          match copyFilesForPush c projectFiles rulesSourceDirInProject
                              rulesEnvDir options.OverwriteHeaders s6 with
                          | (result, s7) =>
                              if result.HasChanges then
                                match invoke (.GetBaseName projectGitRoot)
                                    (c.GetBaseName projectGitRoot) s7 with
                                | (baseName, s8) =>
                                    match invoke
                                        (.CommitChanges rulesEnvDir
                                          ("Sync cursor rules: updated from project " ++ baseName)
                                          options.GitWithoutPush)
                                        (c.CommitChanges rulesEnvDir
                                          ("Sync cursor rules: updated from project " ++ baseName)
                                          options.GitWithoutPush) s8 with
                                    | (some err, s9) =>
                                        (.ok result,
                                          emit
                                            (.PrintErrorf "Commit failed for %s: %v\n"
                                              [rulesEnvDir, err.Error])
                                            (c.PrintErrorf "Commit failed for %s: %v\n"
                                              [rulesEnvDir, err.Error]) s9)
                                    | (none, s9) => (.ok result, s9)
                              else (.ok result, s7)


/-! ## A test double -/

/-- Collaborators without a world and with fixed answers: every source file maps to
`/dst/a.mdc` with relative path `a.mdc`; the answers of `Stat`, `FileExists`, `AreEqual`
and `Copy` are the parameters. -/
def stub (statResult : Except GoError Unit) (existsResult : Except GoError Bool)
    (equalResult : Except GoError Bool) (copyResult : Option GoError) : Collaborators Unit where
  PrintErrorf _ _ w := w
  PrintOperation _ _ w := w
  PrintOperationWithTarget _ _ _ w := w
  RecreateDirectoryStructure _ _ _ w := (.ok "/dst/a.mdc", w)
  GetRelativePath _ _ w := (.ok "a.mdc", w)
  GetBaseName _ w := ("rules", w)
  GetGitRootDir _ w := (.ok "/project", w)
  CommitChanges _ _ _ w := (none, w)
  GetFilePatterns _ w := (.ok [], w)
  FindFilesByPatterns _ _ w := (.ok [], w)
  CleanupExtraFilesByPatterns _ _ _ _ w := (none, w)
  AreEqual _ _ _ w := (equalResult, w)
  Copy _ _ _ w := (copyResult, w)
  FindAllFiles _ w := (.ok [], w)
  GetCurrentDir w := (.ok "/project", w)
  MkdirAll _ _ w := (none, w)
  Stat _ w := (statResult, w)
  FileExists _ w := (existsResult, w)
  RemoveFile _ w := (none, w)

/-- The state in which a run starts: no call made yet. -/
def State.start {W : Type} (w : W) : State W := { world := w, calls := [] }

/-- The error of a `Stat` on a missing file. -/
def errNotExist : GoError := .leaf "stat /dst/a.mdc: no such file or directory" true

/-- The error of a comparison that could not read a file. -/
def errRead : GoError := .leaf "open /dst/a.mdc: permission denied" false

/-- The destination file is missing; a copy succeeds. -/
def stubAbsent : Collaborators Unit := stub (.error errNotExist) (.ok false) (.ok true) none

/-- The destination file exists and is equal to the source file. -/
def stubEqual : Collaborators Unit := stub (.ok ()) (.ok true) (.ok true) none

/-- The destination file exists and differs from the source file; a copy succeeds. -/
def stubChanged : Collaborators Unit := stub (.ok ()) (.ok true) (.ok false) none

/-- The destination file exists and the comparison fails; a copy succeeds. -/
def stubCompareError : Collaborators Unit := stub (.ok ()) (.ok true) (.error errRead) none

/-- The state after `resolvePaths` for `/src/a.mdc`, from the start, with a test double. -/
def afterPaths : State Unit :=
  { world := (),
    calls := [Call.RecreateDirectoryStructure "/src/a.mdc" "/src" "/dst",
      Call.GetRelativePath "/src/a.mdc" "/src"] }

/-- The state after the existence check of pull, following `afterPaths`. -/
def afterStat : State Unit :=
  { world := (), calls := afterPaths.calls ++ [Call.Stat "/dst/a.mdc"] }

/-- The state after the existence check of push, following `afterPaths`. -/
def afterFileExists : State Unit :=
  { world := (), calls := afterPaths.calls ++ [Call.FileExists "/dst/a.mdc"] }


/-! ## Vocabulary for the statements about whole runs -/

/-- The name of the collaborator method that is called. -/
def Call.name : Call → String
  | .PrintErrorf _ _ => "PrintErrorf"
  | .PrintOperation _ _ => "PrintOperation"
  | .PrintOperationWithTarget _ _ _ => "PrintOperationWithTarget"
  | .RecreateDirectoryStructure _ _ _ => "RecreateDirectoryStructure"
  | .GetRelativePath _ _ => "GetRelativePath"
  | .GetBaseName _ => "GetBaseName"
  | .GetGitRootDir _ => "GetGitRootDir"
  | .CommitChanges _ _ _ => "CommitChanges"
  | .GetFilePatterns _ => "GetFilePatterns"
  | .FindFilesByPatterns _ _ => "FindFilesByPatterns"
  | .CleanupExtraFilesByPatterns _ _ _ _ => "CleanupExtraFilesByPatterns"
  | .AreEqual _ _ _ => "AreEqual"
  | .Copy _ _ _ => "Copy"
  | .FindAllFiles _ => "FindAllFiles"
  | .GetCurrentDir => "GetCurrentDir"
  | .MkdirAll _ _ => "MkdirAll"
  | .Stat _ => "Stat"
  | .FileExists _ => "FileExists"
  | .RemoveFile _ => "RemoveFile"

/-- The call is a call of `CommitChanges`. -/
def Call.isCommitChanges : Call → Bool
  | .CommitChanges _ _ _ => true
  | _ => false

/-- The call is a call of `RemoveFile`. -/
def Call.isRemoveFile : Call → Bool
  | .RemoveFile _ => true
  | _ => false

/-- The call lists the files of a directory: `FindAllFiles` or `FindFilesByPatterns`. -/
def Call.isScan : Call → Bool
  | .FindAllFiles _ => true
  | .FindFilesByPatterns _ _ => true
  | _ => false

/-- Between the states `s` and `t` of a run the calls of `s` were kept and only methods
named in `names` were called. -/
def Grows {W : Type} (names : List String) (s t : State W) : Prop :=
  ∃ evs, t.calls = s.calls ++ evs ∧ ∀ e ∈ evs, e.name ∈ names

/-- The methods that the copy loops of pull and push call. -/
def copyNames : List String :=
  ["RecreateDirectoryStructure", "GetRelativePath", "GetBaseName", "Stat", "FileExists",
    "PrintErrorf", "AreEqual", "Copy", "PrintOperation", "PrintOperationWithTarget"]

/-- The methods that the cleanup of extra files calls. -/
def cleanupNames : List String :=
  ["GetRelativePath", "FindAllFiles", "RemoveFile", "PrintErrorf", "PrintOperation",
    "CleanupExtraFilesByPatterns"]

/-- The methods that `PullRules` and `PushRules` call before their copy loop. -/
def setupNames : List String :=
  ["GetCurrentDir", "GetGitRootDir", "FileExists", "GetFilePatterns", "MkdirAll",
    "FindFilesByPatterns"] ++ cleanupNames

/-- Go `strings.Contains(msg, sub)`, on the characters of the two strings. -/
def strContains (msg sub : String) : Prop := sub.data <:+: msg.data

instance (msg sub : String) : Decidable (strContains msg sub) :=
  inferInstanceAs (Decidable (sub.data <:+: msg.data))

/-- The statements of `PullRules` in front of the call of `copyFiles` (lines 14-35 of
`pull_rules.go`): an error with which `PullRules` returns, or the source directory,
the destination directory and the source files with which `copyFiles` is called. -/
def pullSetup {W : Type} (c : Collaborators W) (join : List String → String)
    (options : SyncOptions) (s : State W) :
    Except GoError (String × String × List String) × State W :=
  match preparePullPaths c join options.RulesDir s with
  | (.error err, s1) => (.error err, s1)
  | (.ok (rulesSourceDir, destRulesDir), s1) =>
      match invoke (.GetFilePatterns options.FilePatterns)
          (c.GetFilePatterns options.FilePatterns) s1 with
      | (.error err, s2) => (.error (.wrap "failed to get file patterns: " err), s2)
      | (.ok filePatterns, s2) =>
          match invoke (.MkdirAll destRulesDir ModePerm) (c.MkdirAll destRulesDir ModePerm) s2 with
          | (some mkdirErr, s3) =>
              (.error
                (.wrap ("failed to create destination directory " ++ destRulesDir ++ ": ")
                  mkdirErr), s3)
          | (none, s3) =>
              match findFilesWithPatterns c rulesSourceDir filePatterns s3 with
              | (.error err, s4) => (.error err, s4)
              | (.ok sourceFiles, s4) =>
                  match cleanupExtraFilesWithPatterns c sourceFiles rulesSourceDir destRulesDir
                      filePatterns s4 with
                  | (some err, s5) => (.error err, s5)
                  | (none, s5) => (.ok (rulesSourceDir, destRulesDir, sourceFiles), s5)

/-- The statements of `PushRules` in front of the call of `copyFilesForPush` (lines 13-38
of `push_rules.go`): an error with which `PushRules` returns, or the rules directory,
the rules directory of the project, the git root of the project and the project
files with which the copy loop and the commit are reached. -/
def pushSetup {W : Type} (c : Collaborators W) (join : List String → String)
    (options : SyncOptions) (s : State W) :
    Except GoError (String × String × String × List String) × State W :=
  match preparePushPaths c join options.RulesDir s with
  | (.error err, s1) => (.error err, s1)
  | (.ok (rulesEnvDir, rulesSourceDirInProject, projectGitRoot), s1) =>
      match validateRulesDirectory c rulesSourceDirInProject s1 with
      | (some validateErr, s2) => (.error validateErr, s2)
      | (none, s2) =>
          match invoke (.GetFilePatterns options.FilePatterns)
              (c.GetFilePatterns options.FilePatterns) s2 with
          | (.error err, s3) => (.error (.wrap "failed to get file patterns: " err), s3)
          | (.ok filePatterns, s3) =>
              match findFilesWithPatterns c rulesSourceDirInProject filePatterns s3 with
              | (.error err, s4) => (.error err, s4)
              | (.ok projectFiles, s4) =>
                  match invoke (.MkdirAll rulesEnvDir ModePerm) (c.MkdirAll rulesEnvDir ModePerm)
                      s4 with
                  | (some mkdirErr, s5) =>
                      (.error
                        (.wrap ("failed to create destination directory " ++ rulesEnvDir ++ ": ")
                          mkdirErr), s5)
                  | (none, s5) =>
                      match cleanupExtraFilesWithPatterns c projectFiles rulesSourceDirInProject
                          rulesEnvDir filePatterns s5 with
                      | (some err, s6) => (.error err, s6)
                      | (none, s6) =>
                          (.ok (rulesEnvDir, rulesSourceDirInProject, projectGitRoot,
                            projectFiles), s6)

/-- The last statements of `PushRules` (lines 42-46 of `push_rules.go`): the commit that
follows the copy loop when the result has changes. -/
def commitPhase {W : Type} (c : Collaborators W) (rulesEnvDir projectGitRoot : String)
    (withoutPush : Bool) (result : SyncResult) (s : State W) : State W :=
  if result.HasChanges then
    match invoke (.GetBaseName projectGitRoot) (c.GetBaseName projectGitRoot) s with
    | (baseName, s1) =>
        match invoke
            (.CommitChanges rulesEnvDir ("Sync cursor rules: updated from project " ++ baseName)
              withoutPush)
            (c.CommitChanges rulesEnvDir ("Sync cursor rules: updated from project " ++ baseName)
              withoutPush) s1 with
        | (some err, s2) =>
            emit (.PrintErrorf "Commit failed for %s: %v\n" [rulesEnvDir, err.Error])
              (c.PrintErrorf "Commit failed for %s: %v\n" [rulesEnvDir, err.Error]) s2
        | (none, s2) => s2
  else s


/-- The statements of `PullRules` that follow the creation of the destination directory
(lines 28-37 of `pull_rules.go`): listing the source files, the cleanup, the copy
loop. -/
def pullAfterMkdir {W : Type} (c : Collaborators W) (rulesSourceDir destRulesDir : String)
    (filePatterns : List String) (overwriteHeaders : Bool) (s : State W) :
    Except GoError SyncResult × State W :=
  match findFilesWithPatterns c rulesSourceDir filePatterns s with
  | (.error err, s4) => (.error err, s4)
  | (.ok sourceFiles, s4) =>
      match cleanupExtraFilesWithPatterns c sourceFiles rulesSourceDir destRulesDir
          filePatterns s4 with
      | (some err, s5) => (.error err, s5)
      | (none, s5) =>
          match copyFiles c sourceFiles rulesSourceDir destRulesDir overwriteHeaders s5 with
          | (result, s6) => (.ok result, s6)


/-! ## A second test double: two directory trees -/

/-- A test double of `filepath.Join` for clean path elements: the elements joined
by slashes. -/
def joinSlash (elems : List String) : String := "/".intercalate elems

/-- The path below a base directory: the characters after the base and the slash. -/
def below (filePath baseDir : String) : String :=
  String.mk (filePath.data.drop (baseDir.data.length + 1))

/-- Collaborators over two directory trees, without a world.  `listing` gives the files
that `FindAllFiles` reports for a directory; relative paths are computed by `below`;
every destination file exists; `equal` is the answer of every comparison; every
copy, removal and commit succeeds unless `commitResult` says otherwise. -/
def trees (listing : String → List String) (equal : Bool) (commitResult : Option GoError) :
    Collaborators Unit where
  PrintErrorf _ _ w := w
  PrintOperation _ _ w := w
  PrintOperationWithTarget _ _ _ w := w
  RecreateDirectoryStructure srcPath srcBase dstBase w :=
    (.ok (dstBase ++ "/" ++ below srcPath srcBase), w)
  GetRelativePath filePath baseDir w := (.ok (below filePath baseDir), w)
  GetBaseName _ w := ("project", w)
  GetGitRootDir _ w := (.ok "/project", w)
  CommitChanges _ _ _ w := (commitResult, w)
  GetFilePatterns _ w := (.ok [], w)
  FindFilesByPatterns dir _ w := (.ok (listing dir), w)
  CleanupExtraFilesByPatterns _ _ _ _ w := (none, w)
  AreEqual _ _ _ w := (.ok equal, w)
  Copy _ _ _ w := (none, w)
  FindAllFiles dir w := (.ok (listing dir), w)
  GetCurrentDir w := (.ok "/project/sub", w)
  MkdirAll _ _ w := (none, w)
  Stat _ w := (.ok (), w)
  FileExists _ w := (.ok true, w)
  RemoveFile _ w := (none, w)

/-- The example of the specification: `a.mdc` under `/src`; `a.mdc` and `stale.mdc`
under `/dst`. -/
def listingSrcDst (dir : String) : List String :=
  if dir = "/src" then ["/src/a.mdc"]
  else if dir = "/dst" then ["/dst/a.mdc", "/dst/stale.mdc"]
  else []

/-- A project `/project` with the rule file `a.mdc`, and a rules directory `/rules`
that holds `a.mdc` and `stale.mdc`. -/
def listingProject (dir : String) : List String :=
  if dir = "/project/.cursor/rules" then ["/project/.cursor/rules/a.mdc"]
  else if dir = "/rules" then ["/rules/a.mdc", "/rules/stale.mdc"]
  else []

/-- Options of a run on the rules directory `/rules`, without patterns. -/
def optionsRules : SyncOptions :=
  { RulesDir := "/rules", FilePatterns := "", OverwriteHeaders := false,
    GitWithoutPush := false }


/-- The existence check of the destination fails with an error that is not
"not found". -/
def stubCheckError : Collaborators Unit :=
  stub (.error errRead) (.error errRead) (.ok true) none

/-- The destination file is missing and the copy fails. -/
def stubCopyError : Collaborators Unit :=
  stub (.error errNotExist) (.ok false) (.ok true) (some errRead)

/-- The error of a directory that cannot be created. -/
def errMkdir : GoError := .leaf "mkdir /project/.cursor/rules: permission denied" false

/-- The creation of a directory fails. -/
def stubMkdirFails : Collaborators Unit :=
  { stubEqual with MkdirAll := fun _ _ w => (some errMkdir, w) }

/-- The error of a commit without anything to commit. -/
def errCommit : GoError := .leaf "nothing to commit" false

/-- Options of a run without a rules directory. -/
def optionsEmpty : SyncOptions :=
  { RulesDir := "", FilePatterns := "", OverwriteHeaders := false, GitWithoutPush := false }

/-- The result of a pull from `/rules` into the project, both files differing. -/
def pulledBoth : SyncResult :=
  { Operations :=
      [{ OpType := "update", SourcePath := "/rules/a.mdc",
         TargetPath := "/project/.cursor/rules/a.mdc", RelativePath := "a.mdc" },
       { OpType := "update", SourcePath := "/rules/stale.mdc",
         TargetPath := "/project/.cursor/rules/stale.mdc", RelativePath := "stale.mdc" }],
    HasChanges := true }

/-- The result of a push in which the only project file equals its destination. -/
def pushedNothing : SyncResult := { Operations := [], HasChanges := false }

/-! ## `pkg/file_ops`: `FileExists` -/

/-- The method `FileOps.FileExists` of `file_ops.go`; `stat` stands for `os.Stat`. -/
def FileOps.FileExists (stat : String → Except GoError Unit) (filePath : String) :
    Except GoError Bool :=
  match stat filePath with
  | .ok _ => .ok true
  | .error err => if IsNotExist err then .ok false else .error err

/-! ## `service/file`: comparator and copier

`FileService.AreEqual` and `FileService.Copy` of `service/file/service.go` only forward to
the packages `comparator` and `copier`, which are not among the sources.  Their comments
say that header-aware comparison and header preservation apply "only for .mdc
files"; sections 4.2, 4.4 and 4.5 of the specification describe the rest. -/

/-- Modelled from the spec: the kind of a file is `structured` "if its name matches the
rule-file convention, e.g. a specific extension" (section 3); the comments of
`service/file/service.go` name the extension: the path ends in `.mdc`. -/
def isMdc (path : String) : Bool := ".mdc".data.isSuffixOf path.data

/-- Modelled from the spec: the header convention of section 4.2 is left open there ("a
convention for locating a metadata block at the start of the normalized content");
it is a parameter here, a function that splits a normalised content into its
header and its body. -/
abbrev Splitter := Bytes → Bytes × Bytes

/-- Modelled from the spec: `join(header, body)` of section 4.2; by section 3 "`header +
body` reconstructs the normalized content exactly", so it is the header followed
by the body. -/
def joinHeaderBody (header body : Bytes) : Bytes := header ++ body

/-- The regular files of a file system: the content of every path that exists. -/
abbrev FileSystem := String → Option Bytes

/-- Go `os.ReadFile` on a file system; a missing file gives an error for which
`os.IsNotExist` holds. -/
def FileSystem.readFile (fs : FileSystem) (path : String) : Except GoError Bytes :=
  match fs path with
  | some content => .ok content
  | none => .error (.leaf ("open " ++ path ++ ": no such file or directory") true)

/-- The file system after `content` was written to `path`. -/
def FileSystem.write (fs : FileSystem) (path : String) (content : Bytes) : FileSystem :=
  fun p => if p = path then some content else fs p

/-- Modelled from the spec: `comparator.AreEqual` is not among the sources.  Section 4.4:
"Both files are normalized first (read failure on either side is a hard error, not
'not equal').  If `preserveHeaders` is false, or either file's kind is `plain`,
compare full normalized content for exact equality.  If `preserveHeaders` is true and
both files are `structured`, compare only the body portions."  Header preservation is
on when `overwriteHeaders` is false. -/
def Comparator.AreEqual (split : Splitter) (fs : FileSystem) (file1 file2 : String)
    (overwriteHeaders : Bool) : Except GoError Bool :=
  match ReadFileNormalized fs.readFile file1 with
  | .error err => .error err
  | .ok content1 =>
      match ReadFileNormalized fs.readFile file2 with
      | .error err => .error err
      | .ok content2 =>
          if overwriteHeaders || !isMdc file1 || !isMdc file2 then .ok (content1 == content2)
          else .ok ((split content1).2 == (split content2).2)

/-- Modelled from the spec: `copier.Copy` is not among the sources.  Section 4.5: "Reads
and normalizes `srcPath`.  If `dstPath` does not exist, or `preserveHeaders` is false,
or the file kind is `plain`: write the full normalized source content to `dstPath`.
If `dstPath` exists, `preserveHeaders` is true, and the kind is `structured`: read and
split the existing destination content to obtain its current header; split the
source content to obtain the incoming body; write `join(existingHeader,
incomingBody)` to `dstPath`."  The kind is that of the target path (section 4.2).  The
destination is read normalised, as the source is: a split is "derived from
NormalizedContent" (section 3) and locates the header "at the start of the
normalized content" (section 4.2).  A write always succeeds in this model.  The
result is the file system after the copy. -/
def Copier.Copy (split : Splitter) (fs : FileSystem) (srcPath dstPath : String)
    (overwriteHeaders : Bool) : Except GoError FileSystem :=
  match ReadFileNormalized fs.readFile srcPath with
  | .error err => .error err
  | .ok source =>
      if (fs dstPath).isNone || overwriteHeaders || !isMdc dstPath then
        .ok (fs.write dstPath source)
      else
        match ReadFileNormalized fs.readFile dstPath with
        | .error err => .error err
        | .ok existing =>
            .ok (fs.write dstPath (joinHeaderBody (split existing).1 (split source).2))

/-! ## Vocabulary for the statements about the order of a run and the result of the
copy loops -/

/-- The call removes destination files: `RemoveFile`, or the pattern-aware cleanup
`CleanupExtraFilesByPatterns`. -/
def Call.isPurge : Call → Bool
  | .RemoveFile _ => true
  | .CleanupExtraFilesByPatterns _ _ _ _ => true
  | _ => false

/-- The number of `Copy` calls in a list of calls. -/
def copyCount (calls : List Call) : Nat := (calls.filter Call.isCopy).length

/-- The methods that the commit at the end of `PushRules` calls. -/
def commitNames : List String := ["GetBaseName", "CommitChanges", "PrintErrorf"]

/-- The collaborators of the copy loops as functions of a state `F` of the file system:
the answers of `RecreateDirectoryStructure` (which may create directories),
`GetRelativePath`, `GetBaseName`, `Stat`, `AreEqual` and `Copy` (which writes a
file) in that state, and the state that `RecreateDirectoryStructure` and `Copy`
leave. -/
structure EngineModel (F : Type) where
  /-- Stands for `RecreateDirectoryStructure`. -/
  recreate : String → String → String → F → Except GoError String × F
  /-- Stands for `GetRelativePath`. -/
  relative : String → String → F → Except GoError String
  /-- Stands for `GetBaseName`. -/
  baseName : String → F → String
  /-- Stands for `Stat`. -/
  stat : String → F → Except GoError Unit
  /-- Stands for `AreEqual`. -/
  equal : String → String → Bool → F → Except GoError Bool
  /-- Stands for `Copy`. -/
  copy : String → String → Bool → F → Option GoError × F

/-- What one iteration of the copy loops of `pull_rules.go` and `push_rules.go` does to
the result and to the state of the file system, as the specification describes
the engine: resolve the paths, check the destination (as `FileOps.FileExists` does
on `Stat`), compare if it exists, copy if needed, record `add` or `update`. -/
def engineStep {F : Type} (m : EngineModel F) (srcBase dstBase : String)
    (overwriteHeaders : Bool) (acc : SyncResult × F) (srcFileFullPath : String) :
    SyncResult × F :=
  match m.recreate srcFileFullPath srcBase dstBase acc.2 with
  | (.error _, f1) => (acc.1, f1)
  | (.ok dstFileFullPath, f1) =>
      let relativePath :=
        match m.relative srcFileFullPath srcBase f1 with
        | .ok relativePath => relativePath
        | .error _ => m.baseName srcFileFullPath f1
      match FileOps.FileExists (fun p => m.stat p f1) dstFileFullPath with
      | .error _ => (acc.1, f1)
      | .ok existed =>
          let shouldCopy :=
            if !existed then true
            else
              match m.equal srcFileFullPath dstFileFullPath overwriteHeaders f1 with
              | .error _ => true
              | .ok isEqual => !isEqual
          if shouldCopy then
            match m.copy srcFileFullPath dstFileFullPath overwriteHeaders f1 with
            | (some _, f2) => (acc.1, f2)
            | (none, f2) =>
                let result : SyncResult :=
                  { Operations := acc.1.Operations ++
                      [{ OpType := if !existed then "add" else "update",
                         SourcePath := srcFileFullPath, TargetPath := dstFileFullPath,
                         RelativePath := relativePath }],
                    HasChanges := true }
                (result, f2)
          else (acc.1, f1)

/-- The collaborators `c` behave as the model `m` on the state of the file system that
`view` reads off the world: every answer is the answer of the model in that
state, `FileExists` answers as `FileOps.FileExists` does on `Stat`, only
`RecreateDirectoryStructure` and `Copy` change the state, as the model says, and
the output methods leave it alone. -/
def Agrees {W F : Type} (c : Collaborators W) (view : W → F) (m : EngineModel F) : Prop :=
  (∀ src sb db w,
      (c.RecreateDirectoryStructure src sb db w).1 = (m.recreate src sb db (view w)).1 ∧
        view (c.RecreateDirectoryStructure src sb db w).2 = (m.recreate src sb db (view w)).2) ∧
    (∀ p b w, (c.GetRelativePath p b w).1 = m.relative p b (view w) ∧
        view (c.GetRelativePath p b w).2 = view w) ∧
    (∀ p w, (c.GetBaseName p w).1 = m.baseName p (view w) ∧
        view (c.GetBaseName p w).2 = view w) ∧
    (∀ p w, (c.Stat p w).1 = m.stat p (view w) ∧ view (c.Stat p w).2 = view w) ∧
    (∀ p w, (c.FileExists p w).1 = FileOps.FileExists (fun q => m.stat q (view w)) p ∧
        view (c.FileExists p w).2 = view w) ∧
    (∀ a b o w, (c.AreEqual a b o w).1 = m.equal a b o (view w) ∧
        view (c.AreEqual a b o w).2 = view w) ∧
    (∀ a b o w, (c.Copy a b o w).1 = (m.copy a b o (view w)).1 ∧
        view (c.Copy a b o w).2 = (m.copy a b o (view w)).2) ∧
    (∀ f a w, view (c.PrintErrorf f a w) = view w) ∧
    (∀ t r w, view (c.PrintOperation t r w) = view w) ∧
    (∀ t r g w, view (c.PrintOperationWithTarget t r g w) = view w)

/-! ## Test doubles for the comparator, the copier and failing listings -/

/-- The byte of a hyphen. -/
def HYPHEN : UInt8 := 45

/-- The front-matter convention as a test double of the header convention: a content
that starts with a line `---` and has a later line `---` is split after that
closing line; any other content has an empty header. -/
def splitFrontMatter : Splitter := fun content =>
  match lines content with
  | first :: rest =>
      if first = [HYPHEN, HYPHEN, HYPHEN] ∧ [HYPHEN, HYPHEN, HYPHEN] ∈ rest then
        let headerLength :=
          4 + ((rest.takeWhile (fun l => l ≠ [HYPHEN, HYPHEN, HYPHEN])).map
            (fun l => l.length + 1)).sum + 4
        (content.take headerLength, content.drop headerLength)
      else ([], content)
  | [] => ([], content)

/-- The bytes of a text of ASCII characters. -/
def ascii (text : String) : Bytes := text.data.map (fun ch => ch.toNat.toUInt8)

/-- A source rule file and a destination rule file with the same body and different
headers, a plain text file, a destination rule file `b.mdc` in normal form and a
destination rule file `crlf.mdc` whose lines end in CRLF. -/
def rulesFS : FileSystem := fun path =>
  if path = "/src/a.mdc" then some (ascii "---\nglobs: *.go\n---\nUse tabs.\n")
  else if path = "/dst/a.mdc" then some (ascii "---\nglobs: *.ts\n---\nUse tabs.\r\n\n")
  else if path = "/src/new.mdc" then some (ascii "---\nglobs: *.go\n---\nUse spaces.\n")
  else if path = "/dst/notes.txt" then some (ascii "plain\n")
  else if path = "/dst/b.mdc" then some (ascii "---\nglobs: *.ts\n---\nUse tabs.\n")
  else if path = "/dst/crlf.mdc" then
    some (ascii "---\r\nglobs: *.ts\r\n---\r\nUse tabs.\r\n")
  else none

/-- The error of a directory that cannot be listed. -/
def errWalk : GoError := .leaf "readdirent: permission denied" false

/-- As `trees listingProject`, but the rules directory of the project cannot be listed. -/
def treesProjectUnlisted : Collaborators Unit :=
  { trees listingProject true none with
    FindAllFiles := fun dir w =>
      if dir = "/project/.cursor/rules" then (.error errWalk, w)
      else (.ok (listingProject dir), w) }

/-- As `trees listingProject`, but the rules directory `/rules` cannot be listed. -/
def treesRulesUnlisted : Collaborators Unit :=
  { trees listingProject true none with
    FindAllFiles := fun dir w =>
      if dir = "/rules" then (.error errWalk, w) else (.ok (listingProject dir), w) }

/-- As `trees listingSrcDst`, but no file can be removed. -/
def treesNoRemoval : Collaborators Unit :=
  { trees listingSrcDst true none with RemoveFile := fun _ w => (some errRead, w) }

/-- A rules directory `/rules` with `a.mdc`, and a project whose rules directory holds
`a.mdc` and the orphan `old.mdc`. -/
def listingStaleProject (dir : String) : List String :=
  if dir = "/rules" then ["/rules/a.mdc"]
  else if dir = "/project/.cursor/rules" then
    ["/project/.cursor/rules/a.mdc", "/project/.cursor/rules/old.mdc"]
  else []

/-- The error of the test "error cleaning up extra files". -/
def errCleanup : GoError := .leaf "cleanup error" false

/-- The collaborators of the test "error cleaning up extra files" of
`pull_rules_test.go`: the patterns are `*.mdc` and the cleanup by patterns fails. -/
def treesPatternCleanupFails : Collaborators Unit :=
  { trees listingProject true none with
    GetFilePatterns := fun _ w => (.ok ["*.mdc"], w)
    CleanupExtraFilesByPatterns := fun _ _ _ _ w => (some errCleanup, w) }

/-- Options of a run on the rules directory `/rules` with the pattern `*.mdc`. -/
def optionsMdc : SyncOptions :=
  { RulesDir := "/rules", FilePatterns := "*.mdc", OverwriteHeaders := false,
    GitWithoutPush := false }

/-- Collaborators with a memory: the world counts the calls of `GetBaseName`, and `Copy`
fails once `GetBaseName` has been called.  No destination file exists: `Stat`
reports "not found" and `FileExists` reports `false`, as `FileOps.FileExists` does
on that answer of `Stat`. -/
def countingCollaborators : Collaborators Nat where
  PrintErrorf _ _ w := w
  PrintOperation _ _ w := w
  PrintOperationWithTarget _ _ _ w := w
  RecreateDirectoryStructure srcPath srcBase dstBase w :=
    (.ok (dstBase ++ "/" ++ below srcPath srcBase), w)
  GetRelativePath filePath baseDir w := (.ok (below filePath baseDir), w)
  GetBaseName _ w := ("dst", w + 1)
  GetGitRootDir _ w := (.ok "/project", w)
  CommitChanges _ _ _ w := (none, w)
  GetFilePatterns _ w := (.ok [], w)
  FindFilesByPatterns _ _ w := (.ok [], w)
  CleanupExtraFilesByPatterns _ _ _ _ w := (none, w)
  AreEqual _ _ _ w := (.ok true, w)
  Copy _ _ _ w := (if w = 0 then none else some errRead, w)
  FindAllFiles _ w := (.ok [], w)
  GetCurrentDir w := (.ok "/project", w)
  MkdirAll _ _ w := (none, w)
  Stat _ w := (.error errNotExist, w)
  FileExists p w := (FileOps.FileExists (fun _ => .error errNotExist) p, w)
  RemoveFile _ w := (none, w)

/-- A model of the engine over a disk: the state is the list of the files that exist;
`Stat` finds the files of the list, `Copy` adds its destination to the list, two
files are never equal. -/
def diskModel : EngineModel (List String) where
  recreate srcPath srcBase dstBase files :=
    (.ok (dstBase ++ "/" ++ below srcPath srcBase), files)
  relative filePath baseDir _ := .ok (below filePath baseDir)
  baseName _ _ := "dst"
  stat filePath files := if filePath ∈ files then .ok () else .error errNotExist
  equal _ _ _ _ := .ok false
  copy _ dstPath _ files := (none, dstPath :: files)

/-- Collaborators over a disk: the world is the list of the files that exist; `Copy`
writes its destination, `Stat` reads the disk, and `FileExists` is
`FileOps.FileExists` on that `Stat`. -/
def diskCollaborators : Collaborators (List String) where
  PrintErrorf _ _ w := w
  PrintOperation _ _ w := w
  PrintOperationWithTarget _ _ _ w := w
  RecreateDirectoryStructure srcPath srcBase dstBase w :=
    diskModel.recreate srcPath srcBase dstBase w
  GetRelativePath filePath baseDir w := (diskModel.relative filePath baseDir w, w)
  GetBaseName p w := (diskModel.baseName p w, w)
  GetGitRootDir _ w := (.ok "/project", w)
  CommitChanges _ _ _ w := (none, w)
  GetFilePatterns _ w := (.ok [], w)
  FindFilesByPatterns _ _ w := (.ok [], w)
  CleanupExtraFilesByPatterns _ _ _ _ w := (none, w)
  AreEqual a b o w := (diskModel.equal a b o w, w)
  Copy a b o w := diskModel.copy a b o w
  FindAllFiles _ w := (.ok w, w)
  GetCurrentDir w := (.ok "/project", w)
  MkdirAll _ _ w := (none, w)
  Stat p w := (diskModel.stat p w, w)
  FileExists p w := (FileOps.FileExists (fun q => diskModel.stat q w) p, w)
  RemoveFile _ w := (none, w)

/-- The operation of a pull that updates `a.mdc` in the project. -/
def updateOfA : FileOperation :=
  { OpType := "update", SourcePath := "/rules/a.mdc",
    TargetPath := "/project/.cursor/rules/a.mdc", RelativePath := "a.mdc" }

/-! # Theorems -/

/-! ## The normaliser -/

theorem replaceFrom_cr (s : Bytes) : replaceFrom [CR] [LF] 0 s = crToLf s := by
  induction s with
  | nil => rfl
  | cons b rest ih =>
    have ih2 : replaceFrom [CR] [LF] 0 rest
        = List.map (fun b => if b = CR then LF else b) rest := ih
    by_cases h : b = CR
    · subst h
      simp [replaceFrom, crToLf, ih2]
    · have h2 : ¬ CR = b := fun e => h e.symm
      simp [replaceFrom, crToLf, h, h2, ih2]

theorem replaceFrom_crlf (s : Bytes) : replaceFrom [CR, LF] [LF] 0 s = crlfToLf s := by
  induction s using crlfToLf.induct with
  | case1 => rfl
  | case2 b =>
    simp [replaceFrom, crlfToLf, List.isPrefixOf]
  | case3 b c rest h ih =>
    obtain ⟨hb, hc⟩ := h
    subst hb; subst hc
    simp [replaceFrom, crlfToLf, ih]
  | case4 b c rest h ih =>
    have h2 : ¬ (CR = b ∧ LF = c) := fun e => h ⟨e.1.symm, e.2.symm⟩
    rw [crlfToLf, if_neg h, ← ih]
    simp [replaceFrom, h2]

theorem stripTrailing_concat (p : UInt8 → Bool) (s : Bytes) (x : UInt8) :
    stripTrailing p (s ++ [x]) = if p x then stripTrailing p s else s ++ [x] := by
  induction s with
  | nil => by_cases h : p x <;> simp [stripTrailing, h]
  | cons b rest ih =>
    have e : stripTrailing p (b :: (rest ++ [x])) =
        if (stripTrailing p (rest ++ [x])).isEmpty && p b then []
        else b :: stripTrailing p (rest ++ [x]) := rfl
    have e2 : stripTrailing p (b :: rest) =
        if (stripTrailing p rest).isEmpty && p b then [] else b :: stripTrailing p rest := rfl
    rw [List.cons_append, e, ih]
    by_cases h : p x
    · simp [h, e2]
    · simp [h]

theorem trimRight_concat (s cutset : Bytes) (b : UInt8) :
    TrimRight (s ++ [b]) cutset = if cutset.contains b then TrimRight s cutset else s ++ [b] :=
  List.rdropWhile_concat _ _ _

theorem trimRight_eq_strip (s cutset : Bytes) :
    TrimRight s cutset = stripTrailing (fun b => cutset.contains b) s := by
  induction s using List.reverseRecOn with
  | nil => rfl
  | append_singleton l x ih =>
    rw [trimRight_concat, stripTrailing_concat, ← ih]

theorem convertLineEndings_eq (x : Bytes) : convertLineEndings x = crToLf (crlfToLf x) := by
  simp [convertLineEndings, ReplaceAll, replaceFrom_cr, replaceFrom_crlf]

theorem normalize_eq (x : Bytes) :
    normalize x = if trimmed x = [] then [] else trimmed x ++ [LF] := by
  unfold normalize trimmed convertLineEndings
  simp only []
  split
  · rename_i h
    rw [if_neg]
    intro h2
    rw [h2] at h
    simp at h
  · rename_i h
    have h3 : (TrimRight (TrimRight (ReplaceAll (ReplaceAll x [CR, LF] [LF]) [CR] [LF])
        [SP, TAB]) [LF]) = [] := by
      simpa using h
    rw [if_pos h3, h3]

theorem cr_not_mem_crToLf (s : Bytes) : CR ∉ crToLf s := by
  intro h
  simp only [crToLf, List.mem_map] at h
  obtain ⟨b, _, hb⟩ := h
  by_cases e : b = CR
  · rw [if_pos e] at hb
    exact absurd hb (by decide)
  · rw [if_neg e] at hb
    exact e hb

theorem crToLf_of_not_mem (s : Bytes) (h : CR ∉ s) : crToLf s = s := by
  induction s with
  | nil => rfl
  | cons b rest ih =>
    have hb : ¬ b = CR := fun e => h (by simp [e])
    have hr : CR ∉ rest := fun e => h (List.mem_cons_of_mem _ e)
    have ih2 := ih hr
    simp only [crToLf] at ih2 ⊢
    simp [hb, ih2]

theorem crlfToLf_of_not_mem (s : Bytes) (h : CR ∉ s) : crlfToLf s = s := by
  induction s with
  | nil => rfl
  | cons b rest ih =>
    have hb : ¬ b = CR := fun e => h (by simp [e])
    have hr : CR ∉ rest := fun e => h (List.mem_cons_of_mem _ e)
    cases rest with
    | nil => rfl
    | cons c rest2 =>
      rw [crlfToLf, if_neg (fun e => hb e.1), ih hr]

theorem convertLineEndings_of_not_mem (s : Bytes) (h : CR ∉ s) : convertLineEndings s = s := by
  rw [convertLineEndings_eq, crlfToLf_of_not_mem s h, crToLf_of_not_mem s h]

theorem cr_not_mem_convert (x : Bytes) : CR ∉ convertLineEndings x := by
  rw [convertLineEndings_eq]; exact cr_not_mem_crToLf _

theorem trimRight_isPrefix (s cutset : Bytes) : TrimRight s cutset <+: s :=
  List.rdropWhile_prefix (fun b => cutset.contains b) s

theorem trimmed_isPrefix (x : Bytes) : trimmed x <+: convertLineEndings x :=
  (trimRight_isPrefix _ _).trans (trimRight_isPrefix _ _)

theorem cr_not_mem_trimmed (x : Bytes) : CR ∉ trimmed x :=
  fun h => cr_not_mem_convert x ((trimmed_isPrefix x).subset h)

theorem trimRight_idem (s cutset : Bytes) :
    TrimRight (TrimRight s cutset) cutset = TrimRight s cutset :=
  List.rdropWhile_idempotent _ _

theorem cr_not_mem_trimmed_lf (x : Bytes) : CR ∉ trimmed x ++ [LF] := by
  intro hm
  rcases List.mem_append.1 hm with hm | hm
  · exact cr_not_mem_trimmed x hm
  · simp at hm; exact absurd hm (by decide)

theorem normalize_congr (a b : Bytes) (h : convertLineEndings a = convertLineEndings b) :
    normalize a = normalize b := by
  have e : trimmed a = trimmed b := by
    unfold trimmed; rw [h]
  rw [normalize_eq, normalize_eq, e]

theorem contains_sp_tab : (fun b : UInt8 => List.contains [SP, TAB] b)
    = (fun b => b == SP || b == TAB) := by
  funext b; simp only [List.contains, List.elem]
  cases (b == SP) <;> cases (b == TAB) <;> rfl

theorem contains_lf : (fun b : UInt8 => List.contains [LF] b) = (fun b => b == LF) := by
  funext b; simp only [List.contains, List.elem]
  cases (b == LF) <;> rfl

theorem normalize_examples :
    normalize [97, 32, 13, 10, 32] = [97, 32, 10] ∧
      normalize [10, 32] = [] ∧
      normalize [32, 10] = [32, 10] ∧
      normalize [97, 13, 13, 10, 98, 9, 10, 10, 32] = [97, 10, 10, 98, 9, 10] := by
  decide

/-- C1: normalisation is idempotent; normalising an already normalised content
returns it unchanged. -/
theorem normalize_idempotent (x : Bytes) : normalize (normalize x) = normalize x := by
  rw [normalize_eq x]
  by_cases h : trimmed x = []
  · rw [if_pos h]; rfl
  · rw [if_neg h]
    have ht : trimmed (trimmed x ++ [LF]) = trimmed x := by
      have e : trimmed (trimmed x ++ [LF]) =
          TrimRight (TrimRight (convertLineEndings (trimmed x ++ [LF])) [SP, TAB]) [LF] := rfl
      rw [e, convertLineEndings_of_not_mem _ (cr_not_mem_trimmed_lf x), trimRight_concat,
        if_neg (by decide), trimRight_concat, if_pos (by decide)]
      exact trimRight_idem _ _
    rw [normalize_eq, ht, if_neg h]

/-- C2: for a readable file, `ReadFileNormalized` returns what the steps of the
specification give, in their order: CR LF to LF, then CR to LF, then the trailing run
of spaces and tabs stripped, then the trailing LFs stripped, then one LF appended
unless nothing remains. -/
theorem ReadFileNormalized_follows_spec_steps (readFile : String → Except GoError Bytes)
    (filePath : String) (content : Bytes) (h : readFile filePath = .ok content) :
    ReadFileNormalized readFile filePath = .ok (normalizeSpec content) := by
  have hread : ReadFileNormalized readFile filePath = .ok (normalize content) := by
    simp [ReadFileNormalized, h]
  have hsteps : normalize content = normalizeSpec content := by
    rw [normalize_eq]
    unfold normalizeSpec trimmed
    rw [convertLineEndings_eq, trimRight_eq_strip, trimRight_eq_strip, contains_sp_tab,
      contains_lf]
  rw [hread, hsteps]

theorem ReadFileNormalized_follows_spec_steps_witness :
    (fun _ => Except.ok [97, 32, 13, 10, 13, 98, 9, 10, 10, 32]) "rule.mdc"
        = (Except.ok [97, 32, 13, 10, 13, 98, 9, 10, 10, 32] : Except GoError Bytes) ∧
      ReadFileNormalized (fun _ => .ok [97, 32, 13, 10, 13, 98, 9, 10, 10, 32]) "rule.mdc"
        = .ok (normalizeSpec [97, 32, 13, 10, 13, 98, 9, 10, 10, 32]) :=
  ⟨rfl, ReadFileNormalized_follows_spec_steps _ "rule.mdc" _ rfl⟩

/-- C3: the normalised content contains no carriage return, and it is empty or it
ends with exactly one newline: its last byte is LF and the byte before it, if
any, is not. -/
theorem normalize_no_cr_one_final_newline (x : Bytes) :
    CR ∉ normalize x ∧
      (normalize x = [] ∨
        ((normalize x).getLast? = some LF ∧ (normalize x).dropLast.getLast? ≠ some LF)) := by
  rw [normalize_eq x]
  by_cases h : trimmed x = []
  · rw [if_pos h]; simp
  · rw [if_neg h]
    refine ⟨cr_not_mem_trimmed_lf x, Or.inr ⟨by simp, ?_⟩⟩
    rw [List.dropLast_concat, List.getLast?_eq_getLast _ h]
    intro e
    have hlast := List.rdropWhile_last_not (fun b => [LF].contains b)
      (TrimRight (convertLineEndings x) [SP, TAB]) h
    apply hlast
    have e2 : (trimmed x).getLast h = LF := Option.some.inj e
    have e3 : (List.rdropWhile (fun b => [LF].contains b)
        (TrimRight (convertLineEndings x) [SP, TAB])).getLast h = LF := e2
    rw [e3]; decide

/-! ### Lines and trailing horizontal whitespace -/

theorem endsWithHSpace_concat (l : Bytes) (b : UInt8) :
    endsWithHSpace (l ++ [b]) = isHSpace b := by
  simp [endsWithHSpace]

theorem lines_snoc (s : Bytes) :
    ∃ init last, lines s = init ++ [last] ∧ lines (s ++ [LF]) = init ++ [last, []] ∧
      ∀ b, b ≠ LF → lines (s ++ [b]) = init ++ [last ++ [b]] := by
  unfold lines
  induction s with
  | nil =>
    refine ⟨[], [], rfl, rfl, ?_⟩
    intro b hb
    simp [splitSep, hb]
  | cons a r ih =>
    obtain ⟨init, last, h1, h2, h3⟩ := ih
    by_cases ha : a = LF
    · refine ⟨[] :: init, last, ?_, ?_, ?_⟩
      · simp [splitSep, ha, h1]
      · rw [List.cons_append, splitSep, if_pos ha, h2]; rfl
      · intro b hb
        rw [List.cons_append, splitSep, if_pos ha, h3 b hb]; rfl
    · cases init with
      | nil =>
        refine ⟨[], a :: last, ?_, ?_, ?_⟩
        · rw [splitSep, if_neg ha, h1]; rfl
        · rw [List.cons_append, splitSep, if_neg ha, h2]; rfl
        · intro b hb
          rw [List.cons_append, splitSep, if_neg ha, h3 b hb]; rfl
      | cons i is =>
        refine ⟨(a :: i) :: is, last, ?_, ?_, ?_⟩
        · rw [splitSep, if_neg ha, h1]; rfl
        · rw [List.cons_append, splitSep, if_neg ha, h2]; rfl
        · intro b hb
          rw [List.cons_append, splitSep, if_neg ha, h3 b hb]; rfl

theorem clean_snoc_lf (s : Bytes) :
    (allLinesClean (s ++ [LF]) ↔ allLinesClean s) ∧
      (terminatedLinesClean (s ++ [LF]) ↔ allLinesClean s) := by
  obtain ⟨init, last, h1, h2, -⟩ := lines_snoc s
  have e : (init ++ [last, []]).dropLast = init ++ [last] := by
    rw [show init ++ [last, []] = (init ++ [last]) ++ [[]] by simp, List.dropLast_concat]
  constructor
  · simp only [allLinesClean, h1, h2]
    constructor
    · intro h l hl
      apply h
      simp only [List.mem_append, List.mem_cons, List.mem_singleton] at hl ⊢
      rcases hl with hl | hl
      · exact Or.inl hl
      · exact Or.inr (Or.inl (hl.resolve_right (by simp)))
    · intro h l hl
      simp only [List.mem_append, List.mem_cons, List.mem_singleton] at hl
      rcases hl with hl | hl | hl | hl
      · exact h l (by simp [hl])
      · exact h l (by simp [hl])
      · rw [hl]; rfl
      · simp at hl
  · simp only [allLinesClean, terminatedLinesClean, h1, h2, e]

theorem clean_snoc_other (s : Bytes) (b : UInt8) (hb : b ≠ LF) :
    (terminatedLinesClean (s ++ [b]) ↔ terminatedLinesClean s) ∧
      (allLinesClean (s ++ [b]) ↔ terminatedLinesClean s ∧ isHSpace b = false) := by
  obtain ⟨init, last, h1, -, h3⟩ := lines_snoc s
  simp only [allLinesClean, terminatedLinesClean, h1, h3 b hb, List.dropLast_concat]
  refine ⟨trivial, ?_⟩
  constructor
  · intro h
    refine ⟨fun l hl => h l (by simp [hl]), ?_⟩
    rw [← endsWithHSpace_concat last b]
    exact h _ (by simp)
  · intro h l hl
    simp only [List.mem_append, List.mem_singleton] at hl
    rcases hl with hl | hl
    · exact h.1 l hl
    · rw [hl, endsWithHSpace_concat]; exact h.2

theorem allLinesClean_nil : allLinesClean [] := by
  intro l hl
  simp [lines, splitSep] at hl
  rw [hl]; rfl

theorem terminated_of_all (s : Bytes) (h : allLinesClean s) : terminatedLinesClean s :=
  fun l hl => h l (List.mem_of_mem_dropLast hl)

theorem terminatedLinesClean_of_append (s r : Bytes) (h : terminatedLinesClean (s ++ r)) :
    terminatedLinesClean s := by
  induction r using List.reverseRecOn with
  | nil => simpa using h
  | append_singleton r b ih =>
    rw [← List.append_assoc] at h
    by_cases hb : b = LF
    · subst hb
      exact ih (terminated_of_all _ ((clean_snoc_lf _).2.1 h))
    · exact ih ((clean_snoc_other _ b hb).1.1 h)

theorem last_clean_of_all (s : Bytes) (h : allLinesClean s) (hs : s ≠ []) :
    isHSpace (s.getLast hs) = false := by
  induction s using List.reverseRecOn with
  | nil => exact absurd rfl hs
  | append_singleton r b _ =>
    rw [List.getLast_append_singleton]
    by_cases hb : b = LF
    · subst hb; rfl
    · exact ((clean_snoc_other _ b hb).2.1 h).2

theorem allLinesClean_trim_lf (t : Bytes) (h : terminatedLinesClean t)
    (hl : ∀ ht : t ≠ [], isHSpace (t.getLast ht) = false) :
    allLinesClean (TrimRight t [LF]) := by
  induction t using List.reverseRecOn with
  | nil => exact allLinesClean_nil
  | append_singleton r b ih =>
    rw [trimRight_concat]
    by_cases hb : b = LF
    · subst hb
      rw [if_pos (by decide)]
      have hr : allLinesClean r := (clean_snoc_lf r).2.1 h
      exact ih (terminated_of_all r hr) (fun ht => last_clean_of_all r hr ht)
    · have hc : ¬ (List.contains [LF] b = true) := by
        simpa using hb
      rw [if_neg hc]
      refine (clean_snoc_other r b hb).2.2 ⟨(clean_snoc_other r b hb).1.1 h, ?_⟩
      have h2 := hl (by simp)
      rwa [List.getLast_append_singleton] at h2

theorem trimRight_hspace_last (c : Bytes) (ht : TrimRight c [SP, TAB] ≠ []) :
    isHSpace ((TrimRight c [SP, TAB]).getLast ht) = false := by
  have h := List.rdropWhile_last_not (fun b => [SP, TAB].contains b) c ht
  have e : ∀ b : UInt8, List.contains [SP, TAB] b = isHSpace b := by
    intro b
    simp only [List.contains, List.elem, isHSpace]
    cases (b == SP) <;> cases (b == TAB) <;> rfl
  rw [e] at h
  exact Bool.eq_false_iff.2 h

/-- C4, as stated, fails: the content `"a \n"` is its own normal form, and its first
line ends with a space. -/
theorem normalize_keeps_inner_trailing_space :
    normalize [97, 32, 10] = [97, 32, 10] ∧
      ¬ ∀ l ∈ lines (normalize [97, 32, 10]), endsWithHSpace l = false := by
  decide

/-- C4, amended: only the run of spaces and tabs that ends the content is stripped.
When no newline-terminated line of the content (after the conversion of line
endings) ends with a space or a tab, no line of the normalised content ends with
a space or a tab. -/
theorem normalize_lines_clean_of_terminated_clean (x : Bytes)
    (h : ∀ l ∈ (lines (convertLineEndings x)).dropLast, endsWithHSpace l = false) :
    ∀ l ∈ lines (normalize x), endsWithHSpace l = false := by
  have h1 : terminatedLinesClean (TrimRight (convertLineEndings x) [SP, TAB]) := by
    obtain ⟨r, hr⟩ := trimRight_isPrefix (convertLineEndings x) [SP, TAB]
    apply terminatedLinesClean_of_append _ r
    rw [hr]; exact h
  have h2 : allLinesClean (trimmed x) :=
    allLinesClean_trim_lf _ h1 (trimRight_hspace_last _)
  rw [normalize_eq]
  by_cases ht : trimmed x = []
  · rw [if_pos ht]; exact allLinesClean_nil
  · rw [if_neg ht]; exact (clean_snoc_lf _).1.2 h2

theorem normalize_lines_clean_of_terminated_clean_witness :
    (∀ l ∈ (lines (convertLineEndings [97, 13, 10, 98, 32, 9])).dropLast,
        endsWithHSpace l = false) ∧
      ∀ l ∈ lines (normalize [97, 13, 10, 98, 32, 9]), endsWithHSpace l = false :=
  ⟨by decide, normalize_lines_clean_of_terminated_clean [97, 13, 10, 98, 32, 9] (by decide)⟩

/-! ### Line-ending conventions -/

theorem crlfToLf_cons_of_ne (b : UInt8) (w : Bytes) (hb : b ≠ CR) :
    crlfToLf (b :: w) = b :: crlfToLf w := by
  cases w with
  | nil => rfl
  | cons c w2 => rw [crlfToLf, if_neg (fun e => hb e.1)]

theorem crlfToLf_withCRLF (x : Bytes) (h : CR ∉ x) : crlfToLf (withCRLF x) = x := by
  induction x with
  | nil => rfl
  | cons b rest ih =>
    have hb : ¬ b = CR := fun e => h (by simp [e])
    have hr : CR ∉ rest := fun e => h (List.mem_cons_of_mem _ e)
    have e : withCRLF (b :: rest) = (if b = LF then [CR, LF] else [b]) ++ withCRLF rest := by
      simp [withCRLF]
    rw [e]
    by_cases hl : b = LF
    · rw [if_pos hl]
      show crlfToLf (CR :: LF :: withCRLF rest) = b :: rest
      rw [crlfToLf, if_pos ⟨rfl, rfl⟩, ih hr, hl]
    · rw [if_neg hl]
      show crlfToLf (b :: withCRLF rest) = b :: rest
      rw [crlfToLf_cons_of_ne b _ hb, ih hr]

theorem crlfToLf_of_no_lf (s : Bytes) (h : LF ∉ s) : crlfToLf s = s := by
  induction s with
  | nil => rfl
  | cons b rest ih =>
    have hr : LF ∉ rest := fun e => h (List.mem_cons_of_mem _ e)
    cases rest with
    | nil => rfl
    | cons c rest2 =>
      have hc : ¬ c = LF := fun e => hr (by simp [e])
      rw [crlfToLf, if_neg (fun e => hc e.2), ih hr]

theorem lf_not_mem_withCR (x : Bytes) : LF ∉ withCR x := by
  intro h
  simp only [withCR, List.mem_map] at h
  obtain ⟨b, _, hb⟩ := h
  by_cases e : b = LF
  · rw [if_pos e] at hb
    exact absurd hb (by decide)
  · rw [if_neg e] at hb
    exact e hb

theorem crToLf_withCR (x : Bytes) (h : CR ∉ x) : crToLf (withCR x) = x := by
  induction x with
  | nil => rfl
  | cons b rest ih =>
    have hb : ¬ b = CR := fun e => h (by simp [e])
    have hr : CR ∉ rest := fun e => h (List.mem_cons_of_mem _ e)
    have ih2 := ih hr
    simp only [crToLf, withCR, List.map_map, List.map_cons] at ih2 ⊢
    rw [ih2]
    by_cases hl : b = LF
    · simp [hl]
    · simp [hl, hb]

/-- C5: for a content without carriage return, writing its line ends as CR LF or as
a lone CR does not change the normalised content. -/
theorem normalize_line_ending_independent (x : Bytes) (h : CR ∉ x) :
    normalize (withCRLF x) = normalize x ∧ normalize (withCR x) = normalize x := by
  constructor
  · apply normalize_congr
    rw [convertLineEndings_eq, crlfToLf_withCRLF x h, crToLf_of_not_mem x h,
      convertLineEndings_of_not_mem x h]
  · apply normalize_congr
    rw [convertLineEndings_eq, crlfToLf_of_no_lf _ (lf_not_mem_withCR x), crToLf_withCR x h,
      convertLineEndings_of_not_mem x h]

theorem normalize_line_ending_independent_witness :
    CR ∉ ([97, 10, 98, 32, 10] : Bytes) ∧
      normalize (withCRLF [97, 10, 98, 32, 10]) = normalize [97, 10, 98, 32, 10] ∧
      normalize (withCR [97, 10, 98, 32, 10]) = normalize [97, 10, 98, 32, 10] :=
  ⟨by decide, normalize_line_ending_independent [97, 10, 98, 32, 10] (by decide)⟩

/-! ## The pattern specification -/

theorem mem_RemoveDuplicates (l : List String) (q : String) :
    q ∈ RemoveDuplicates l ↔ q ∈ l := by
  induction l with
  | nil => simp [RemoveDuplicates]
  | cons x xs ih =>
    simp only [RemoveDuplicates, List.mem_cons, List.mem_filter, ih]
    by_cases h : q = x <;> simp [h]

theorem nodup_RemoveDuplicates (l : List String) : (RemoveDuplicates l).Nodup := by
  induction l with
  | nil => simp [RemoveDuplicates]
  | cons x xs ih =>
    simp only [RemoveDuplicates, List.nodup_cons]
    exact ⟨by simp [List.mem_filter], ih.filter _⟩

theorem sublist_RemoveDuplicates (l : List String) : (RemoveDuplicates l).Sublist l := by
  induction l with
  | nil => simp [RemoveDuplicates]
  | cons x xs ih =>
    simp only [RemoveDuplicates]
    exact ((List.filter_sublist _).trans ih).cons₂ x

theorem RemoveDuplicates_append (a b : List String) :
    RemoveDuplicates (a ++ b) =
      RemoveDuplicates a ++ (RemoveDuplicates b).filter (fun y => y ∉ a) := by
  induction a with
  | nil => simp [RemoveDuplicates]
  | cons x xs ih =>
    have e : RemoveDuplicates (x :: xs ++ b) =
        x :: (RemoveDuplicates (xs ++ b)).filter (fun y => y ≠ x) := rfl
    have e2 : RemoveDuplicates (x :: xs) =
        x :: (RemoveDuplicates xs).filter (fun y => y ≠ x) := rfl
    rw [e, e2, ih, List.filter_append, List.filter_filter, List.cons_append]
    congr 2
    apply List.filter_congr
    intro y _
    by_cases h : y = x <;> simp [h]

theorem GetFilePatterns_eq (flagValue : String) :
    GetFilePatterns flagValue = .ok (RemoveDuplicates (trimmedTokens flagValue ',')) := by
  by_cases h : flagValue = ""
  · subst h; rfl
  · simp [GetFilePatterns, h, SplitTrimFilter]

theorem mem_trimmedTokens (s : String) (sep : Char) (p : String) :
    p ∈ trimmedTokens s sep ↔
      p ≠ "" ∧ ∃ tok ∈ splitSep sep s.data, String.mk (TrimSpace tok) = p := by
  simp only [trimmedTokens, List.mem_filter, List.mem_map]
  constructor
  · rintro ⟨h1, h2⟩
    exact ⟨by simpa using h2, h1⟩
  · rintro ⟨h1, h2⟩
    exact ⟨h2, by simpa using h1⟩

/-- C6: for every pattern specification `GetFilePatterns` succeeds; the patterns it
returns are the non-empty trimmed tokens between the commas (each of them, nothing
else), in the order of the specification; the empty specification gives the empty
list, `" *.txt , *.md , "` gives `*.txt`, `*.md` and `" a , ,b "` gives `a`, `b`. -/
theorem GetFilePatterns_tokens (flagValue : String) :
    (∃ patterns, GetFilePatterns flagValue = .ok patterns ∧
      (∀ p, p ∈ patterns ↔
        p ≠ "" ∧ ∃ tok ∈ splitSep ',' flagValue.data, String.mk (TrimSpace tok) = p) ∧
      patterns.Sublist (trimmedTokens flagValue ',')) ∧
    GetFilePatterns "" = .ok [] ∧
    GetFilePatterns " *.txt , *.md , " = .ok ["*.txt", "*.md"] ∧
    GetFilePatterns " a , ,b " = .ok ["a", "b"] := by
  refine ⟨⟨_, GetFilePatterns_eq flagValue, ?_, sublist_RemoveDuplicates _⟩, rfl, rfl, rfl⟩
  intro p
  rw [mem_RemoveDuplicates, mem_trimmedTokens]

/-- C7: the list returned by `GetFilePatterns` has no duplicates, and a token stands
where it first occurs: in front of it are exactly the tokens that occur before its
first occurrence, and it does not appear again after it. -/
theorem GetFilePatterns_nodup_first_occurrence (flagValue : String) :
    ∃ patterns, GetFilePatterns flagValue = .ok patterns ∧ patterns.Nodup ∧
      ∀ pre p post, trimmedTokens flagValue ',' = pre ++ p :: post → p ∉ pre →
        ∃ before after, patterns = before ++ p :: after ∧
          (∀ q, q ∈ before ↔ q ∈ pre) ∧ p ∉ after := by
  refine ⟨_, GetFilePatterns_eq flagValue, nodup_RemoveDuplicates _, ?_⟩
  intro pre p post h hp
  refine ⟨RemoveDuplicates pre,
    ((RemoveDuplicates post).filter (fun y => y ≠ p)).filter (fun y => y ∉ pre), ?_,
    mem_RemoveDuplicates pre, ?_⟩
  · rw [h, RemoveDuplicates_append]
    simp [RemoveDuplicates, hp]
  · simp [List.mem_filter]

theorem GetFilePatterns_nodup_first_occurrence_witness :
    trimmedTokens "b, a ,b,c,a" ',' = ["b", "a", "b"] ++ "c" :: ["a"] ∧
      "c" ∉ ["b", "a", "b"] ∧
      ∃ patterns, GetFilePatterns "b, a ,b,c,a" = .ok patterns ∧ patterns.Nodup ∧
        ∃ before after, patterns = before ++ "c" :: after ∧
          (∀ q, q ∈ before ↔ q ∈ ["b", "a", "b"]) ∧ "c" ∉ after :=
  ⟨by rfl, by decide,
    match GetFilePatterns_nodup_first_occurrence "b, a ,b,c,a" with
    | ⟨patterns, h1, h2, h3⟩ => ⟨patterns, h1, h2, h3 ["b", "a", "b"] "c" ["a"] (by rfl) (by decide)⟩⟩

theorem GetFilePatterns_duplicates_example :
    GetFilePatterns "b, a ,b,c,a" = .ok ["b", "a", "c"] := by rfl


/-! ## The per-file engine of pull and push

`copyFiles` and `copyFilesForPush` run their loop body once for every source file, in
the order of the list, each time from the result and the state the previous files
left.  The statements below are about one such iteration, from an arbitrary result
and state. -/

theorem copyFiles_append_cons {W : Type} (c : Collaborators W) (pre post : List String)
    (src srcBase dstBase : String) (overwriteHeaders : Bool) (s : State W) :
    copyFiles c (pre ++ src :: post) srcBase dstBase overwriteHeaders s =
      post.foldl (copyFilesStep c srcBase dstBase overwriteHeaders)
        (copyFilesStep c srcBase dstBase overwriteHeaders
          (copyFiles c pre srcBase dstBase overwriteHeaders s) src) := by
  simp [copyFiles, List.foldl_append]

theorem copyFilesForPush_eq_foldl {W : Type} (c : Collaborators W) (projectFiles : List String)
    (srcBase dstBase : String) (overwriteHeaders : Bool) (s : State W) :
    copyFilesForPush c projectFiles srcBase dstBase overwriteHeaders s =
      projectFiles.foldl (copyFilesForPushStep c srcBase dstBase overwriteHeaders)
        ({ Operations := [], HasChanges := false }, s) := by
  unfold copyFilesForPush
  split
  · rename_i h
    rw [List.length_eq_zero.1 h]; rfl
  · rfl

theorem copyFilesForPush_append_cons {W : Type} (c : Collaborators W) (pre post : List String)
    (src srcBase dstBase : String) (overwriteHeaders : Bool) (s : State W) :
    copyFilesForPush c (pre ++ src :: post) srcBase dstBase overwriteHeaders s =
      post.foldl (copyFilesForPushStep c srcBase dstBase overwriteHeaders)
        (copyFilesForPushStep c srcBase dstBase overwriteHeaders
          (copyFilesForPush c pre srcBase dstBase overwriteHeaders s) src) := by
  simp [copyFilesForPush_eq_foldl, List.foldl_append]

theorem resolvePaths_calls {W : Type} (c : Collaborators W) (src srcBase dstBase : String)
    (s : State W) :
    ∃ evs, (resolvePaths c src srcBase dstBase s).2.calls = s.calls ++ evs ∧
      evs.filter Call.isAreEqual = [] ∧ evs.filter Call.isCopy = [] := by
  unfold resolvePaths invoke
  rcases h1 : c.RecreateDirectoryStructure src srcBase dstBase s.world with ⟨r1, w1⟩
  rcases r1 with e1 | dst
  · exact ⟨_, rfl, rfl, rfl⟩
  · simp only []
    rcases h2 : c.GetRelativePath src srcBase w1 with ⟨r2, w2⟩
    rcases r2 with e2 | rel
    · exact ⟨[Call.RecreateDirectoryStructure src srcBase dstBase,
        Call.GetRelativePath src srcBase, Call.GetBaseName src], by simp, rfl, rfl⟩
    · exact ⟨_, List.append_assoc _ _ _, rfl, rfl⟩

theorem checkFileExists_calls {W : Type} (c : Collaborators W) (dst rel : String) (s : State W) :
    ∃ evs, (checkFileExists c dst rel s).2.calls = s.calls ++ evs ∧
      evs.filter Call.isAreEqual = [] ∧ evs.filter Call.isCopy = [] := by
  unfold checkFileExists invoke emit
  rcases h1 : c.Stat dst s.world with ⟨r1, w1⟩
  rcases r1 with e1 | u
  · simp only []
    by_cases hn : IsNotExist e1 = true
    · rw [if_pos hn]; exact ⟨_, rfl, rfl, rfl⟩
    · rw [if_neg hn]; exact ⟨_, List.append_assoc _ _ _, rfl, rfl⟩
  · exact ⟨_, rfl, rfl, rfl⟩

theorem checkFileExistsForPush_calls {W : Type} (c : Collaborators W) (dst rel dstBase : String)
    (s : State W) :
    ∃ evs, (checkFileExistsForPush c dst rel dstBase s).2.calls = s.calls ++ evs ∧
      evs.filter Call.isAreEqual = [] ∧ evs.filter Call.isCopy = [] := by
  unfold checkFileExistsForPush invoke emit
  rcases h1 : c.FileExists dst s.world with ⟨r1, w1⟩
  rcases r1 with e1 | u
  · exact ⟨_, List.append_assoc _ _ _, rfl, rfl⟩
  · exact ⟨_, rfl, rfl, rfl⟩


/-- C8: when the existence check reports the destination of a source file absent, then
in pull (`copyFiles`) and in push (`copyFilesForPush`) the iteration for that file
never calls `AreEqual`, calls `Copy` once, for that file, and, if the copy succeeds,
records exactly one more operation, of type `add`, and sets `HasChanges`. -/
theorem absent_destination_is_added {W : Type} (c : Collaborators W) (srcBase dstBase : String)
    (overwriteHeaders : Bool) (result : SyncResult) (s s1 s2 : State W) (src dst rel : String) :
    (resolvePaths c src srcBase dstBase s = (.ok (dst, rel), s1) →
      checkFileExists c dst rel s1 = (.ok false, s2) →
      ∃ evs,
        (copyFilesStep c srcBase dstBase overwriteHeaders (result, s) src).2.calls
            = s.calls ++ evs ∧
          evs.filter Call.isAreEqual = [] ∧
          evs.filter Call.isCopy = [Call.Copy src dst overwriteHeaders] ∧
          ((c.Copy src dst overwriteHeaders s2.world).1 = none →
            (copyFilesStep c srcBase dstBase overwriteHeaders (result, s) src).1 =
              { Operations := result.Operations ++
                  [{ OpType := "add", SourcePath := src, TargetPath := dst,
                     RelativePath := rel }],
                HasChanges := true })) ∧
    (resolvePaths c src srcBase dstBase s = (.ok (dst, rel), s1) →
      checkFileExistsForPush c dst rel dstBase s1 = (.ok false, s2) →
      ∃ evs,
        (copyFilesForPushStep c srcBase dstBase overwriteHeaders (result, s) src).2.calls
            = s.calls ++ evs ∧
          evs.filter Call.isAreEqual = [] ∧
          evs.filter Call.isCopy = [Call.Copy src dst overwriteHeaders] ∧
          ((c.Copy src dst overwriteHeaders s2.world).1 = none →
            (copyFilesForPushStep c srcBase dstBase overwriteHeaders (result, s) src).1 =
              { Operations := result.Operations ++
                  [{ OpType := "add", SourcePath := src, TargetPath := dst,
                     RelativePath := rel }],
                HasChanges := true })) := by
  obtain ⟨evs1, he1, ha1, hc1⟩ := resolvePaths_calls c src srcBase dstBase s
  constructor
  · intro h1 h2
    obtain ⟨evs2, he2, ha2, hc2⟩ := checkFileExists_calls c dst rel s1
    rw [h1] at he1; rw [h2] at he2
    simp only at he1 he2
    rcases hcp : c.Copy src dst overwriteHeaders s2.world with ⟨r, w⟩
    rcases r with _ | err
    · refine ⟨evs1 ++ evs2 ++ [Call.Copy src dst overwriteHeaders, Call.PrintOperation "add" rel],
        ?_, ?_, ?_, ?_⟩
      · simp [copyFilesStep, h1, h2, shouldCopyFile, copySingleFile, invoke, emit, hcp, he1, he2]
      · simp [List.filter_append, ha1, ha2, Call.isAreEqual]
      · simp [List.filter_append, hc1, hc2, Call.isCopy]
      · intro _
        simp [copyFilesStep, h1, h2, shouldCopyFile, copySingleFile, invoke, emit, hcp]
    · refine ⟨evs1 ++ evs2 ++ [Call.Copy src dst overwriteHeaders,
          Call.PrintErrorf "Error synchronizing file %s: %v\n" [rel, err.Error]], ?_, ?_, ?_, ?_⟩
      · simp [copyFilesStep, h1, h2, shouldCopyFile, copySingleFile, invoke, emit, hcp, he1, he2]
      · simp [List.filter_append, ha1, ha2, Call.isAreEqual]
      · simp [List.filter_append, hc1, hc2, Call.isCopy]
      · intro h; simp at h
  · intro h1 h2
    obtain ⟨evs2, he2, ha2, hc2⟩ := checkFileExistsForPush_calls c dst rel dstBase s1
    rw [h1] at he1; rw [h2] at he2
    simp only at he1 he2
    rcases hcp : c.Copy src dst overwriteHeaders s2.world with ⟨r, w⟩
    rcases r with _ | err
    · refine ⟨evs1 ++ evs2 ++ [Call.Copy src dst overwriteHeaders, Call.GetBaseName dstBase,
          Call.PrintOperationWithTarget "add" rel (c.GetBaseName dstBase w).1], ?_, ?_, ?_, ?_⟩
      · simp [copyFilesForPushStep, h1, h2, shouldCopyFile, copySingleFileForPush, invoke, emit,
          hcp, he1, he2]
      · simp [List.filter_append, ha1, ha2, Call.isAreEqual]
      · simp [List.filter_append, hc1, hc2, Call.isCopy]
      · intro _
        simp [copyFilesForPushStep, h1, h2, shouldCopyFile, copySingleFileForPush, invoke, emit,
          hcp]
    · refine ⟨evs1 ++ evs2 ++ [Call.Copy src dst overwriteHeaders,
          Call.PrintErrorf "Error synchronizing file %s to %s: %v\n" [rel, dstBase, err.Error]],
          ?_, ?_, ?_, ?_⟩
      · simp [copyFilesForPushStep, h1, h2, shouldCopyFile, copySingleFileForPush, invoke, emit,
          hcp, he1, he2]
      · simp [List.filter_append, ha1, ha2, Call.isAreEqual]
      · simp [List.filter_append, hc1, hc2, Call.isCopy]
      · intro h; simp at h


theorem absent_destination_is_added_witness :
    (copyFilesStep stubAbsent "/src" "/dst" false
        ({ Operations := [], HasChanges := false }, State.start ()) "/src/a.mdc").1
      = { Operations := [{ OpType := "add", SourcePath := "/src/a.mdc",
                           TargetPath := "/dst/a.mdc", RelativePath := "a.mdc" }],
          HasChanges := true } ∧
    (copyFilesForPushStep stubAbsent "/src" "/dst" false
        ({ Operations := [], HasChanges := false }, State.start ()) "/src/a.mdc").1
      = { Operations := [{ OpType := "add", SourcePath := "/src/a.mdc",
                           TargetPath := "/dst/a.mdc", RelativePath := "a.mdc" }],
          HasChanges := true } :=
  ⟨match (absent_destination_is_added stubAbsent "/src" "/dst" false
        { Operations := [], HasChanges := false } (State.start ()) afterPaths afterStat
        "/src/a.mdc" "/dst/a.mdc" "a.mdc").1 rfl rfl with
    | ⟨_, _, _, _, h⟩ => h rfl,
   match (absent_destination_is_added stubAbsent "/src" "/dst" false
        { Operations := [], HasChanges := false } (State.start ()) afterPaths afterFileExists
        "/src/a.mdc" "/dst/a.mdc" "a.mdc").2 rfl rfl with
    | ⟨_, _, _, _, h⟩ => h rfl⟩

theorem copyFilesStep_all_equal {W : Type} (c : Collaborators W)
    (hstat : ∀ p w, (c.Stat p w).1 = .ok ())
    (heq : ∀ a b o w, (c.AreEqual a b o w).1 = .ok true)
    (srcBase dstBase : String) (oh : Bool) (acc : SyncResult × State W) (src : String) :
    (copyFilesStep c srcBase dstBase oh acc src).1 = acc.1 ∧
      (copyFilesStep c srcBase dstBase oh acc src).2.calls.filter Call.isCopy =
        acc.2.calls.filter Call.isCopy := by
  obtain ⟨evs1, he1, -, hc1⟩ := resolvePaths_calls c src srcBase dstBase acc.2
  rcases h1 : resolvePaths c src srcBase dstBase acc.2 with ⟨r1, s1⟩
  rw [h1] at he1
  simp only at he1
  rcases r1 with e1 | ⟨dst, rel⟩
  · simp [copyFilesStep, h1, emit, he1, List.filter_append, hc1, Call.isCopy]
  · simp [copyFilesStep, h1, checkFileExists, invoke, hstat, shouldCopyFile, heq, he1,
      List.filter_append, hc1, Call.isCopy]

theorem copyFilesForPushStep_all_equal {W : Type} (c : Collaborators W)
    (hex : ∀ p w, (c.FileExists p w).1 = .ok true)
    (heq : ∀ a b o w, (c.AreEqual a b o w).1 = .ok true)
    (srcBase dstBase : String) (oh : Bool) (acc : SyncResult × State W) (src : String) :
    (copyFilesForPushStep c srcBase dstBase oh acc src).1 = acc.1 ∧
      (copyFilesForPushStep c srcBase dstBase oh acc src).2.calls.filter Call.isCopy =
        acc.2.calls.filter Call.isCopy := by
  obtain ⟨evs1, he1, -, hc1⟩ := resolvePaths_calls c src srcBase dstBase acc.2
  rcases h1 : resolvePaths c src srcBase dstBase acc.2 with ⟨r1, s1⟩
  rw [h1] at he1
  simp only at he1
  rcases r1 with e1 | ⟨dst, rel⟩
  · simp [copyFilesForPushStep, h1, emit, he1, List.filter_append, hc1, Call.isCopy]
  · simp [copyFilesForPushStep, h1, checkFileExistsForPush, invoke, hex, shouldCopyFile, heq, he1,
      List.filter_append, hc1, Call.isCopy]

theorem foldl_all_equal {W : Type} (step : SyncResult × State W → String → SyncResult × State W)
    (hstep : ∀ acc src, (step acc src).1 = acc.1 ∧
      (step acc src).2.calls.filter Call.isCopy = acc.2.calls.filter Call.isCopy)
    (files : List String) (acc : SyncResult × State W) :
    (files.foldl step acc).1 = acc.1 ∧
      (files.foldl step acc).2.calls.filter Call.isCopy = acc.2.calls.filter Call.isCopy := by
  induction files generalizing acc with
  | nil => exact ⟨rfl, rfl⟩
  | cons f rest ih =>
    rw [List.foldl_cons]
    exact ⟨(ih _).1.trans (hstep acc f).1, (ih _).2.trans (hstep acc f).2⟩


/-- C9: when the destination of a source file exists and the comparison succeeds, the
iteration calls `AreEqual` once; it calls `Copy` exactly if `AreEqual` reported
`false`, and then a successful copy records one `update` operation; when `AreEqual`
reported `true` nothing is copied and the result is unchanged.  A run in which every
destination exists and every comparison reports `true` returns no operation and
`HasChanges = false`, without any call of `Copy`.  Pull and push alike. -/
theorem existing_destination_update_iff_unequal {W : Type} (c : Collaborators W)
    (srcBase dstBase : String) (overwriteHeaders equal : Bool) (result : SyncResult)
    (s s1 s2 : State W) (w3 : W) (src dst rel : String) :
    (resolvePaths c src srcBase dstBase s = (.ok (dst, rel), s1) →
      checkFileExists c dst rel s1 = (.ok true, s2) →
      c.AreEqual src dst overwriteHeaders s2.world = (.ok equal, w3) →
      ∃ evs,
        (copyFilesStep c srcBase dstBase overwriteHeaders (result, s) src).2.calls
            = s.calls ++ evs ∧
          evs.filter Call.isAreEqual = [Call.AreEqual src dst overwriteHeaders] ∧
          evs.filter Call.isCopy
            = (if equal then [] else [Call.Copy src dst overwriteHeaders]) ∧
          (equal = true →
            (copyFilesStep c srcBase dstBase overwriteHeaders (result, s) src).1 = result) ∧
          (equal = false → (c.Copy src dst overwriteHeaders w3).1 = none →
            (copyFilesStep c srcBase dstBase overwriteHeaders (result, s) src).1 =
              { Operations := result.Operations ++
                  [{ OpType := "update", SourcePath := src, TargetPath := dst,
                     RelativePath := rel }],
                HasChanges := true })) ∧
    (resolvePaths c src srcBase dstBase s = (.ok (dst, rel), s1) →
      checkFileExistsForPush c dst rel dstBase s1 = (.ok true, s2) →
      c.AreEqual src dst overwriteHeaders s2.world = (.ok equal, w3) →
      ∃ evs,
        (copyFilesForPushStep c srcBase dstBase overwriteHeaders (result, s) src).2.calls
            = s.calls ++ evs ∧
          evs.filter Call.isAreEqual = [Call.AreEqual src dst overwriteHeaders] ∧
          evs.filter Call.isCopy
            = (if equal then [] else [Call.Copy src dst overwriteHeaders]) ∧
          (equal = true →
            (copyFilesForPushStep c srcBase dstBase overwriteHeaders (result, s) src).1
              = result) ∧
          (equal = false → (c.Copy src dst overwriteHeaders w3).1 = none →
            (copyFilesForPushStep c srcBase dstBase overwriteHeaders (result, s) src).1 =
              { Operations := result.Operations ++
                  [{ OpType := "update", SourcePath := src, TargetPath := dst,
                     RelativePath := rel }],
                HasChanges := true })) ∧
    ((∀ p w, (c.Stat p w).1 = .ok ()) → (∀ a b o w, (c.AreEqual a b o w).1 = .ok true) →
      ∀ sourceFiles : List String,
        (copyFiles c sourceFiles srcBase dstBase overwriteHeaders s).1
            = { Operations := [], HasChanges := false } ∧
          (copyFiles c sourceFiles srcBase dstBase overwriteHeaders s).2.calls.filter Call.isCopy
            = s.calls.filter Call.isCopy) ∧
    ((∀ p w, (c.FileExists p w).1 = .ok true) →
      (∀ a b o w, (c.AreEqual a b o w).1 = .ok true) →
      ∀ projectFiles : List String,
        (copyFilesForPush c projectFiles srcBase dstBase overwriteHeaders s).1
            = { Operations := [], HasChanges := false } ∧
          (copyFilesForPush c projectFiles srcBase dstBase overwriteHeaders s).2.calls.filter
              Call.isCopy
            = s.calls.filter Call.isCopy) := by
  obtain ⟨evs1, he1, ha1, hc1⟩ := resolvePaths_calls c src srcBase dstBase s
  refine ⟨?_, ?_, ?_, ?_⟩
  · intro h1 h2 h3
    obtain ⟨evs2, he2, ha2, hc2⟩ := checkFileExists_calls c dst rel s1
    rw [h1] at he1; rw [h2] at he2
    simp only at he1 he2
    cases equal with
    | true =>
      refine ⟨evs1 ++ evs2 ++ [Call.AreEqual src dst overwriteHeaders], ?_, ?_, ?_, ?_, ?_⟩
      · simp [copyFilesStep, h1, h2, shouldCopyFile, invoke, h3, he1, he2]
      · simp [List.filter_append, ha1, ha2, Call.isAreEqual]
      · simp [List.filter_append, hc1, hc2, Call.isCopy]
      · intro _
        simp [copyFilesStep, h1, h2, shouldCopyFile, invoke, h3]
      · intro h; simp at h
    | false =>
      rcases hcp : c.Copy src dst overwriteHeaders w3 with ⟨r, w⟩
      rcases r with _ | err
      · refine ⟨evs1 ++ evs2 ++ [Call.AreEqual src dst overwriteHeaders,
          Call.Copy src dst overwriteHeaders, Call.PrintOperation "update" rel], ?_, ?_, ?_, ?_, ?_⟩
        · simp [copyFilesStep, h1, h2, shouldCopyFile, copySingleFile, invoke, emit, h3, hcp, he1,
            he2]
        · simp [List.filter_append, ha1, ha2, Call.isAreEqual]
        · simp [List.filter_append, hc1, hc2, Call.isCopy]
        · intro h; simp at h
        · intro _ _
          simp [copyFilesStep, h1, h2, shouldCopyFile, copySingleFile, invoke, emit, h3, hcp]
      · refine ⟨evs1 ++ evs2 ++ [Call.AreEqual src dst overwriteHeaders,
          Call.Copy src dst overwriteHeaders,
          Call.PrintErrorf "Error synchronizing file %s: %v\n" [rel, err.Error]],
          ?_, ?_, ?_, ?_, ?_⟩
        · simp [copyFilesStep, h1, h2, shouldCopyFile, copySingleFile, invoke, emit, h3, hcp, he1,
            he2]
        · simp [List.filter_append, ha1, ha2, Call.isAreEqual]
        · simp [List.filter_append, hc1, hc2, Call.isCopy]
        · intro h; simp at h
        · intro _ h; simp at h
  · intro h1 h2 h3
    obtain ⟨evs2, he2, ha2, hc2⟩ := checkFileExistsForPush_calls c dst rel dstBase s1
    rw [h1] at he1; rw [h2] at he2
    simp only at he1 he2
    cases equal with
    | true =>
      refine ⟨evs1 ++ evs2 ++ [Call.AreEqual src dst overwriteHeaders], ?_, ?_, ?_, ?_, ?_⟩
      · simp [copyFilesForPushStep, h1, h2, shouldCopyFile, invoke, h3, he1, he2]
      · simp [List.filter_append, ha1, ha2, Call.isAreEqual]
      · simp [List.filter_append, hc1, hc2, Call.isCopy]
      · intro _
        simp [copyFilesForPushStep, h1, h2, shouldCopyFile, invoke, h3]
      · intro h; simp at h
    | false =>
      rcases hcp : c.Copy src dst overwriteHeaders w3 with ⟨r, w⟩
      rcases r with _ | err
      · refine ⟨evs1 ++ evs2 ++ [Call.AreEqual src dst overwriteHeaders,
          Call.Copy src dst overwriteHeaders, Call.GetBaseName dstBase,
          Call.PrintOperationWithTarget "update" rel (c.GetBaseName dstBase w).1],
          ?_, ?_, ?_, ?_, ?_⟩
        · simp [copyFilesForPushStep, h1, h2, shouldCopyFile, copySingleFileForPush, invoke, emit,
            h3, hcp, he1, he2]
        · simp [List.filter_append, ha1, ha2, Call.isAreEqual]
        · simp [List.filter_append, hc1, hc2, Call.isCopy]
        · intro h; simp at h
        · intro _ _
          simp [copyFilesForPushStep, h1, h2, shouldCopyFile, copySingleFileForPush, invoke, emit,
            h3, hcp]
      · refine ⟨evs1 ++ evs2 ++ [Call.AreEqual src dst overwriteHeaders,
          Call.Copy src dst overwriteHeaders,
          Call.PrintErrorf "Error synchronizing file %s to %s: %v\n" [rel, dstBase, err.Error]],
          ?_, ?_, ?_, ?_, ?_⟩
        · simp [copyFilesForPushStep, h1, h2, shouldCopyFile, copySingleFileForPush, invoke, emit,
            h3, hcp, he1, he2]
        · simp [List.filter_append, ha1, ha2, Call.isAreEqual]
        · simp [List.filter_append, hc1, hc2, Call.isCopy]
        · intro h; simp at h
        · intro _ h; simp at h
  · intro hstat heq sourceFiles
    exact foldl_all_equal _ (copyFilesStep_all_equal c hstat heq srcBase dstBase overwriteHeaders)
      sourceFiles _
  · intro hex heq projectFiles
    unfold copyFilesForPush
    split
    · exact ⟨rfl, rfl⟩
    · exact foldl_all_equal _
        (copyFilesForPushStep_all_equal c hex heq srcBase dstBase overwriteHeaders) projectFiles _

theorem existing_destination_update_iff_unequal_witness :
    ((copyFilesStep stubEqual "/src" "/dst" false
        ({ Operations := [], HasChanges := false }, State.start ()) "/src/a.mdc").1
      = { Operations := [], HasChanges := false } ∧
    (copyFilesStep stubChanged "/src" "/dst" false
        ({ Operations := [], HasChanges := false }, State.start ()) "/src/a.mdc").1
      = { Operations := [{ OpType := "update", SourcePath := "/src/a.mdc",
                           TargetPath := "/dst/a.mdc", RelativePath := "a.mdc" }],
          HasChanges := true }) ∧
    ((copyFilesForPushStep stubEqual "/src" "/dst" false
        ({ Operations := [], HasChanges := false }, State.start ()) "/src/a.mdc").1
      = { Operations := [], HasChanges := false } ∧
    (copyFilesForPushStep stubChanged "/src" "/dst" false
        ({ Operations := [], HasChanges := false }, State.start ()) "/src/a.mdc").1
      = { Operations := [{ OpType := "update", SourcePath := "/src/a.mdc",
                           TargetPath := "/dst/a.mdc", RelativePath := "a.mdc" }],
          HasChanges := true }) ∧
    (copyFiles stubEqual ["/src/a.mdc", "/src/b.mdc"] "/src" "/dst" false (State.start ())).1
      = { Operations := [], HasChanges := false } ∧
    (copyFilesForPush stubEqual ["/src/a.mdc", "/src/b.mdc"] "/src" "/dst" false
        (State.start ())).1
      = { Operations := [], HasChanges := false } :=
  ⟨⟨match (existing_destination_update_iff_unequal stubEqual "/src" "/dst" false true
          { Operations := [], HasChanges := false } (State.start ()) afterPaths afterStat ()
          "/src/a.mdc" "/dst/a.mdc" "a.mdc").1 rfl rfl rfl with
      | ⟨_, _, _, _, h, _⟩ => h rfl,
     match (existing_destination_update_iff_unequal stubChanged "/src" "/dst" false false
          { Operations := [], HasChanges := false } (State.start ()) afterPaths afterStat ()
          "/src/a.mdc" "/dst/a.mdc" "a.mdc").1 rfl rfl rfl with
      | ⟨_, _, _, _, _, h⟩ => h rfl rfl⟩,
   ⟨match (existing_destination_update_iff_unequal stubEqual "/src" "/dst" false true
          { Operations := [], HasChanges := false } (State.start ()) afterPaths afterFileExists
          () "/src/a.mdc" "/dst/a.mdc" "a.mdc").2.1 rfl rfl rfl with
      | ⟨_, _, _, _, h, _⟩ => h rfl,
     match (existing_destination_update_iff_unequal stubChanged "/src" "/dst" false false
          { Operations := [], HasChanges := false } (State.start ()) afterPaths afterFileExists
          () "/src/a.mdc" "/dst/a.mdc" "a.mdc").2.1 rfl rfl rfl with
      | ⟨_, _, _, _, _, h⟩ => h rfl rfl⟩,
   ((existing_destination_update_iff_unequal stubEqual "/src" "/dst" false true
        { Operations := [], HasChanges := false } (State.start ()) afterPaths afterStat ()
        "/src/a.mdc" "/dst/a.mdc" "a.mdc").2.2.1 (fun _ _ => rfl) (fun _ _ _ _ => rfl)
      ["/src/a.mdc", "/src/b.mdc"]).1,
   ((existing_destination_update_iff_unequal stubEqual "/src" "/dst" false true
        { Operations := [], HasChanges := false } (State.start ()) afterPaths afterStat ()
        "/src/a.mdc" "/dst/a.mdc" "a.mdc").2.2.2 (fun _ _ => rfl) (fun _ _ _ _ => rfl)
      ["/src/a.mdc", "/src/b.mdc"]).1⟩

/-- C10: when the destination of a source file exists and `AreEqual` returns an error,
the error is printed through `PrintErrorf`, `Copy` is called all the same (once),
and after a successful copy the file is recorded as an `update` operation with
`HasChanges = true`.  Pull and push alike. -/
theorem comparison_error_fails_open {W : Type} (c : Collaborators W)
    (srcBase dstBase : String) (overwriteHeaders : Bool) (result : SyncResult)
    (s s1 s2 : State W) (w3 : W) (err : GoError) (src dst rel : String) :
    (resolvePaths c src srcBase dstBase s = (.ok (dst, rel), s1) →
      checkFileExists c dst rel s1 = (.ok true, s2) →
      c.AreEqual src dst overwriteHeaders s2.world = (.error err, w3) →
      ∃ post,
        (copyFilesStep c srcBase dstBase overwriteHeaders (result, s) src).2.calls
            = s2.calls ++
              Call.AreEqual src dst overwriteHeaders ::
              Call.PrintErrorf "Error comparing files %s: %v\n" [rel, err.Error] ::
              Call.Copy src dst overwriteHeaders :: post ∧
          post.filter Call.isCopy = [] ∧
          ((c.Copy src dst overwriteHeaders
              (c.PrintErrorf "Error comparing files %s: %v\n" [rel, err.Error] w3)).1 = none →
            (copyFilesStep c srcBase dstBase overwriteHeaders (result, s) src).1 =
              { Operations := result.Operations ++
                  [{ OpType := "update", SourcePath := src, TargetPath := dst,
                     RelativePath := rel }],
                HasChanges := true })) ∧
    (resolvePaths c src srcBase dstBase s = (.ok (dst, rel), s1) →
      checkFileExistsForPush c dst rel dstBase s1 = (.ok true, s2) →
      c.AreEqual src dst overwriteHeaders s2.world = (.error err, w3) →
      ∃ post,
        (copyFilesForPushStep c srcBase dstBase overwriteHeaders (result, s) src).2.calls
            = s2.calls ++
              Call.AreEqual src dst overwriteHeaders ::
              Call.PrintErrorf "Error comparing files %s: %v\n" [rel, err.Error] ::
              Call.Copy src dst overwriteHeaders :: post ∧
          post.filter Call.isCopy = [] ∧
          ((c.Copy src dst overwriteHeaders
              (c.PrintErrorf "Error comparing files %s: %v\n" [rel, err.Error] w3)).1 = none →
            (copyFilesForPushStep c srcBase dstBase overwriteHeaders (result, s) src).1 =
              { Operations := result.Operations ++
                  [{ OpType := "update", SourcePath := src, TargetPath := dst,
                     RelativePath := rel }],
                HasChanges := true })) := by
  constructor
  · intro h1 h2 h3
    rcases hcp : c.Copy src dst overwriteHeaders
      (c.PrintErrorf "Error comparing files %s: %v\n" [rel, err.Error] w3) with ⟨r, w⟩
    rcases r with _ | cerr
    · refine ⟨[Call.PrintOperation "update" rel], ?_, rfl, ?_⟩
      · simp [copyFilesStep, h1, h2, shouldCopyFile, copySingleFile, invoke, emit, h3, hcp]
      · intro _
        simp [copyFilesStep, h1, h2, shouldCopyFile, copySingleFile, invoke, emit, h3, hcp]
    · refine ⟨[Call.PrintErrorf "Error synchronizing file %s: %v\n" [rel, cerr.Error]],
        ?_, rfl, ?_⟩
      · simp [copyFilesStep, h1, h2, shouldCopyFile, copySingleFile, invoke, emit, h3, hcp]
      · intro h; simp at h
  · intro h1 h2 h3
    rcases hcp : c.Copy src dst overwriteHeaders
      (c.PrintErrorf "Error comparing files %s: %v\n" [rel, err.Error] w3) with ⟨r, w⟩
    rcases r with _ | cerr
    · refine ⟨[Call.GetBaseName dstBase,
        Call.PrintOperationWithTarget "update" rel (c.GetBaseName dstBase w).1], ?_, rfl, ?_⟩
      · simp [copyFilesForPushStep, h1, h2, shouldCopyFile, copySingleFileForPush, invoke, emit,
          h3, hcp]
      · intro _
        simp [copyFilesForPushStep, h1, h2, shouldCopyFile, copySingleFileForPush, invoke, emit,
          h3, hcp]
    · refine ⟨[Call.PrintErrorf "Error synchronizing file %s to %s: %v\n"
        [rel, dstBase, cerr.Error]], ?_, rfl, ?_⟩
      · simp [copyFilesForPushStep, h1, h2, shouldCopyFile, copySingleFileForPush, invoke, emit,
          h3, hcp]
      · intro h; simp at h

theorem comparison_error_fails_open_witness :
    (copyFilesStep stubCompareError "/src" "/dst" false
        ({ Operations := [], HasChanges := false }, State.start ()) "/src/a.mdc").1
      = { Operations := [{ OpType := "update", SourcePath := "/src/a.mdc",
                           TargetPath := "/dst/a.mdc", RelativePath := "a.mdc" }],
          HasChanges := true } ∧
    (copyFilesForPushStep stubCompareError "/src" "/dst" false
        ({ Operations := [], HasChanges := false }, State.start ()) "/src/a.mdc").1
      = { Operations := [{ OpType := "update", SourcePath := "/src/a.mdc",
                           TargetPath := "/dst/a.mdc", RelativePath := "a.mdc" }],
          HasChanges := true } :=
  ⟨match (comparison_error_fails_open stubCompareError "/src" "/dst" false
        { Operations := [], HasChanges := false } (State.start ()) afterPaths afterStat ()
        errRead "/src/a.mdc" "/dst/a.mdc" "a.mdc").1 rfl rfl rfl with
    | ⟨_, _, _, h⟩ => h rfl,
   match (comparison_error_fails_open stubCompareError "/src" "/dst" false
        { Operations := [], HasChanges := false } (State.start ()) afterPaths afterFileExists ()
        errRead "/src/a.mdc" "/dst/a.mdc" "a.mdc").2 rfl rfl rfl with
    | ⟨_, _, _, h⟩ => h rfl⟩

/-! ## Whole runs: `PullRules` and `PushRules` -/

theorem PullRules_eq_setup {W : Type} (c : Collaborators W) (join : List String → String)
    (options : SyncOptions) (s : State W) :
    PullRules c join options s =
      match pullSetup c join options s with
      | (.error err, s1) => (.error err, s1)
      | (.ok (rulesSourceDir, destRulesDir, sourceFiles), s5) =>
          (.ok (copyFiles c sourceFiles rulesSourceDir destRulesDir options.OverwriteHeaders
              s5).1,
            (copyFiles c sourceFiles rulesSourceDir destRulesDir options.OverwriteHeaders
              s5).2) := by
  unfold PullRules pullSetup
  repeat' split
  all_goals simp_all

theorem PushRules_eq_setup {W : Type} (c : Collaborators W) (join : List String → String)
    (options : SyncOptions) (s : State W) :
    PushRules c join options s =
      match pushSetup c join options s with
      | (.error err, s1) => (.error err, s1)
      | (.ok (rulesEnvDir, rulesSourceDirInProject, projectGitRoot, projectFiles), s6) =>
          (.ok (copyFilesForPush c projectFiles rulesSourceDirInProject rulesEnvDir
              options.OverwriteHeaders s6).1,
            commitPhase c rulesEnvDir projectGitRoot options.GitWithoutPush
              (copyFilesForPush c projectFiles rulesSourceDirInProject rulesEnvDir
                options.OverwriteHeaders s6).1
              (copyFilesForPush c projectFiles rulesSourceDirInProject rulesEnvDir
                options.OverwriteHeaders s6).2) := by
  unfold PushRules pushSetup commitPhase
  repeat' split
  all_goals simp_all

/-! ### Which methods a part of a run calls -/

theorem Grows.refl {W : Type} (names : List String) (s : State W) : Grows names s s :=
  ⟨[], by simp, by simp⟩

theorem Grows.trans {W : Type} {names : List String} {s t u : State W}
    (h1 : Grows names s t) (h2 : Grows names t u) : Grows names s u := by
  obtain ⟨e1, hc1, hn1⟩ := h1
  obtain ⟨e2, hc2, hn2⟩ := h2
  refine ⟨e1 ++ e2, by rw [hc2, hc1, List.append_assoc], ?_⟩
  intro e he
  rcases List.mem_append.1 he with he | he
  · exact hn1 e he
  · exact hn2 e he

theorem Grows.mono {W : Type} {names names2 : List String} {s t : State W}
    (h : Grows names s t) (hsub : ∀ x ∈ names, x ∈ names2) : Grows names2 s t := by
  obtain ⟨e1, hc1, hn1⟩ := h
  exact ⟨e1, hc1, fun e he => hsub _ (hn1 e he)⟩

theorem grows_invoke {W α : Type} {names : List String} (call : Call) (f : W → α × W)
    (s : State W) (h : call.name ∈ names) : Grows names s (invoke call f s).2 :=
  ⟨[call], rfl, by simpa using h⟩

theorem grows_emit {W : Type} {names : List String} (call : Call) (f : W → W)
    (s : State W) (h : call.name ∈ names) : Grows names s (emit call f s) :=
  ⟨[call], rfl, by simpa using h⟩

theorem grows_of_invoke_eq {W α : Type} {names : List String} {call : Call} {f : W → α × W}
    {s t : State W} {r : α} (h : invoke call f s = (r, t)) (hn : call.name ∈ names) :
    Grows names s t := by
  have e : t = (invoke call f s).2 := by rw [h]
  rw [e]; exact grows_invoke call f s hn

theorem grows_foldl {W β : Type} {names : List String} (step : State W → β → State W)
    (hstep : ∀ s x, Grows names s (step s x)) (xs : List β) (s : State W) :
    Grows names s (xs.foldl step s) := by
  induction xs generalizing s with
  | nil => exact Grows.refl _ _
  | cons x rest ih => exact (hstep s x).trans (ih _)

theorem grows_foldl_snd {W α β : Type} {names : List String}
    (step : α × State W → β → α × State W)
    (hstep : ∀ acc x, Grows names acc.2 (step acc x).2) (xs : List β) (acc : α × State W) :
    Grows names acc.2 (xs.foldl step acc).2 := by
  induction xs generalizing acc with
  | nil => exact Grows.refl _ _
  | cons x rest ih => exact (hstep acc x).trans (ih _)

theorem filter_eq_nil_of_grows {names : List String} {evs : List Call} (p : Call → Bool)
    (hn : ∀ e ∈ evs, e.name ∈ names) (hp : ∀ e, p e = true → e.name ∉ names) :
    evs.filter p = [] := by
  rw [List.filter_eq_nil_iff]
  intro e he hpe
  exact hp e hpe (hn e he)

theorem resolvePaths_grows {W : Type} (c : Collaborators W) (src srcBase dstBase : String)
    (s : State W) : Grows copyNames s (resolvePaths c src srcBase dstBase s).2 := by
  unfold resolvePaths
  split
  · rename_i h1
    exact grows_of_invoke_eq h1 (by simp [Call.name, copyNames])
  · rename_i h1
    split
    · rename_i h2
      exact (grows_of_invoke_eq h1 (by simp [Call.name, copyNames])).trans (grows_of_invoke_eq h2 (by simp [Call.name, copyNames]))
    · rename_i h2
      exact ((grows_of_invoke_eq h1 (by simp [Call.name, copyNames])).trans
        (grows_of_invoke_eq h2 (by simp [Call.name, copyNames]))).trans (grows_invoke _ _ _ (by simp [Call.name, copyNames]))

theorem checkFileExists_grows {W : Type} (c : Collaborators W) (dst rel : String)
    (s : State W) : Grows copyNames s (checkFileExists c dst rel s).2 := by
  unfold checkFileExists
  split
  · rename_i h1
    exact grows_of_invoke_eq h1 (by simp [Call.name, copyNames])
  · rename_i h1
    split
    · exact grows_of_invoke_eq h1 (by simp [Call.name, copyNames])
    · exact (grows_of_invoke_eq h1 (by simp [Call.name, copyNames])).trans (grows_emit _ _ _ (by simp [Call.name, copyNames]))

theorem checkFileExistsForPush_grows {W : Type} (c : Collaborators W)
    (dst rel dstBase : String) (s : State W) :
    Grows copyNames s (checkFileExistsForPush c dst rel dstBase s).2 := by
  unfold checkFileExistsForPush
  split
  · rename_i h1
    exact (grows_of_invoke_eq h1 (by simp [Call.name, copyNames])).trans (grows_emit _ _ _ (by simp [Call.name, copyNames]))
  · rename_i h1
    exact grows_of_invoke_eq h1 (by simp [Call.name, copyNames])

theorem shouldCopyFile_grows {W : Type} (c : Collaborators W) (src dst : String)
    (existed oh : Bool) (rel : String) (s : State W) :
    Grows copyNames s (shouldCopyFile c src dst existed oh rel s).2 := by
  unfold shouldCopyFile
  split
  · exact Grows.refl _ _
  · split
    · rename_i h1
      exact (grows_of_invoke_eq h1 (by simp [Call.name, copyNames])).trans (grows_emit _ _ _ (by simp [Call.name, copyNames]))
    · rename_i h1
      exact grows_of_invoke_eq h1 (by simp [Call.name, copyNames])

theorem copySingleFile_grows {W : Type} (c : Collaborators W) (src dst rel : String)
    (existed oh : Bool) (result : SyncResult) (s : State W) :
    Grows copyNames s (copySingleFile c src dst rel existed oh result s).2.2 := by
  unfold copySingleFile
  split
  · rename_i h1
    exact (grows_of_invoke_eq h1 (by simp [Call.name, copyNames])).trans (grows_emit _ _ _ (by simp [Call.name, copyNames]))
  · rename_i h1
    exact (grows_of_invoke_eq h1 (by simp [Call.name, copyNames])).trans (grows_emit _ _ _ (by simp [Call.name, copyNames]))

theorem copySingleFileForPush_grows {W : Type} (c : Collaborators W) (src dst rel : String)
    (existed oh : Bool) (dstBase : String) (result : SyncResult) (s : State W) :
    Grows copyNames s (copySingleFileForPush c src dst rel existed oh dstBase result s).2.2 := by
  unfold copySingleFileForPush
  split
  · rename_i h1
    exact (grows_of_invoke_eq h1 (by simp [Call.name, copyNames])).trans (grows_emit _ _ _ (by simp [Call.name, copyNames]))
  · rename_i h1
    exact ((grows_of_invoke_eq h1 (by simp [Call.name, copyNames])).trans (grows_invoke _ _ _ (by simp [Call.name, copyNames]))).trans
      (grows_emit _ _ _ (by simp [Call.name, copyNames]))

theorem copyFilesStep_grows {W : Type} (c : Collaborators W) (srcBase dstBase : String)
    (oh : Bool) (acc : SyncResult × State W) (src : String) :
    Grows copyNames acc.2 (copyFilesStep c srcBase dstBase oh acc src).2 := by
  unfold copyFilesStep
  have g1 := resolvePaths_grows c src srcBase dstBase acc.2
  split
  · rename_i h1
    rw [h1] at g1
    exact g1.trans (grows_emit _ _ _ (by simp [Call.name, copyNames]))
  · rename_i dst rel s1 h1
    rw [h1] at g1
    have g2 := checkFileExists_grows c dst rel s1
    split
    · rename_i h2
      rw [h2] at g2
      exact g1.trans g2
    · rename_i existed s2 h2
      rw [h2] at g2
      have g3 := shouldCopyFile_grows c src dst existed oh rel s2
      split
      · rename_i h3
        rw [h3] at g3
        exact (g1.trans g2).trans g3
      · rename_i s3 h3
        rw [h3] at g3
        have g4 := copySingleFile_grows c src dst rel existed oh acc.1 s3
        split
        · rename_i h4
          rw [h4] at g4
          exact ((g1.trans g2).trans g3).trans g4
        · rename_i h4
          rw [h4] at g4
          exact ((g1.trans g2).trans g3).trans g4

theorem copyFilesForPushStep_grows {W : Type} (c : Collaborators W) (srcBase dstBase : String)
    (oh : Bool) (acc : SyncResult × State W) (src : String) :
    Grows copyNames acc.2 (copyFilesForPushStep c srcBase dstBase oh acc src).2 := by
  unfold copyFilesForPushStep
  have g1 := resolvePaths_grows c src srcBase dstBase acc.2
  split
  · rename_i h1
    rw [h1] at g1
    exact g1.trans (grows_emit _ _ _ (by simp [Call.name, copyNames]))
  · rename_i dst rel s1 h1
    rw [h1] at g1
    have g2 := checkFileExistsForPush_grows c dst rel dstBase s1
    split
    · rename_i h2
      rw [h2] at g2
      exact g1.trans g2
    · rename_i existed s2 h2
      rw [h2] at g2
      have g3 := shouldCopyFile_grows c src dst existed oh rel s2
      split
      · rename_i h3
        rw [h3] at g3
        exact (g1.trans g2).trans g3
      · rename_i s3 h3
        rw [h3] at g3
        have g4 := copySingleFileForPush_grows c src dst rel existed oh dstBase acc.1 s3
        split
        · rename_i h4
          rw [h4] at g4
          exact ((g1.trans g2).trans g3).trans g4
        · rename_i h4
          rw [h4] at g4
          exact ((g1.trans g2).trans g3).trans g4

theorem copyFiles_grows {W : Type} (c : Collaborators W) (files : List String)
    (srcBase dstBase : String) (oh : Bool) (s : State W) :
    Grows copyNames s (copyFiles c files srcBase dstBase oh s).2 :=
  grows_foldl_snd _ (copyFilesStep_grows c srcBase dstBase oh) files _

theorem copyFilesForPush_grows {W : Type} (c : Collaborators W) (files : List String)
    (srcBase dstBase : String) (oh : Bool) (s : State W) :
    Grows copyNames s (copyFilesForPush c files srcBase dstBase oh s).2 := by
  rw [copyFilesForPush_eq_foldl]
  exact grows_foldl_snd _ (copyFilesForPushStep_grows c srcBase dstBase oh) files _

theorem srcFilesMapOf_grows {W : Type} (c : Collaborators W) (srcFiles : List String)
    (srcBase : String) (s : State W) :
    Grows cleanupNames s (srcFilesMapOf c srcFiles srcBase s).2 := by
  unfold srcFilesMapOf
  apply grows_foldl_snd
  intro acc x
  split
  · rename_i h1
    exact grows_of_invoke_eq h1 (by simp [Call.name, cleanupNames])
  · rename_i h1
    exact grows_of_invoke_eq h1 (by simp [Call.name, cleanupNames])

theorem cleanupExtraFilesStep_grows {W : Type} (c : Collaborators W) (srcFilesMap : List String)
    (dstBase : String) (s : State W) (destFile : String) :
    Grows cleanupNames s (cleanupExtraFilesStep c srcFilesMap dstBase s destFile) := by
  unfold cleanupExtraFilesStep
  split
  · rename_i h1
    exact grows_of_invoke_eq h1 (by simp [Call.name, cleanupNames])
  · rename_i h1
    split
    · split
      · rename_i h2
        exact ((grows_of_invoke_eq h1 (by simp [Call.name, cleanupNames])).trans
          (grows_of_invoke_eq h2 (by simp [Call.name, cleanupNames]))).trans
          (grows_emit _ _ _ (by simp [Call.name, cleanupNames]))
      · rename_i h2
        exact ((grows_of_invoke_eq h1 (by simp [Call.name, cleanupNames])).trans
          (grows_of_invoke_eq h2 (by simp [Call.name, cleanupNames]))).trans
          (grows_emit _ _ _ (by simp [Call.name, cleanupNames]))
    · exact grows_of_invoke_eq h1 (by simp [Call.name, cleanupNames])

theorem cleanupExtraFiles_grows {W : Type} (c : Collaborators W) (srcFiles : List String)
    (srcBase dstBase : String) (s : State W) :
    Grows cleanupNames s (cleanupExtraFiles c srcFiles srcBase dstBase s).2 := by
  unfold cleanupExtraFiles
  have g1 := srcFilesMapOf_grows c srcFiles srcBase s
  split
  rename_i srcFilesMap s1 h1
  rw [h1] at g1
  split
  · rename_i h2
    exact g1.trans (grows_of_invoke_eq h2 (by simp [Call.name, cleanupNames]))
  · rename_i h2
    exact (g1.trans (grows_of_invoke_eq h2 (by simp [Call.name, cleanupNames]))).trans
      (grows_foldl _ (cleanupExtraFilesStep_grows c srcFilesMap dstBase) _ _)

theorem cleanupExtraFilesWithPatterns_grows {W : Type} (c : Collaborators W)
    (sourceFiles : List String) (srcBase dstBase : String) (patterns : List String)
    (s : State W) :
    Grows cleanupNames s
      (cleanupExtraFilesWithPatterns c sourceFiles srcBase dstBase patterns s).2 := by
  unfold cleanupExtraFilesWithPatterns
  have g1 := cleanupExtraFiles_grows c sourceFiles srcBase dstBase s
  simp only []
  split
  · split
    · rename_i h1
      rw [h1] at g1; exact g1
    · rename_i h1
      rw [h1] at g1; exact g1
  · split
    · rename_i h1
      exact grows_of_invoke_eq h1 (by simp [Call.name, cleanupNames])
    · rename_i h1
      exact grows_of_invoke_eq h1 (by simp [Call.name, cleanupNames])

theorem findFilesWithPatterns_grows {W : Type} (c : Collaborators W) (dir : String)
    (patterns : List String) (s : State W) :
    Grows setupNames s (findFilesWithPatterns c dir patterns s).2 := by
  unfold findFilesWithPatterns
  split
  · split
    · rename_i h1
      exact grows_of_invoke_eq h1 (by simp [Call.name, setupNames, cleanupNames])
    · rename_i h1
      exact grows_of_invoke_eq h1 (by simp [Call.name, setupNames, cleanupNames])
  · split
    · rename_i h1
      exact grows_of_invoke_eq h1 (by simp [Call.name, setupNames, cleanupNames])
    · rename_i h1
      exact grows_of_invoke_eq h1 (by simp [Call.name, setupNames, cleanupNames])

theorem preparePullPaths_grows {W : Type} (c : Collaborators W) (join : List String → String)
    (rulesDir : String) (s : State W) :
    Grows setupNames s (preparePullPaths c join rulesDir s).2 := by
  unfold preparePullPaths
  split
  · exact Grows.refl _ _
  · split
    · rename_i h1
      exact grows_of_invoke_eq h1 (by simp [Call.name, setupNames, cleanupNames])
    · rename_i h1
      split
      · rename_i h2
        exact (grows_of_invoke_eq h1 (by simp [Call.name, setupNames, cleanupNames])).trans
          (grows_of_invoke_eq h2 (by simp [Call.name, setupNames, cleanupNames]))
      · rename_i h2
        exact (grows_of_invoke_eq h1 (by simp [Call.name, setupNames, cleanupNames])).trans
          (grows_of_invoke_eq h2 (by simp [Call.name, setupNames, cleanupNames]))

theorem preparePushPaths_grows {W : Type} (c : Collaborators W) (join : List String → String)
    (rulesDir : String) (s : State W) :
    Grows setupNames s (preparePushPaths c join rulesDir s).2 := by
  unfold preparePushPaths
  split
  · exact Grows.refl _ _
  · split
    · rename_i h1
      exact grows_of_invoke_eq h1 (by simp [Call.name, setupNames, cleanupNames])
    · rename_i h1
      split
      · rename_i h2
        exact (grows_of_invoke_eq h1 (by simp [Call.name, setupNames, cleanupNames])).trans
          (grows_of_invoke_eq h2 (by simp [Call.name, setupNames, cleanupNames]))
      · rename_i h2
        exact (grows_of_invoke_eq h1 (by simp [Call.name, setupNames, cleanupNames])).trans
          (grows_of_invoke_eq h2 (by simp [Call.name, setupNames, cleanupNames]))

theorem validateRulesDirectory_grows {W : Type} (c : Collaborators W) (dir : String)
    (s : State W) : Grows setupNames s (validateRulesDirectory c dir s).2 := by
  unfold validateRulesDirectory
  split
  · rename_i h1
    exact grows_of_invoke_eq h1 (by simp [Call.name, setupNames, cleanupNames])
  · rename_i h1
    exact grows_of_invoke_eq h1 (by simp [Call.name, setupNames, cleanupNames])
  · rename_i h1
    exact grows_of_invoke_eq h1 (by simp [Call.name, setupNames, cleanupNames])

theorem cleanupNames_sub_setupNames : ∀ x ∈ cleanupNames, x ∈ setupNames := by
  intro x hx
  simp only [setupNames, List.mem_append]
  exact Or.inr hx

theorem pullSetup_grows {W : Type} (c : Collaborators W) (join : List String → String)
    (options : SyncOptions) (s : State W) :
    Grows setupNames s (pullSetup c join options s).2 := by
  unfold pullSetup
  have g1 := preparePullPaths_grows c join options.RulesDir s
  split
  · rename_i h1
    rw [h1] at g1; exact g1
  · rename_i rulesSourceDir destRulesDir s1 h1
    rw [h1] at g1
    split
    · rename_i h2
      exact g1.trans (grows_of_invoke_eq h2 (by simp [Call.name, setupNames, cleanupNames]))
    · rename_i filePatterns s2 h2
      have g2 := g1.trans
        (grows_of_invoke_eq h2 (by simp [Call.name, setupNames, cleanupNames]))
      split
      · rename_i h3
        exact g2.trans (grows_of_invoke_eq h3 (by simp [Call.name, setupNames, cleanupNames]))
      · rename_i s3 h3
        have g3 := g2.trans
          (grows_of_invoke_eq h3 (by simp [Call.name, setupNames, cleanupNames]))
        have g4 := findFilesWithPatterns_grows c rulesSourceDir filePatterns s3
        split
        · rename_i h4
          rw [h4] at g4; exact g3.trans g4
        · rename_i sourceFiles s4 h4
          rw [h4] at g4
          have g5 := (cleanupExtraFilesWithPatterns_grows c sourceFiles rulesSourceDir
            destRulesDir filePatterns s4).mono cleanupNames_sub_setupNames
          split
          · rename_i h5
            rw [h5] at g5; exact (g3.trans g4).trans g5
          · rename_i h5
            rw [h5] at g5; exact (g3.trans g4).trans g5

theorem pushSetup_grows {W : Type} (c : Collaborators W) (join : List String → String)
    (options : SyncOptions) (s : State W) :
    Grows setupNames s (pushSetup c join options s).2 := by
  unfold pushSetup
  have g1 := preparePushPaths_grows c join options.RulesDir s
  split
  · rename_i h1
    rw [h1] at g1; exact g1
  · rename_i rulesEnvDir rulesSourceDirInProject projectGitRoot s1 h1
    rw [h1] at g1
    have g2 := validateRulesDirectory_grows c rulesSourceDirInProject s1
    split
    · rename_i h2
      rw [h2] at g2; exact g1.trans g2
    · rename_i s2 h2
      rw [h2] at g2
      split
      · rename_i h3
        exact (g1.trans g2).trans
          (grows_of_invoke_eq h3 (by simp [Call.name, setupNames, cleanupNames]))
      · rename_i filePatterns s3 h3
        have g3 := (g1.trans g2).trans
          (grows_of_invoke_eq h3 (by simp [Call.name, setupNames, cleanupNames]))
        have g4 := findFilesWithPatterns_grows c rulesSourceDirInProject filePatterns s3
        split
        · rename_i h4
          rw [h4] at g4; exact g3.trans g4
        · rename_i projectFiles s4 h4
          rw [h4] at g4
          split
          · rename_i h5
            exact (g3.trans g4).trans
              (grows_of_invoke_eq h5 (by simp [Call.name, setupNames, cleanupNames]))
          · rename_i s5 h5
            have g5 := (g3.trans g4).trans
              (grows_of_invoke_eq h5 (by simp [Call.name, setupNames, cleanupNames]))
            have g6 := (cleanupExtraFilesWithPatterns_grows c projectFiles
              rulesSourceDirInProject rulesEnvDir filePatterns s5).mono
              cleanupNames_sub_setupNames
            split
            · rename_i h6
              rw [h6] at g6; exact g5.trans g6
            · rename_i h6
              rw [h6] at g6; exact g5.trans g6

theorem no_commit_of_grows_setup {W : Type} {s t : State W} (h : Grows setupNames s t) :
    ∃ evs, t.calls = s.calls ++ evs ∧ evs.filter Call.isCommitChanges = [] := by
  obtain ⟨evs, he, hn⟩ := h
  refine ⟨evs, he, filter_eq_nil_of_grows _ hn ?_⟩
  intro e hp
  cases e <;> simp [Call.isCommitChanges] at hp
  simp [Call.name, setupNames, cleanupNames]

theorem no_commit_of_grows_copy {W : Type} {s t : State W} (h : Grows copyNames s t) :
    ∃ evs, t.calls = s.calls ++ evs ∧ evs.filter Call.isCommitChanges = [] := by
  obtain ⟨evs, he, hn⟩ := h
  refine ⟨evs, he, filter_eq_nil_of_grows _ hn ?_⟩
  intro e hp
  cases e <;> simp [Call.isCommitChanges] at hp
  simp [Call.name, copyNames]

theorem PullRules_ok_of_setup {W : Type} (c : Collaborators W) (join : List String → String)
    (options : SyncOptions) (s s5 : State W) (rulesSourceDir destRulesDir : String)
    (sourceFiles : List String)
    (h : pullSetup c join options s = (.ok (rulesSourceDir, destRulesDir, sourceFiles), s5)) :
    PullRules c join options s =
      (.ok (copyFiles c sourceFiles rulesSourceDir destRulesDir options.OverwriteHeaders s5).1,
        (copyFiles c sourceFiles rulesSourceDir destRulesDir options.OverwriteHeaders s5).2) := by
  rw [PullRules_eq_setup, h]

theorem PushRules_ok_of_setup {W : Type} (c : Collaborators W) (join : List String → String)
    (options : SyncOptions) (s s6 : State W)
    (rulesEnvDir rulesSourceDirInProject projectGitRoot : String) (projectFiles : List String)
    (h : pushSetup c join options s =
      (.ok (rulesEnvDir, rulesSourceDirInProject, projectGitRoot, projectFiles), s6)) :
    PushRules c join options s =
      (.ok (copyFilesForPush c projectFiles rulesSourceDirInProject rulesEnvDir
          options.OverwriteHeaders s6).1,
        commitPhase c rulesEnvDir projectGitRoot options.GitWithoutPush
          (copyFilesForPush c projectFiles rulesSourceDirInProject rulesEnvDir
            options.OverwriteHeaders s6).1
          (copyFilesForPush c projectFiles rulesSourceDirInProject rulesEnvDir
            options.OverwriteHeaders s6).2) := by
  rw [PushRules_eq_setup, h]

/-- C11: existence checks fail closed.  When, for a source file of a run, the check of
its destination fails (in pull: `Stat` with an error that is not "not found"; in
push: `FileExists` with an error), the run goes on with the later files from an
unchanged result, and the only calls for that file after its paths were resolved
are the check and `PrintErrorf`; resolving the paths calls neither `AreEqual` nor
`Copy`.  A run that reaches its copy loop returns the result of that loop without
an error. -/
theorem existence_check_error_skips_file {W : Type} (c : Collaborators W)
    (srcBase dstBase : String) (overwriteHeaders : Bool) (pre post : List String)
    (src dst rel : String) (s0 s1 : State W) (w2 : W) (err : GoError) :
    (resolvePaths c src srcBase dstBase (copyFiles c pre srcBase dstBase overwriteHeaders s0).2
        = (.ok (dst, rel), s1) →
      c.Stat dst s1.world = (.error err, w2) → IsNotExist err = false →
      copyFiles c (pre ++ src :: post) srcBase dstBase overwriteHeaders s0 =
          post.foldl (copyFilesStep c srcBase dstBase overwriteHeaders)
            ((copyFiles c pre srcBase dstBase overwriteHeaders s0).1,
              { world :=
                  c.PrintErrorf "Error checking destination file %s: %v\n" [rel, err.Error] w2,
                calls := s1.calls ++
                  [Call.Stat dst,
                    Call.PrintErrorf "Error checking destination file %s: %v\n"
                      [rel, err.Error]] }) ∧
        ∃ evs, s1.calls = (copyFiles c pre srcBase dstBase overwriteHeaders s0).2.calls ++ evs ∧
          evs.filter Call.isAreEqual = [] ∧ evs.filter Call.isCopy = []) ∧
    (resolvePaths c src srcBase dstBase
          (copyFilesForPush c pre srcBase dstBase overwriteHeaders s0).2
        = (.ok (dst, rel), s1) →
      c.FileExists dst s1.world = (.error err, w2) →
      copyFilesForPush c (pre ++ src :: post) srcBase dstBase overwriteHeaders s0 =
          post.foldl (copyFilesForPushStep c srcBase dstBase overwriteHeaders)
            ((copyFilesForPush c pre srcBase dstBase overwriteHeaders s0).1,
              { world :=
                  c.PrintErrorf "Error checking destination file %s in %s: %v\n"
                    [rel, dstBase, err.Error] w2,
                calls := s1.calls ++
                  [Call.FileExists dst,
                    Call.PrintErrorf "Error checking destination file %s in %s: %v\n"
                      [rel, dstBase, err.Error]] }) ∧
        ∃ evs,
          s1.calls = (copyFilesForPush c pre srcBase dstBase overwriteHeaders s0).2.calls ++ evs ∧
          evs.filter Call.isAreEqual = [] ∧ evs.filter Call.isCopy = []) ∧
    (∀ (join : List String → String) (options : SyncOptions) (s s5 : State W)
        (rulesSourceDir destRulesDir : String) (sourceFiles : List String),
      pullSetup c join options s = (.ok (rulesSourceDir, destRulesDir, sourceFiles), s5) →
      (PullRules c join options s).1 =
        .ok (copyFiles c sourceFiles rulesSourceDir destRulesDir options.OverwriteHeaders
          s5).1) ∧
    (∀ (join : List String → String) (options : SyncOptions) (s s6 : State W)
        (rulesEnvDir rulesSourceDirInProject projectGitRoot : String)
        (projectFiles : List String),
      pushSetup c join options s =
        (.ok (rulesEnvDir, rulesSourceDirInProject, projectGitRoot, projectFiles), s6) →
      (PushRules c join options s).1 =
        .ok (copyFilesForPush c projectFiles rulesSourceDirInProject rulesEnvDir
          options.OverwriteHeaders s6).1) := by
  refine ⟨?_, ?_, ?_, ?_⟩
  · intro h1 h2 h3
    constructor
    · rw [copyFiles_append_cons]
      congr 1
      simp [copyFilesStep, h1, checkFileExists, invoke, emit, h2, h3]
    · obtain ⟨evs, he, ha, hc⟩ := resolvePaths_calls c src srcBase dstBase
        (copyFiles c pre srcBase dstBase overwriteHeaders s0).2
      rw [h1] at he
      exact ⟨evs, he, ha, hc⟩
  · intro h1 h2
    constructor
    · rw [copyFilesForPush_append_cons]
      congr 1
      simp [copyFilesForPushStep, h1, checkFileExistsForPush, invoke, emit, h2]
    · obtain ⟨evs, he, ha, hc⟩ := resolvePaths_calls c src srcBase dstBase
        (copyFilesForPush c pre srcBase dstBase overwriteHeaders s0).2
      rw [h1] at he
      exact ⟨evs, he, ha, hc⟩
  · intro join options s s5 rulesSourceDir destRulesDir sourceFiles h
    rw [PullRules_ok_of_setup c join options s s5 _ _ _ h]
  · intro join options s s6 rulesEnvDir rulesSourceDirInProject projectGitRoot projectFiles h
    rw [PushRules_ok_of_setup c join options s s6 _ _ _ _ h]

theorem existence_check_error_skips_file_witness :
    copyFiles stubCheckError ["/src/a.mdc"] "/src" "/dst" false (State.start ()) =
        ({ Operations := [], HasChanges := false },
          { world := (),
            calls := afterPaths.calls ++
              [Call.Stat "/dst/a.mdc",
                Call.PrintErrorf "Error checking destination file %s: %v\n"
                  ["a.mdc", errRead.Error]] }) ∧
      copyFilesForPush stubCheckError ["/src/a.mdc"] "/src" "/dst" false (State.start ()) =
        ({ Operations := [], HasChanges := false },
          { world := (),
            calls := afterPaths.calls ++
              [Call.FileExists "/dst/a.mdc",
                Call.PrintErrorf "Error checking destination file %s in %s: %v\n"
                  ["a.mdc", "/dst", errRead.Error]] }) ∧
      (PullRules (trees listingProject true none) joinSlash optionsRules (State.start ())).1 =
        .ok (copyFiles (trees listingProject true none) ["/rules/a.mdc", "/rules/stale.mdc"]
          "/rules" "/project/.cursor/rules" false
          (pullSetup (trees listingProject true none) joinSlash optionsRules
            (State.start ())).2).1 ∧
      (PushRules (trees listingProject true none) joinSlash optionsRules (State.start ())).1 =
        .ok (copyFilesForPush (trees listingProject true none) ["/project/.cursor/rules/a.mdc"]
          "/project/.cursor/rules" "/rules" false
          (pushSetup (trees listingProject true none) joinSlash optionsRules
            (State.start ())).2).1 :=
  ⟨((existence_check_error_skips_file stubCheckError "/src" "/dst" false [] [] "/src/a.mdc"
        "/dst/a.mdc" "a.mdc" (State.start ()) afterPaths () errRead).1 rfl rfl rfl).1,
    ((existence_check_error_skips_file stubCheckError "/src" "/dst" false [] [] "/src/a.mdc"
        "/dst/a.mdc" "a.mdc" (State.start ()) afterPaths () errRead).2.1 rfl rfl).1,
    (existence_check_error_skips_file (trees listingProject true none) "/src" "/dst" false [] []
        "/src/a.mdc" "/dst/a.mdc" "a.mdc" (State.start ()) afterPaths () errRead).2.2.1
      joinSlash optionsRules (State.start ()) _ "/rules" "/project/.cursor/rules"
      ["/rules/a.mdc", "/rules/stale.mdc"] rfl,
    (existence_check_error_skips_file (trees listingProject true none) "/src" "/dst" false [] []
        "/src/a.mdc" "/dst/a.mdc" "a.mdc" (State.start ()) afterPaths () errRead).2.2.2
      joinSlash optionsRules (State.start ()) _ "/rules" "/project/.cursor/rules" "/project"
      ["/project/.cursor/rules/a.mdc"] rfl⟩

/-- C12: a copy failure does not abort the run.  When `Copy` returns an error for a
source file of a run, the error is printed through `PrintErrorf`, the result is
the one the earlier files left (no operation added, `HasChanges` not set), and the
later files are processed from there; pull and push alike.  A run that reaches its
copy loop returns the result of that loop without an error. -/
theorem copy_failure_does_not_abort {W : Type} (c : Collaborators W)
    (srcBase dstBase : String) (overwriteHeaders existed : Bool) (pre post : List String)
    (src dst rel : String) (s0 s1 s2 s3 : State W) (w4 : W) (copyErr : GoError) :
    (resolvePaths c src srcBase dstBase (copyFiles c pre srcBase dstBase overwriteHeaders s0).2
        = (.ok (dst, rel), s1) →
      checkFileExists c dst rel s1 = (.ok existed, s2) →
      shouldCopyFile c src dst existed overwriteHeaders rel s2 = (true, s3) →
      c.Copy src dst overwriteHeaders s3.world = (some copyErr, w4) →
      copyFiles c (pre ++ src :: post) srcBase dstBase overwriteHeaders s0 =
          post.foldl (copyFilesStep c srcBase dstBase overwriteHeaders)
            ((copyFiles c pre srcBase dstBase overwriteHeaders s0).1,
              { world :=
                  c.PrintErrorf "Error synchronizing file %s: %v\n" [rel, copyErr.Error] w4,
                calls := s3.calls ++
                  [Call.Copy src dst overwriteHeaders,
                    Call.PrintErrorf "Error synchronizing file %s: %v\n"
                      [rel, copyErr.Error]] })) ∧
    (resolvePaths c src srcBase dstBase
          (copyFilesForPush c pre srcBase dstBase overwriteHeaders s0).2
        = (.ok (dst, rel), s1) →
      checkFileExistsForPush c dst rel dstBase s1 = (.ok existed, s2) →
      shouldCopyFile c src dst existed overwriteHeaders rel s2 = (true, s3) →
      c.Copy src dst overwriteHeaders s3.world = (some copyErr, w4) →
      copyFilesForPush c (pre ++ src :: post) srcBase dstBase overwriteHeaders s0 =
          post.foldl (copyFilesForPushStep c srcBase dstBase overwriteHeaders)
            ((copyFilesForPush c pre srcBase dstBase overwriteHeaders s0).1,
              { world :=
                  c.PrintErrorf "Error synchronizing file %s to %s: %v\n"
                    [rel, dstBase, copyErr.Error] w4,
                calls := s3.calls ++
                  [Call.Copy src dst overwriteHeaders,
                    Call.PrintErrorf "Error synchronizing file %s to %s: %v\n"
                      [rel, dstBase, copyErr.Error]] })) ∧
    (∀ (join : List String → String) (options : SyncOptions) (s s5 : State W)
        (rulesSourceDir destRulesDir : String) (sourceFiles : List String),
      pullSetup c join options s = (.ok (rulesSourceDir, destRulesDir, sourceFiles), s5) →
      (PullRules c join options s).1 =
        .ok (copyFiles c sourceFiles rulesSourceDir destRulesDir options.OverwriteHeaders
          s5).1) ∧
    (∀ (join : List String → String) (options : SyncOptions) (s s6 : State W)
        (rulesEnvDir rulesSourceDirInProject projectGitRoot : String)
        (projectFiles : List String),
      pushSetup c join options s =
        (.ok (rulesEnvDir, rulesSourceDirInProject, projectGitRoot, projectFiles), s6) →
      (PushRules c join options s).1 =
        .ok (copyFilesForPush c projectFiles rulesSourceDirInProject rulesEnvDir
          options.OverwriteHeaders s6).1) := by
  refine ⟨?_, ?_, ?_, ?_⟩
  · intro h1 h2 h3 h4
    rw [copyFiles_append_cons]
    congr 1
    simp [copyFilesStep, h1, h2, h3, copySingleFile, invoke, emit, h4]
  · intro h1 h2 h3 h4
    rw [copyFilesForPush_append_cons]
    congr 1
    simp [copyFilesForPushStep, h1, h2, h3, copySingleFileForPush, invoke, emit, h4]
  · intro join options s s5 rulesSourceDir destRulesDir sourceFiles h
    rw [PullRules_ok_of_setup c join options s s5 _ _ _ h]
  · intro join options s s6 rulesEnvDir rulesSourceDirInProject projectGitRoot projectFiles h
    rw [PushRules_ok_of_setup c join options s s6 _ _ _ _ h]


theorem copy_failure_does_not_abort_witness :
    copyFiles stubCopyError ["/src/a.mdc"] "/src" "/dst" false (State.start ()) =
        ({ Operations := [], HasChanges := false },
          { world := (),
            calls := afterStat.calls ++
              [Call.Copy "/src/a.mdc" "/dst/a.mdc" false,
                Call.PrintErrorf "Error synchronizing file %s: %v\n"
                  ["a.mdc", errRead.Error]] }) ∧
      copyFilesForPush stubCopyError ["/src/a.mdc"] "/src" "/dst" false (State.start ()) =
        ({ Operations := [], HasChanges := false },
          { world := (),
            calls := afterFileExists.calls ++
              [Call.Copy "/src/a.mdc" "/dst/a.mdc" false,
                Call.PrintErrorf "Error synchronizing file %s to %s: %v\n"
                  ["a.mdc", "/dst", errRead.Error]] }) ∧
      (PullRules (trees listingProject true none) joinSlash optionsRules (State.start ())).1 =
        .ok (copyFiles (trees listingProject true none) ["/rules/a.mdc", "/rules/stale.mdc"]
          "/rules" "/project/.cursor/rules" false
          (pullSetup (trees listingProject true none) joinSlash optionsRules
            (State.start ())).2).1 ∧
      (PushRules (trees listingProject true none) joinSlash optionsRules (State.start ())).1 =
        .ok (copyFilesForPush (trees listingProject true none) ["/project/.cursor/rules/a.mdc"]
          "/project/.cursor/rules" "/rules" false
          (pushSetup (trees listingProject true none) joinSlash optionsRules
            (State.start ())).2).1 :=
  ⟨(copy_failure_does_not_abort stubCopyError "/src" "/dst" false false [] [] "/src/a.mdc"
        "/dst/a.mdc" "a.mdc" (State.start ()) afterPaths afterStat afterStat () errRead).1
      rfl rfl rfl rfl,
    (copy_failure_does_not_abort stubCopyError "/src" "/dst" false false [] [] "/src/a.mdc"
        "/dst/a.mdc" "a.mdc" (State.start ()) afterPaths afterFileExists afterFileExists ()
        errRead).2.1 rfl rfl rfl rfl,
    (copy_failure_does_not_abort (trees listingProject true none) "/src" "/dst" false false [] []
        "/src/a.mdc" "/dst/a.mdc" "a.mdc" (State.start ()) afterPaths afterStat afterStat ()
        errRead).2.2.1
      joinSlash optionsRules (State.start ()) _ "/rules" "/project/.cursor/rules"
      ["/rules/a.mdc", "/rules/stale.mdc"] rfl,
    (copy_failure_does_not_abort (trees listingProject true none) "/src" "/dst" false false [] []
        "/src/a.mdc" "/dst/a.mdc" "a.mdc" (State.start ()) afterPaths afterStat afterStat ()
        errRead).2.2.2
      joinSlash optionsRules (State.start ()) _ "/rules" "/project/.cursor/rules" "/project"
      ["/project/.cursor/rules/a.mdc"] rfl⟩

theorem copySingleFile_result {W : Type} (c : Collaborators W) (src dst rel : String)
    (existed oh : Bool) (result : SyncResult) (s : State W) :
    ((copySingleFile c src dst rel existed oh result s).1 = true ∧
        (copySingleFile c src dst rel existed oh result s).2.1.Operations ≠ []) ∨
      ((copySingleFile c src dst rel existed oh result s).1 = false ∧
        (copySingleFile c src dst rel existed oh result s).2.1 = result) := by
  unfold copySingleFile
  split
  · exact Or.inr ⟨rfl, rfl⟩
  · exact Or.inl ⟨rfl, by simp⟩

theorem copySingleFileForPush_result {W : Type} (c : Collaborators W) (src dst rel : String)
    (existed oh : Bool) (dstBase : String) (result : SyncResult) (s : State W) :
    ((copySingleFileForPush c src dst rel existed oh dstBase result s).1 = true ∧
        (copySingleFileForPush c src dst rel existed oh dstBase result s).2.1.Operations ≠ []) ∨
      ((copySingleFileForPush c src dst rel existed oh dstBase result s).1 = false ∧
        (copySingleFileForPush c src dst rel existed oh dstBase result s).2.1 = result) := by
  unfold copySingleFileForPush
  split
  · exact Or.inr ⟨rfl, rfl⟩
  · exact Or.inl ⟨rfl, by simp⟩

theorem copyFilesStep_invariant {W : Type} (c : Collaborators W) (srcBase dstBase : String)
    (oh : Bool) (acc : SyncResult × State W) (src : String)
    (h : acc.1.HasChanges = true ↔ acc.1.Operations ≠ []) :
    (copyFilesStep c srcBase dstBase oh acc src).1.HasChanges = true ↔
      (copyFilesStep c srcBase dstBase oh acc src).1.Operations ≠ [] := by
  unfold copyFilesStep
  split
  · exact h
  · rename_i dst rel s1 _
    split
    · exact h
    · rename_i existed s2 _
      split
      · exact h
      · rename_i s3 _
        have hr := copySingleFile_result c src dst rel existed oh acc.1 s3
        split
        · rename_i h4
          rw [h4] at hr
          rcases hr with ⟨-, hne⟩ | ⟨hf, -⟩
          · simpa using hne
          · simp at hf
        · rename_i h4
          rw [h4] at hr
          rcases hr with ⟨hf, -⟩ | ⟨-, he⟩
          · simp at hf
          · simp only at he
            rw [he]; exact h

theorem copyFilesForPushStep_invariant {W : Type} (c : Collaborators W)
    (srcBase dstBase : String) (oh : Bool) (acc : SyncResult × State W) (src : String)
    (h : acc.1.HasChanges = true ↔ acc.1.Operations ≠ []) :
    (copyFilesForPushStep c srcBase dstBase oh acc src).1.HasChanges = true ↔
      (copyFilesForPushStep c srcBase dstBase oh acc src).1.Operations ≠ [] := by
  unfold copyFilesForPushStep
  split
  · exact h
  · rename_i dst rel s1 _
    split
    · exact h
    · rename_i existed s2 _
      split
      · exact h
      · rename_i s3 _
        have hr := copySingleFileForPush_result c src dst rel existed oh dstBase acc.1 s3
        split
        · rename_i h4
          rw [h4] at hr
          rcases hr with ⟨-, hne⟩ | ⟨hf, -⟩
          · simpa using hne
          · simp at hf
        · rename_i h4
          rw [h4] at hr
          rcases hr with ⟨hf, -⟩ | ⟨-, he⟩
          · simp at hf
          · simp only at he
            rw [he]; exact h

theorem foldl_invariant {W : Type}
    (step : SyncResult × State W → String → SyncResult × State W)
    (hstep : ∀ acc src, (acc.1.HasChanges = true ↔ acc.1.Operations ≠ []) →
      ((step acc src).1.HasChanges = true ↔ (step acc src).1.Operations ≠ []))
    (files : List String) (acc : SyncResult × State W)
    (h : acc.1.HasChanges = true ↔ acc.1.Operations ≠ []) :
    (files.foldl step acc).1.HasChanges = true ↔ (files.foldl step acc).1.Operations ≠ [] := by
  induction files generalizing acc with
  | nil => exact h
  | cons f rest ih => exact ih _ (hstep acc f h)

theorem copyFiles_invariant {W : Type} (c : Collaborators W) (files : List String)
    (srcBase dstBase : String) (oh : Bool) (s : State W) :
    (copyFiles c files srcBase dstBase oh s).1.HasChanges = true ↔
      (copyFiles c files srcBase dstBase oh s).1.Operations ≠ [] :=
  foldl_invariant _ (copyFilesStep_invariant c srcBase dstBase oh) files _ (by simp)

theorem copyFilesForPush_invariant {W : Type} (c : Collaborators W) (files : List String)
    (srcBase dstBase : String) (oh : Bool) (s : State W) :
    (copyFilesForPush c files srcBase dstBase oh s).1.HasChanges = true ↔
      (copyFilesForPush c files srcBase dstBase oh s).1.Operations ≠ [] := by
  rw [copyFilesForPush_eq_foldl]
  exact foldl_invariant _ (copyFilesForPushStep_invariant c srcBase dstBase oh) files _ (by simp)

theorem PullRules_result {W : Type} (c : Collaborators W) (join : List String → String)
    (options : SyncOptions) (s t : State W) (result : SyncResult)
    (h : PullRules c join options s = (.ok result, t)) :
    ∃ files srcBase dstBase s5, pullSetup c join options s = (.ok (srcBase, dstBase, files), s5) ∧
      result = (copyFiles c files srcBase dstBase options.OverwriteHeaders s5).1 := by
  rw [PullRules_eq_setup] at h
  split at h
  · simp at h
  · rename_i srcBase dstBase files s5 hs
    simp only [Prod.mk.injEq, Except.ok.injEq] at h
    exact ⟨files, srcBase, dstBase, s5, hs, h.1.symm⟩

theorem PushRules_result {W : Type} (c : Collaborators W) (join : List String → String)
    (options : SyncOptions) (s t : State W) (result : SyncResult)
    (h : PushRules c join options s = (.ok result, t)) :
    ∃ files env proj root s6, pushSetup c join options s = (.ok (env, proj, root, files), s6) ∧
      result = (copyFilesForPush c files proj env options.OverwriteHeaders s6).1 := by
  rw [PushRules_eq_setup] at h
  split at h
  · simp at h
  · rename_i env proj root files s6 hs
    simp only [Prod.mk.injEq, Except.ok.injEq] at h
    exact ⟨files, env, proj, root, s6, hs, h.1.symm⟩

/-- C13: in every result of `copyFiles` and of `copyFilesForPush`, and so in every
result that `PullRules` or `PushRules` returns, `HasChanges` is true exactly when
the list of operations is not empty. -/
theorem hasChanges_iff_operations_nonempty {W : Type} (c : Collaborators W) :
    (∀ (files : List String) (srcBase dstBase : String) (oh : Bool) (s : State W),
      ((copyFiles c files srcBase dstBase oh s).1.HasChanges = true ↔
        (copyFiles c files srcBase dstBase oh s).1.Operations ≠ [])) ∧
    (∀ (files : List String) (srcBase dstBase : String) (oh : Bool) (s : State W),
      ((copyFilesForPush c files srcBase dstBase oh s).1.HasChanges = true ↔
        (copyFilesForPush c files srcBase dstBase oh s).1.Operations ≠ [])) ∧
    (∀ (join : List String → String) (options : SyncOptions) (s t : State W)
        (result : SyncResult),
      PullRules c join options s = (.ok result, t) →
      (result.HasChanges = true ↔ result.Operations ≠ [])) ∧
    (∀ (join : List String → String) (options : SyncOptions) (s t : State W)
        (result : SyncResult),
      PushRules c join options s = (.ok result, t) →
      (result.HasChanges = true ↔ result.Operations ≠ [])) := by
  refine ⟨copyFiles_invariant c, copyFilesForPush_invariant c, ?_, ?_⟩
  · intro join options s t result h
    obtain ⟨files, srcBase, dstBase, s5, -, hr⟩ := PullRules_result c join options s t result h
    rw [hr]; exact copyFiles_invariant c _ _ _ _ _
  · intro join options s t result h
    obtain ⟨files, env, proj, root, s6, -, hr⟩ := PushRules_result c join options s t result h
    rw [hr]; exact copyFilesForPush_invariant c _ _ _ _ _

theorem hasChanges_iff_operations_nonempty_witness :
    PullRules (trees listingProject false none) joinSlash optionsRules (State.start ()) =
        (.ok pulledBoth,
          (PullRules (trees listingProject false none) joinSlash optionsRules
            (State.start ())).2) ∧
      (pulledBoth.HasChanges = true ↔ pulledBoth.Operations ≠ []) ∧
      PushRules (trees listingProject true none) joinSlash optionsRules (State.start ()) =
        (.ok pushedNothing,
          (PushRules (trees listingProject true none) joinSlash optionsRules
            (State.start ())).2) ∧
      (pushedNothing.HasChanges = true ↔ pushedNothing.Operations ≠ []) :=
  ⟨rfl,
    (hasChanges_iff_operations_nonempty (trees listingProject false none)).2.2.1 joinSlash
      optionsRules (State.start ()) _ pulledBoth rfl,
    rfl,
    (hasChanges_iff_operations_nonempty (trees listingProject true none)).2.2.2 joinSlash
      optionsRules (State.start ()) _ pushedNothing rfl⟩

theorem strContains_append_left (a b sub : String) (h : strContains b sub) :
    strContains (a ++ b) sub := by
  obtain ⟨p, q, hpq⟩ := h
  refine ⟨a.data ++ p, q, ?_⟩
  rw [String.data_append, ← hpq]
  simp [List.append_assoc]

theorem strContains_append_right (a b sub : String) (h : strContains a sub) :
    strContains (a ++ b) sub := by
  obtain ⟨p, q, hpq⟩ := h
  refine ⟨p, q ++ b.data, ?_⟩
  rw [String.data_append, ← hpq]
  simp [List.append_assoc]

/-- C14: when the rules directory of the project (the join of the git root, `.cursor`
and `rules`) does not exist, `PushRules` returns no result and an error whose
message contains "not found"; the only calls made are `GetCurrentDir`,
`GetGitRootDir` and the `FileExists` of that directory: no patterns are read, nothing
is listed, created, removed, copied or committed. -/
theorem push_fails_fast_without_project_rules {W : Type} (c : Collaborators W)
    (join : List String → String) (options : SyncOptions) (s : State W)
    (currentDir projectGitRoot : String) (w1 w2 w3 : W)
    (hdir : options.RulesDir ≠ "")
    (hcur : c.GetCurrentDir s.world = (.ok currentDir, w1))
    (hroot : c.GetGitRootDir currentDir w1 = (.ok projectGitRoot, w2))
    (hexists : c.FileExists (join [projectGitRoot, ".cursor", "rules"]) w2 = (.ok false, w3)) :
    PushRules c join options s =
        (.error
          (.leaf ("project rules directory " ++ join [projectGitRoot, ".cursor", "rules"] ++
            " not found. Nothing to push") false),
          { world := w3,
            calls := s.calls ++
              [Call.GetCurrentDir, Call.GetGitRootDir currentDir,
                Call.FileExists (join [projectGitRoot, ".cursor", "rules"])] }) ∧
      strContains
        (GoError.leaf ("project rules directory " ++ join [projectGitRoot, ".cursor", "rules"] ++
          " not found. Nothing to push") false).Error "not found" := by
  constructor
  · simp [PushRules, preparePushPaths, getRulesSourceDir, hdir, invoke, hcur, hroot,
      validateRulesDirectory, hexists]
  · apply strContains_append_left
    decide

theorem push_fails_fast_without_project_rules_witness :
    optionsRules.RulesDir ≠ "" ∧
      PushRules stubAbsent joinSlash optionsRules (State.start ()) =
        (.error
          (.leaf "project rules directory /project/.cursor/rules not found. Nothing to push"
            false),
          { world := (),
            calls := [Call.GetCurrentDir, Call.GetGitRootDir "/project",
              Call.FileExists "/project/.cursor/rules"] }) :=
  ⟨by decide,
    (push_fails_fast_without_project_rules stubAbsent joinSlash optionsRules (State.start ())
      "/project" "/project" () () () (by decide) rfl rfl rfl).1⟩

/-- C18: with an empty rules directory option `PullRules` and `PushRules` return no
result and the error "failed to get rules source dir: rules directory not
specified: use --rules-dir flag", in the state in which they were called: no
collaborator was consulted. -/
theorem empty_rules_dir_fails_before_any_call {W : Type} (c : Collaborators W)
    (join : List String → String) (options : SyncOptions) (s : State W)
    (h : options.RulesDir = "") :
    PullRules c join options s =
        (.error
          (.wrap "failed to get rules source dir: "
            (.leaf "rules directory not specified: use --rules-dir flag" false)), s) ∧
      PushRules c join options s =
        (.error
          (.wrap "failed to get rules source dir: "
            (.leaf "rules directory not specified: use --rules-dir flag" false)), s) ∧
      strContains
        (GoError.wrap "failed to get rules source dir: "
          (.leaf "rules directory not specified: use --rules-dir flag" false)).Error
        "failed to get rules source dir" ∧
      strContains
        (GoError.wrap "failed to get rules source dir: "
          (.leaf "rules directory not specified: use --rules-dir flag" false)).Error
        "rules directory not specified" := by
  refine ⟨?_, ?_, by decide, by decide⟩
  · simp [PullRules, preparePullPaths, getRulesSourceDir, h]
  · simp [PushRules, preparePushPaths, getRulesSourceDir, h]

theorem empty_rules_dir_fails_before_any_call_witness :
    optionsEmpty.RulesDir = "" ∧
      PullRules stubEqual joinSlash optionsEmpty (State.start ()) =
        (.error
          (.wrap "failed to get rules source dir: "
            (.leaf "rules directory not specified: use --rules-dir flag" false)),
          State.start ()) ∧
      PushRules stubEqual joinSlash optionsEmpty (State.start ()) =
        (.error
          (.wrap "failed to get rules source dir: "
            (.leaf "rules directory not specified: use --rules-dir flag" false)),
          State.start ()) :=
  ⟨rfl,
    (empty_rules_dir_fails_before_any_call stubEqual joinSlash optionsEmpty (State.start ())
      rfl).1,
    (empty_rules_dir_fails_before_any_call stubEqual joinSlash optionsEmpty (State.start ())
      rfl).2.1⟩

theorem pullAfterMkdir_grows {W : Type} (c : Collaborators W)
    (rulesSourceDir destRulesDir : String) (filePatterns : List String) (oh : Bool)
    (s : State W) :
    Grows (setupNames ++ copyNames) s
      (pullAfterMkdir c rulesSourceDir destRulesDir filePatterns oh s).2 := by
  unfold pullAfterMkdir
  have g4 : Grows (setupNames ++ copyNames) s
      (findFilesWithPatterns c rulesSourceDir filePatterns s).2 :=
    (findFilesWithPatterns_grows c rulesSourceDir filePatterns s).mono
      (fun x hx => List.mem_append_left _ hx)
  split
  · rename_i h4
    rw [h4] at g4; exact g4
  · rename_i sourceFiles s4 h4
    rw [h4] at g4
    have g5 : Grows (setupNames ++ copyNames) s4
        (cleanupExtraFilesWithPatterns c sourceFiles rulesSourceDir destRulesDir
          filePatterns s4).2 :=
      (cleanupExtraFilesWithPatterns_grows c sourceFiles rulesSourceDir destRulesDir
        filePatterns s4).mono
        (fun x hx => List.mem_append_left _ (cleanupNames_sub_setupNames x hx))
    split
    · rename_i h5
      rw [h5] at g5; exact g4.trans g5
    · rename_i s5 h5
      rw [h5] at g5
      have g6 : Grows (setupNames ++ copyNames) s5
          (copyFiles c sourceFiles rulesSourceDir destRulesDir oh s5).2 :=
        (copyFiles_grows c sourceFiles rulesSourceDir destRulesDir oh s5).mono
          (fun x hx => List.mem_append_right _ hx)
      exact (g4.trans g5).trans g6

/-- C19: in every run of `PullRules` either no directory is listed, no file removed and
no file copied at all, or the calls start with `GetCurrentDir`, `GetGitRootDir`,
`GetFilePatterns` and the `MkdirAll` of the destination directory (the join of the
git root, `.cursor` and `rules`), so the directory is created before anything is
scanned.  When that `MkdirAll` fails, `PullRules` returns no result and an error
containing "failed to create destination directory", and these four calls are the
only ones. -/
theorem pull_creates_destination_before_scanning {W : Type} (c : Collaborators W)
    (join : List String → String) (options : SyncOptions) (s : State W) :
    (∃ evs, (PullRules c join options s).2.calls = s.calls ++ evs ∧
      ((evs.filter Call.isScan = [] ∧ evs.filter Call.isRemoveFile = [] ∧
          evs.filter Call.isCopy = []) ∨
        ∃ currentDir gitRoot post,
          evs = [Call.GetCurrentDir, Call.GetGitRootDir currentDir,
            Call.GetFilePatterns options.FilePatterns,
            Call.MkdirAll (join [gitRoot, ".cursor", "rules"]) ModePerm] ++ post)) ∧
    (∀ (currentDir gitRoot : String) (filePatterns : List String) (w1 w2 w3 w4 : W)
        (mkdirErr : GoError),
      options.RulesDir ≠ "" →
      c.GetCurrentDir s.world = (.ok currentDir, w1) →
      c.GetGitRootDir currentDir w1 = (.ok gitRoot, w2) →
      c.GetFilePatterns options.FilePatterns w2 = (.ok filePatterns, w3) →
      c.MkdirAll (join [gitRoot, ".cursor", "rules"]) ModePerm w3 = (some mkdirErr, w4) →
      PullRules c join options s =
          (.error
            (.wrap ("failed to create destination directory " ++
              join [gitRoot, ".cursor", "rules"] ++ ": ") mkdirErr),
            { world := w4,
              calls := s.calls ++
                [Call.GetCurrentDir, Call.GetGitRootDir currentDir,
                  Call.GetFilePatterns options.FilePatterns,
                  Call.MkdirAll (join [gitRoot, ".cursor", "rules"]) ModePerm] }) ∧
        strContains
          (GoError.wrap ("failed to create destination directory " ++
            join [gitRoot, ".cursor", "rules"] ++ ": ") mkdirErr).Error
          "failed to create destination directory") := by
  constructor
  · by_cases hdir : options.RulesDir = ""
    · refine ⟨[], ?_, Or.inl ⟨rfl, rfl, rfl⟩⟩
      simp [PullRules, preparePullPaths, getRulesSourceDir, hdir]
    · rcases hcur : c.GetCurrentDir s.world with ⟨r1, w1⟩
      rcases r1 with e1 | currentDir
      · refine ⟨[Call.GetCurrentDir], ?_, Or.inl ⟨rfl, rfl, rfl⟩⟩
        simp [PullRules, preparePullPaths, getRulesSourceDir, hdir, invoke, hcur]
      · rcases hroot : c.GetGitRootDir currentDir w1 with ⟨r2, w2⟩
        rcases r2 with e2 | gitRoot
        · refine ⟨[Call.GetCurrentDir, Call.GetGitRootDir currentDir], ?_,
            Or.inl ⟨rfl, rfl, rfl⟩⟩
          simp [PullRules, preparePullPaths, getRulesSourceDir, hdir, invoke, hcur, hroot]
        · rcases hpat : c.GetFilePatterns options.FilePatterns w2 with ⟨r3, w3⟩
          rcases r3 with e3 | filePatterns
          · refine ⟨[Call.GetCurrentDir, Call.GetGitRootDir currentDir,
              Call.GetFilePatterns options.FilePatterns], ?_, Or.inl ⟨rfl, rfl, rfl⟩⟩
            simp [PullRules, preparePullPaths, getRulesSourceDir, hdir, invoke, hcur, hroot,
              hpat]
          · rcases hmk : c.MkdirAll (join [gitRoot, ".cursor", "rules"]) ModePerm w3
              with ⟨r4, w4⟩
            rcases r4 with _ | mkdirErr
            · have e : PullRules c join options s =
                  pullAfterMkdir c options.RulesDir (join [gitRoot, ".cursor", "rules"])
                    filePatterns options.OverwriteHeaders
                    { world := w4,
                      calls := s.calls ++ [Call.GetCurrentDir] ++
                        [Call.GetGitRootDir currentDir] ++
                        [Call.GetFilePatterns options.FilePatterns] ++
                        [Call.MkdirAll (join [gitRoot, ".cursor", "rules"]) ModePerm] } := by
                simp [PullRules, pullAfterMkdir, preparePullPaths, getRulesSourceDir, hdir,
                  invoke, hcur, hroot, hpat, hmk]
              obtain ⟨post, hpost, -⟩ := pullAfterMkdir_grows c options.RulesDir
                (join [gitRoot, ".cursor", "rules"]) filePatterns options.OverwriteHeaders
                { world := w4,
                  calls := s.calls ++ [Call.GetCurrentDir] ++
                    [Call.GetGitRootDir currentDir] ++
                    [Call.GetFilePatterns options.FilePatterns] ++
                    [Call.MkdirAll (join [gitRoot, ".cursor", "rules"]) ModePerm] }
              refine ⟨_, ?_, Or.inr ⟨currentDir, gitRoot, post, rfl⟩⟩
              rw [e, hpost]
              simp
            · refine ⟨_, ?_, Or.inr ⟨currentDir, gitRoot, [], rfl⟩⟩
              simp [PullRules, preparePullPaths, getRulesSourceDir, hdir, invoke, hcur, hroot,
                hpat, hmk]
  · intro currentDir gitRoot filePatterns w1 w2 w3 w4 mkdirErr hdir hcur hroot hpat hmk
    constructor
    · simp [PullRules, preparePullPaths, getRulesSourceDir, hdir, invoke, hcur, hroot, hpat,
        hmk]
    · apply strContains_append_right
      apply strContains_append_right
      apply strContains_append_right
      decide

theorem pull_creates_destination_before_scanning_witness :
    PullRules stubMkdirFails joinSlash optionsRules (State.start ()) =
      (.error
        (.wrap "failed to create destination directory /project/.cursor/rules: " errMkdir),
        { world := (),
          calls := [Call.GetCurrentDir, Call.GetGitRootDir "/project", Call.GetFilePatterns "",
            Call.MkdirAll "/project/.cursor/rules" ModePerm] }) :=
  ((pull_creates_destination_before_scanning stubMkdirFails joinSlash optionsRules
      (State.start ())).2 "/project" "/project" [] () () () () errMkdir (by decide) rfl rfl rfl
    rfl).1

theorem preparePushPaths_ok {W : Type} (c : Collaborators W) (join : List String → String)
    (rulesDir : String) (s s1 : State W) (env proj root : String)
    (h : preparePushPaths c join rulesDir s = (.ok (env, proj, root), s1)) :
    env = rulesDir ∧ proj = join [root, ".cursor", "rules"] ∧
      ∃ currentDir w1 w2, c.GetCurrentDir s.world = (.ok currentDir, w1) ∧
        c.GetGitRootDir currentDir w1 = (.ok root, w2) := by
  by_cases hdir : rulesDir = ""
  · simp [preparePushPaths, getRulesSourceDir, hdir] at h
  · rcases hcur : c.GetCurrentDir s.world with ⟨r1, w1⟩
    rcases r1 with e1 | currentDir
    · simp [preparePushPaths, getRulesSourceDir, hdir, invoke, hcur] at h
    · rcases hroot : c.GetGitRootDir currentDir w1 with ⟨r2, w2⟩
      rcases r2 with e2 | gitRoot
      · simp [preparePushPaths, getRulesSourceDir, hdir, invoke, hcur, hroot] at h
      · simp [preparePushPaths, getRulesSourceDir, hdir, invoke, hcur, hroot] at h
        obtain ⟨⟨h1, h2, h3⟩, -⟩ := h
        subst h3
        exact ⟨h1.symm, h2.symm, currentDir, w1, w2, rfl, hroot⟩

theorem pushSetup_ok_prepare {W : Type} (c : Collaborators W) (join : List String → String)
    (options : SyncOptions) (s s6 : State W) (env proj root : String) (files : List String)
    (h : pushSetup c join options s = (.ok (env, proj, root, files), s6)) :
    ∃ s1, preparePushPaths c join options.RulesDir s = (.ok (env, proj, root), s1) := by
  unfold pushSetup at h
  split at h
  · simp at h
  · rename_i env2 proj2 root2 s1 hprep
    refine ⟨s1, ?_⟩
    rw [hprep]
    repeat' split at h
    all_goals simp_all

theorem commitPhase_calls {W : Type} (c : Collaborators W) (env root : String)
    (withoutPush : Bool) (result : SyncResult) (s : State W) :
    ∃ evs, (commitPhase c env root withoutPush result s).calls = s.calls ++ evs ∧
      evs.filter Call.isCommitChanges =
        if result.HasChanges then
          [Call.CommitChanges env
            ("Sync cursor rules: updated from project " ++ (c.GetBaseName root s.world).1)
            withoutPush]
        else [] := by
  unfold commitPhase
  by_cases hc : result.HasChanges = true
  · rw [if_pos hc, if_pos hc]
    rcases hcm : c.CommitChanges env
        ("Sync cursor rules: updated from project " ++ (c.GetBaseName root s.world).1)
        withoutPush (c.GetBaseName root s.world).2 with ⟨r, w⟩
    rcases r with _ | err
    · refine ⟨[Call.GetBaseName root, Call.CommitChanges env
        ("Sync cursor rules: updated from project " ++ (c.GetBaseName root s.world).1)
        withoutPush], ?_, rfl⟩
      simp [invoke, hcm]
    · refine ⟨[Call.GetBaseName root, Call.CommitChanges env
        ("Sync cursor rules: updated from project " ++ (c.GetBaseName root s.world).1)
        withoutPush, Call.PrintErrorf "Commit failed for %s: %v\n" [env, err.Error]], ?_, rfl⟩
      simp [invoke, emit, hcm]
  · rw [if_neg hc, if_neg hc]
    exact ⟨[], by simp, rfl⟩

theorem PushRules_commit_calls {W : Type} (c : Collaborators W)
    (join : List String → String) (options : SyncOptions) (s s6 : State W)
    (rulesEnvDir rulesSourceDirInProject projectGitRoot : String) (projectFiles : List String)
    (h : pushSetup c join options s =
      (.ok (rulesEnvDir, rulesSourceDirInProject, projectGitRoot, projectFiles), s6)) :
    ∃ evs, (PushRules c join options s).2.calls = s.calls ++ evs ∧
      evs.filter Call.isCommitChanges =
        if (copyFilesForPush c projectFiles rulesSourceDirInProject rulesEnvDir
            options.OverwriteHeaders s6).1.HasChanges then
          [Call.CommitChanges rulesEnvDir
            ("Sync cursor rules: updated from project " ++
              (c.GetBaseName projectGitRoot
                (copyFilesForPush c projectFiles rulesSourceDirInProject rulesEnvDir
                  options.OverwriteHeaders s6).2.world).1)
            options.GitWithoutPush]
        else [] := by
  rw [PushRules_ok_of_setup c join options s s6 _ _ _ _ h]
  have g1 := pushSetup_grows c join options s
  rw [h] at g1
  obtain ⟨evs1, he1, hn1⟩ := no_commit_of_grows_setup g1
  obtain ⟨evs2, he2, hn2⟩ := no_commit_of_grows_copy
    (copyFilesForPush_grows c projectFiles rulesSourceDirInProject rulesEnvDir
      options.OverwriteHeaders s6)
  obtain ⟨evs3, he3, hn3⟩ := commitPhase_calls c rulesEnvDir projectGitRoot
    options.GitWithoutPush
    (copyFilesForPush c projectFiles rulesSourceDirInProject rulesEnvDir
      options.OverwriteHeaders s6).1
    (copyFilesForPush c projectFiles rulesSourceDirInProject rulesEnvDir
      options.OverwriteHeaders s6).2
  refine ⟨evs1 ++ evs2 ++ evs3, ?_, ?_⟩
  · simp only at he1
    rw [he3, he2, he1]
    simp [List.append_assoc]
  · rw [List.filter_append, List.filter_append, hn1, hn2, hn3]
    simp

/-- C15: in a push run that reaches the copy loop, `PushRules` returns the result of
the loop, and among all the calls of the run `CommitChanges` occurs exactly once when
that result has changes and not at all otherwise; the one call is on the configured
rules directory, with the message "Sync cursor rules: updated from project "
followed by what `GetBaseName` gives for the git root of the project, and with
the `GitWithoutPush` option as it was given. -/
theorem commit_requested_once_iff_changes {W : Type} (c : Collaborators W)
    (join : List String → String) (options : SyncOptions) (s s6 : State W)
    (rulesEnvDir rulesSourceDirInProject projectGitRoot : String) (projectFiles : List String)
    (h : pushSetup c join options s =
      (.ok (rulesEnvDir, rulesSourceDirInProject, projectGitRoot, projectFiles), s6)) :
    rulesEnvDir = options.RulesDir ∧
      (∃ currentDir w1 w2, c.GetCurrentDir s.world = (.ok currentDir, w1) ∧
        c.GetGitRootDir currentDir w1 = (.ok projectGitRoot, w2)) ∧
      (PushRules c join options s).1 =
        .ok (copyFilesForPush c projectFiles rulesSourceDirInProject rulesEnvDir
          options.OverwriteHeaders s6).1 ∧
      ∃ evs, (PushRules c join options s).2.calls = s.calls ++ evs ∧
        evs.filter Call.isCommitChanges =
          if (copyFilesForPush c projectFiles rulesSourceDirInProject rulesEnvDir
              options.OverwriteHeaders s6).1.HasChanges then
            [Call.CommitChanges options.RulesDir
              ("Sync cursor rules: updated from project " ++
                (c.GetBaseName projectGitRoot
                  (copyFilesForPush c projectFiles rulesSourceDirInProject rulesEnvDir
                    options.OverwriteHeaders s6).2.world).1)
              options.GitWithoutPush]
          else [] := by
  obtain ⟨s1, hprep⟩ := pushSetup_ok_prepare c join options s s6 _ _ _ _ h
  obtain ⟨henv, -, hroot⟩ := preparePushPaths_ok c join _ s s1 _ _ _ hprep
  refine ⟨henv, hroot, ?_, ?_⟩
  · rw [PushRules_ok_of_setup c join options s s6 _ _ _ _ h]
  · obtain ⟨evs, he, hf⟩ := PushRules_commit_calls c join options s s6 _ _ _ _ h
    refine ⟨evs, he, ?_⟩
    rw [hf]
    simp only [henv]

theorem commit_requested_once_iff_changes_witness :
    pushSetup (trees listingProject false none) joinSlash optionsRules (State.start ()) =
        (.ok ("/rules", "/project/.cursor/rules", "/project", ["/project/.cursor/rules/a.mdc"]),
          (pushSetup (trees listingProject false none) joinSlash optionsRules
            (State.start ())).2) ∧
      ∃ evs,
        (PushRules (trees listingProject false none) joinSlash optionsRules
            (State.start ())).2.calls = evs ∧
          evs.filter Call.isCommitChanges =
            [Call.CommitChanges "/rules" "Sync cursor rules: updated from project project"
              false] :=
  ⟨rfl,
    match (commit_requested_once_iff_changes (trees listingProject false none) joinSlash
        optionsRules (State.start ()) _ "/rules" "/project/.cursor/rules" "/project"
        ["/project/.cursor/rules/a.mdc"] rfl).2.2.2 with
    | ⟨evs, h1, h2⟩ => ⟨evs, h1, h2⟩⟩

theorem pushSetup_without_commit {W : Type} (c : Collaborators W)
    (f : String → String → Bool → W → Option GoError × W) (join : List String → String)
    (options : SyncOptions) (s : State W) :
    pushSetup { c with CommitChanges := f } join options s = pushSetup c join options s :=
  rfl

theorem copyFilesForPush_without_commit {W : Type} (c : Collaborators W)
    (f : String → String → Bool → W → Option GoError × W) (files : List String)
    (srcBase dstBase : String) (oh : Bool) (s : State W) :
    copyFilesForPush { c with CommitChanges := f } files srcBase dstBase oh s =
      copyFilesForPush c files srcBase dstBase oh s :=
  rfl

/-- C16: what `PushRules` returns does not depend on the answer of `CommitChanges`: with
any other behaviour of `CommitChanges` it returns the same value.  In particular,
when the commit of a run with changes fails, `PushRules` returns the result of the
copy loop without an error, and the last call of the run prints "Commit failed". -/
theorem failed_commit_keeps_result {W : Type} (c : Collaborators W)
    (join : List String → String) (options : SyncOptions) (s : State W) :
    (∀ f : String → String → Bool → W → Option GoError × W,
      (PushRules { c with CommitChanges := f } join options s).1
        = (PushRules c join options s).1) ∧
    (∀ (s6 : State W) (rulesEnvDir rulesSourceDirInProject projectGitRoot : String)
        (projectFiles : List String) (err : GoError) (w : W),
      pushSetup c join options s =
        (.ok (rulesEnvDir, rulesSourceDirInProject, projectGitRoot, projectFiles), s6) →
      (copyFilesForPush c projectFiles rulesSourceDirInProject rulesEnvDir
        options.OverwriteHeaders s6).1.HasChanges = true →
      c.CommitChanges rulesEnvDir
          ("Sync cursor rules: updated from project " ++
            (c.GetBaseName projectGitRoot
              (copyFilesForPush c projectFiles rulesSourceDirInProject rulesEnvDir
                options.OverwriteHeaders s6).2.world).1)
          options.GitWithoutPush
          (c.GetBaseName projectGitRoot
            (copyFilesForPush c projectFiles rulesSourceDirInProject rulesEnvDir
              options.OverwriteHeaders s6).2.world).2 = (some err, w) →
      (PushRules c join options s).1 =
          .ok (copyFilesForPush c projectFiles rulesSourceDirInProject rulesEnvDir
            options.OverwriteHeaders s6).1 ∧
        (PushRules c join options s).2.calls.getLast? =
          some (Call.PrintErrorf "Commit failed for %s: %v\n" [rulesEnvDir, err.Error])) := by
  constructor
  · intro f
    rw [PushRules_eq_setup, PushRules_eq_setup, pushSetup_without_commit]
    split
    · rfl
    · rw [copyFilesForPush_without_commit]
  · intro s6 rulesEnvDir rulesSourceDirInProject projectGitRoot projectFiles err w h hch hcm
    rw [PushRules_ok_of_setup c join options s s6 _ _ _ _ h]
    refine ⟨rfl, ?_⟩
    simp [commitPhase, hch, invoke, emit, hcm]

theorem failed_commit_keeps_result_witness :
    (PushRules (trees listingProject false (some errCommit)) joinSlash optionsRules
        (State.start ())).1 =
        .ok { Operations :=
                [{ OpType := "update", SourcePath := "/project/.cursor/rules/a.mdc",
                   TargetPath := "/rules/a.mdc", RelativePath := "a.mdc" }],
              HasChanges := true } ∧
      (PushRules (trees listingProject false (some errCommit)) joinSlash optionsRules
        (State.start ())).2.calls.getLast? =
        some (Call.PrintErrorf "Commit failed for %s: %v\n" ["/rules", "nothing to commit"]) :=
  (failed_commit_keeps_result (trees listingProject false (some errCommit)) joinSlash
      optionsRules (State.start ())).2 _ "/rules" "/project/.cursor/rules" "/project"
    ["/project/.cursor/rules/a.mdc"] errCommit () rfl rfl rfl

theorem foldl_preserves {W : Type} (P : SyncResult → Prop)
    (step : SyncResult × State W → String → SyncResult × State W)
    (hstep : ∀ acc src, P acc.1 → P (step acc src).1)
    (files : List String) (acc : SyncResult × State W) (h : P acc.1) :
    P (files.foldl step acc).1 := by
  induction files generalizing acc with
  | nil => exact h
  | cons f rest ih => exact ih _ (hstep acc f h)

theorem copySingleFileForPush_optypes {W : Type} (c : Collaborators W) (src dst rel : String)
    (existed oh : Bool) (dstBase : String) (result : SyncResult) (s : State W)
    (h : ∀ op ∈ result.Operations, op.OpType = "add" ∨ op.OpType = "update") :
    ∀ op ∈ (copySingleFileForPush c src dst rel existed oh dstBase result s).2.1.Operations,
      op.OpType = "add" ∨ op.OpType = "update" := by
  unfold copySingleFileForPush
  split
  · exact h
  · intro op hop
    simp only [List.mem_append, List.mem_singleton] at hop
    rcases hop with hop | hop
    · exact h op hop
    · rw [hop]
      cases existed <;> simp

theorem copyFilesForPushStep_optypes {W : Type} (c : Collaborators W)
    (srcBase dstBase : String) (oh : Bool) (acc : SyncResult × State W) (src : String)
    (h : ∀ op ∈ acc.1.Operations, op.OpType = "add" ∨ op.OpType = "update") :
    ∀ op ∈ (copyFilesForPushStep c srcBase dstBase oh acc src).1.Operations,
      op.OpType = "add" ∨ op.OpType = "update" := by
  unfold copyFilesForPushStep
  split
  · exact h
  · rename_i dst rel s1 _
    split
    · exact h
    · rename_i existed s2 _
      split
      · exact h
      · rename_i s3 _
        have hr := copySingleFileForPush_optypes c src dst rel existed oh dstBase acc.1 s3 h
        split
        · rename_i h4
          rw [h4] at hr
          exact hr
        · rename_i h4
          rw [h4] at hr
          exact hr

theorem copyFilesForPush_optypes {W : Type} (c : Collaborators W) (files : List String)
    (srcBase dstBase : String) (oh : Bool) (s : State W) :
    ∀ op ∈ (copyFilesForPush c files srcBase dstBase oh s).1.Operations,
      op.OpType = "add" ∨ op.OpType = "update" := by
  rw [copyFilesForPush_eq_foldl]
  exact foldl_preserves (fun r => ∀ op ∈ r.Operations, op.OpType = "add" ∨ op.OpType = "update")
    _ (copyFilesForPushStep_optypes c srcBase dstBase oh) files _ (by simp)

/-- C17: a push that only removes an orphan requests no commit, although the usage text
of the push command in `main.go` says that push works by "deleting extra files in
the source, and commits changes".  In this push run the cleanup removes
`/rules/stale.mdc`, the only project file is equal to its destination, and
`CommitChanges` is not called; the result has no operation and
`HasChanges = false`, so the removal stays uncommitted in the rules directory. -/
theorem push_with_only_a_deletion_requests_no_commit :
    Call.RemoveFile "/rules/stale.mdc" ∈
        (PushRules (trees listingProject true none) joinSlash optionsRules
          (State.start ())).2.calls ∧
      (PushRules (trees listingProject true none) joinSlash optionsRules
          (State.start ())).2.calls.filter Call.isCommitChanges = [] ∧
      (PushRules (trees listingProject true none) joinSlash optionsRules (State.start ())).1
        = .ok { Operations := [], HasChanges := false } := by
  decide

/-- The commit of `PushRules` as the code has it: in a push run that reaches the copy
loop, `CommitChanges` is called exactly when the copy loop recorded at least one
operation, and every recorded operation is an `add` or an `update`; a file that
the cleanup removed is not recorded and does not by itself lead to a commit. -/
theorem push_commit_iff_add_or_update {W : Type} (c : Collaborators W)
    (join : List String → String) (options : SyncOptions) (s s6 : State W)
    (rulesEnvDir rulesSourceDirInProject projectGitRoot : String) (projectFiles : List String)
    (h : pushSetup c join options s =
      (.ok (rulesEnvDir, rulesSourceDirInProject, projectGitRoot, projectFiles), s6)) :
    (∃ evs, (PushRules c join options s).2.calls = s.calls ++ evs ∧
      (evs.filter Call.isCommitChanges ≠ [] ↔
        (copyFilesForPush c projectFiles rulesSourceDirInProject rulesEnvDir
          options.OverwriteHeaders s6).1.Operations ≠ [])) ∧
    (∀ op ∈ (copyFilesForPush c projectFiles rulesSourceDirInProject rulesEnvDir
        options.OverwriteHeaders s6).1.Operations,
      op.OpType = "add" ∨ op.OpType = "update") := by
  refine ⟨?_, copyFilesForPush_optypes c _ _ _ _ _⟩
  obtain ⟨evs, he, hf⟩ := PushRules_commit_calls c join options s s6 _ _ _ _ h
  refine ⟨evs, he, ?_⟩
  rw [hf, ← copyFilesForPush_invariant]
  by_cases hc : (copyFilesForPush c projectFiles rulesSourceDirInProject rulesEnvDir
      options.OverwriteHeaders s6).1.HasChanges = true
  · simp [hc]
  · simp [hc]

theorem push_commit_iff_add_or_update_witness :
    ∃ evs,
      (PushRules (trees listingProject true none) joinSlash optionsRules
          (State.start ())).2.calls = evs ∧
        (evs.filter Call.isCommitChanges ≠ [] ↔ ([] : List FileOperation) ≠ []) :=
  match (push_commit_iff_add_or_update (trees listingProject true none) joinSlash optionsRules
      (State.start ()) _ "/rules" "/project/.cursor/rules" "/project"
      ["/project/.cursor/rules/a.mdc"] rfl).1 with
  | ⟨evs, h1, h2⟩ => ⟨evs, h1, h2⟩

/-! ### The cleanup without patterns -/

theorem srcFilesMapOf_no_remove {W : Type} (c : Collaborators W) (srcFiles : List String)
    (srcBase : String) (s : State W) :
    Grows ["GetRelativePath"] s (srcFilesMapOf c srcFiles srcBase s).2 := by
  unfold srcFilesMapOf
  apply grows_foldl_snd
  intro acc x
  split
  · rename_i h1
    exact grows_of_invoke_eq h1 (by simp [Call.name])
  · rename_i h1
    exact grows_of_invoke_eq h1 (by simp [Call.name])

theorem srcFilesMapOf_keys {W : Type} (c : Collaborators W) (rel : String → String → String)
    (hrel : ∀ p b w, (c.GetRelativePath p b w).1 = .ok (rel p b))
    (srcFiles : List String) (srcBase : String) (s : State W) :
    (srcFilesMapOf c srcFiles srcBase s).1 = srcFiles.map (fun f => rel f srcBase) := by
  unfold srcFilesMapOf
  suffices hgen : ∀ acc : List String × State W,
      (srcFiles.foldl
        (fun acc srcFile =>
          match invoke (.GetRelativePath srcFile srcBase) (c.GetRelativePath srcFile srcBase)
              acc.2 with
          | (.error _, s1) => (acc.1, s1)
          | (.ok relativePath, s1) => (acc.1 ++ [relativePath], s1)) acc).1
        = acc.1 ++ srcFiles.map (fun f => rel f srcBase) by
    simpa using hgen ([], s)
  induction srcFiles with
  | nil => intro acc; simp
  | cons f rest ih =>
    intro acc
    rw [List.foldl_cons, ih]
    simp [invoke, hrel]

theorem cleanupExtraFilesStep_removes {W : Type} (c : Collaborators W)
    (rel : String → String → String)
    (hrel : ∀ p b w, (c.GetRelativePath p b w).1 = .ok (rel p b))
    (srcFilesMap : List String) (dstBase : String) (s : State W) (destFile : String) :
    (cleanupExtraFilesStep c srcFilesMap dstBase s destFile).calls.filter Call.isRemoveFile =
      s.calls.filter Call.isRemoveFile ++
        (if srcFilesMap.contains (rel destFile dstBase) then []
          else [Call.RemoveFile destFile]) := by
  unfold cleanupExtraFilesStep
  by_cases hm : rel destFile dstBase ∈ srcFilesMap
  · simp [invoke, hrel, hm, List.filter_append, Call.isRemoveFile]
  · rcases hrm : c.RemoveFile destFile (c.GetRelativePath destFile dstBase s.world).2
      with ⟨r, w⟩
    rcases r with _ | err
    · simp [invoke, emit, hrel, hm, hrm, List.filter_append, Call.isRemoveFile]
    · simp [invoke, emit, hrel, hm, hrm, List.filter_append, Call.isRemoveFile]

theorem cleanup_foldl_removes {W : Type} (c : Collaborators W)
    (rel : String → String → String)
    (hrel : ∀ p b w, (c.GetRelativePath p b w).1 = .ok (rel p b))
    (srcFilesMap : List String) (dstBase : String) (destFiles : List String) (s : State W) :
    (destFiles.foldl (cleanupExtraFilesStep c srcFilesMap dstBase) s).calls.filter
        Call.isRemoveFile =
      s.calls.filter Call.isRemoveFile ++
        (destFiles.filter (fun d => !srcFilesMap.contains (rel d dstBase))).map
          Call.RemoveFile := by
  induction destFiles generalizing s with
  | nil => simp
  | cons d rest ih =>
    rw [List.foldl_cons, ih, cleanupExtraFilesStep_removes c rel hrel]
    by_cases hm : rel d dstBase ∈ srcFilesMap
    · simp [hm]
    · simp [hm]

/-- C20: with an empty pattern set, when `GetRelativePath` computes the relative paths
(`rel`) and the destination tree is listed as `destFiles`, the cleanup succeeds and
its `RemoveFile` calls are, in order, the files of `destFiles` whose relative path
is not the relative path of a source file: a destination file is removed exactly
when no source file has its relative path.  For `a.mdc` under `/src` and `a.mdc`,
`stale.mdc` under `/dst` the calls are: the relative paths, the listing, the
removal of `/dst/stale.mdc` and the report of one `delete` of `stale.mdc`. -/
theorem cleanup_removes_exactly_orphans {W : Type} (c : Collaborators W)
    (rel : String → String → String) (srcFiles destFiles : List String)
    (srcBase dstBase : String) (s : State W) (w : W)
    (hrel : ∀ p b w, (c.GetRelativePath p b w).1 = .ok (rel p b))
    (hlist : c.FindAllFiles dstBase (srcFilesMapOf c srcFiles srcBase s).2.world
      = (.ok destFiles, w)) :
    (cleanupExtraFilesWithPatterns c srcFiles srcBase dstBase [] s).1 = none ∧
      (∃ evs,
        (cleanupExtraFilesWithPatterns c srcFiles srcBase dstBase [] s).2.calls
            = s.calls ++ evs ∧
          evs.filter Call.isRemoveFile =
            (destFiles.filter
              (fun d => !(srcFiles.map (fun f => rel f srcBase)).contains (rel d dstBase))).map
              Call.RemoveFile ∧
          ∀ d, Call.RemoveFile d ∈ evs ↔
            d ∈ destFiles ∧ ∀ f ∈ srcFiles, rel d dstBase ≠ rel f srcBase) ∧
      (cleanupExtraFilesWithPatterns (trees listingSrcDst true none) ["/src/a.mdc"] "/src"
          "/dst" [] (State.start ())).2.calls =
        [Call.GetRelativePath "/src/a.mdc" "/src", Call.FindAllFiles "/dst",
          Call.GetRelativePath "/dst/a.mdc" "/dst", Call.GetRelativePath "/dst/stale.mdc" "/dst",
          Call.RemoveFile "/dst/stale.mdc", Call.PrintOperation "delete" "stale.mdc"] := by
  have hkeys := srcFilesMapOf_keys c rel hrel srcFiles srcBase s
  have e : cleanupExtraFilesWithPatterns c srcFiles srcBase dstBase [] s =
      (none, destFiles.foldl
        (cleanupExtraFilesStep c (srcFiles.map (fun f => rel f srcBase)) dstBase)
        { world := w,
          calls := (srcFilesMapOf c srcFiles srcBase s).2.calls ++
            [Call.FindAllFiles dstBase] }) := by
    rcases hm : srcFilesMapOf c srcFiles srcBase s with ⟨m, s1⟩
    rw [hm] at hkeys hlist
    simp only at hkeys hlist
    simp [cleanupExtraFilesWithPatterns, RemoveDuplicates, cleanupExtraFiles, hm, invoke,
      hlist, hkeys]
  refine ⟨by rw [e], ?_, by decide⟩
  obtain ⟨evs, he, -⟩ := cleanupExtraFilesWithPatterns_grows c srcFiles srcBase dstBase [] s
  obtain ⟨evs0, he0, hn0⟩ := srcFilesMapOf_no_remove c srcFiles srcBase s
  have hf0 : evs0.filter Call.isRemoveFile = [] := by
    apply filter_eq_nil_of_grows _ hn0
    intro x hp
    cases x <;> simp [Call.isRemoveFile] at hp
    simp [Call.name]
  have hfilter : evs.filter Call.isRemoveFile =
      (destFiles.filter
        (fun d => !(srcFiles.map (fun f => rel f srcBase)).contains (rel d dstBase))).map
        Call.RemoveFile := by
    have h1 : ((cleanupExtraFilesWithPatterns c srcFiles srcBase dstBase [] s).2.calls).filter
        Call.isRemoveFile = (s.calls ++ evs).filter Call.isRemoveFile := by rw [he]
    rw [e] at h1
    simp only at h1
    rw [cleanup_foldl_removes c rel hrel, he0] at h1
    simp only [List.filter_append, hf0, List.append_nil, List.append_assoc] at h1
    have h2 : List.filter Call.isRemoveFile [Call.FindAllFiles dstBase] = [] := rfl
    rw [h2, List.nil_append] at h1
    exact (List.append_cancel_left h1).symm
  refine ⟨evs, he, hfilter, ?_⟩
  intro d
  have hmem : Call.RemoveFile d ∈ evs ↔ Call.RemoveFile d ∈ evs.filter Call.isRemoveFile := by
    simp [List.mem_filter, Call.isRemoveFile]
  rw [hmem, hfilter]
  simp only [List.mem_map, List.mem_filter]
  constructor
  · rintro ⟨d2, ⟨hd, hc⟩, heq⟩
    have hd2 : d2 = d := by injection heq
    subst hd2
    refine ⟨hd, ?_⟩
    intro f hf hcontra
    simp only [Bool.not_eq_true', List.contains_eq_any_beq, List.any_eq_false] at hc
    have := hc (rel f srcBase) (List.mem_map.2 ⟨f, hf, rfl⟩)
    simp [hcontra] at this
  · rintro ⟨hd, hne⟩
    refine ⟨d, ⟨hd, ?_⟩, rfl⟩
    simp only [Bool.not_eq_true', List.contains_eq_any_beq, List.any_eq_false]
    intro x hx
    obtain ⟨f, hf, rfl⟩ := List.mem_map.1 hx
    simpa using hne f hf

theorem cleanup_removes_exactly_orphans_witness :
    (cleanupExtraFilesWithPatterns (trees listingSrcDst true none) ["/src/a.mdc"] "/src" "/dst"
        [] (State.start ())).1 = none ∧
      ∃ evs,
        (cleanupExtraFilesWithPatterns (trees listingSrcDst true none) ["/src/a.mdc"] "/src"
            "/dst" [] (State.start ())).2.calls = evs ∧
          evs.filter Call.isRemoveFile = [Call.RemoveFile "/dst/stale.mdc"] :=
  ⟨(cleanup_removes_exactly_orphans (trees listingSrcDst true none) below ["/src/a.mdc"]
      ["/dst/a.mdc", "/dst/stale.mdc"] "/src" "/dst" (State.start ()) ()
      (fun _ _ _ => rfl) rfl).1,
    match (cleanup_removes_exactly_orphans (trees listingSrcDst true none) below ["/src/a.mdc"]
      ["/dst/a.mdc", "/dst/stale.mdc"] "/src" "/dst" (State.start ()) ()
      (fun _ _ _ => rfl) rfl).2.1 with
    | ⟨evs, h1, h2, _⟩ => ⟨evs, h1, h2⟩⟩

/-! ## The phases of a run -/

theorem commitPhase_grows {W : Type} (c : Collaborators W) (env root : String)
    (withoutPush : Bool) (result : SyncResult) (s : State W) :
    Grows commitNames s (commitPhase c env root withoutPush result s) := by
  unfold commitPhase
  split
  · split
    rename_i h1
    split
    · rename_i h2
      exact ((grows_of_invoke_eq h1 (by simp [Call.name, commitNames])).trans
        (grows_of_invoke_eq h2 (by simp [Call.name, commitNames]))).trans
        (grows_emit _ _ _ (by simp [Call.name, commitNames]))
    · rename_i h2
      exact (grows_of_invoke_eq h1 (by simp [Call.name, commitNames])).trans
        (grows_of_invoke_eq h2 (by simp [Call.name, commitNames]))
  · exact Grows.refl _ _

theorem PullRules_phases {W : Type} (c : Collaborators W) (join : List String → String)
    (options : SyncOptions) (s : State W) :
    ∃ before after, (PullRules c join options s).2.calls = s.calls ++ before ++ after ∧
      (∀ e ∈ before, e.name ∈ setupNames) ∧ (∀ e ∈ after, e.name ∈ copyNames) := by
  rw [PullRules_eq_setup]
  have g := pullSetup_grows c join options s
  rcases h : pullSetup c join options s with ⟨r, s1⟩
  rw [h] at g
  obtain ⟨evs1, he1, hn1⟩ := g
  simp only at he1
  rcases r with err | ⟨a, b, files⟩
  · exact ⟨evs1, [], by simp [he1], hn1, by simp⟩
  · obtain ⟨evs2, he2, hn2⟩ := copyFiles_grows c files a b options.OverwriteHeaders s1
    exact ⟨evs1, evs2, by simp only [he2, he1], hn1, hn2⟩

theorem PushRules_phases {W : Type} (c : Collaborators W) (join : List String → String)
    (options : SyncOptions) (s : State W) :
    ∃ before after, (PushRules c join options s).2.calls = s.calls ++ before ++ after ∧
      (∀ e ∈ before, e.name ∈ setupNames) ∧
      (∀ e ∈ after, e.name ∈ copyNames ++ commitNames) := by
  rw [PushRules_eq_setup]
  have g := pushSetup_grows c join options s
  rcases h : pushSetup c join options s with ⟨r, s1⟩
  rw [h] at g
  obtain ⟨evs1, he1, hn1⟩ := g
  simp only at he1
  rcases r with err | ⟨a, b, root, files⟩
  · exact ⟨evs1, [], by simp [he1], hn1, by simp⟩
  · obtain ⟨evs2, he2, hn2⟩ := copyFilesForPush_grows c files b a options.OverwriteHeaders s1
    obtain ⟨evs3, he3, hn3⟩ := commitPhase_grows c a root options.GitWithoutPush
      (copyFilesForPush c files b a options.OverwriteHeaders s1).1
      (copyFilesForPush c files b a options.OverwriteHeaders s1).2
    refine ⟨evs1, evs2 ++ evs3, ?_, hn1, ?_⟩
    · simp only [he3, he2, he1, List.append_assoc]
    · intro e he
      rcases List.mem_append.1 he with he | he
      · exact List.mem_append_left _ (hn2 e he)
      · exact List.mem_append_right _ (hn3 e he)

theorem setup_call_not_copy (e : Call) (h : e.name ∈ setupNames) :
    e.isAreEqual = false ∧ e.isCopy = false := by
  cases e <;> simp [Call.name, setupNames, cleanupNames, Call.isAreEqual, Call.isCopy] at h ⊢

theorem copy_call_not_purge (e : Call) (h : e.name ∈ copyNames ++ commitNames) :
    e.isPurge = false := by
  cases e <;> simp [Call.name, copyNames, commitNames, Call.isPurge] at h ⊢

/-! ## A destination that cannot be listed -/

theorem PullRules_error_calls {W : Type} (c : Collaborators W) (join : List String → String)
    (options : SyncOptions) (s t : State W) (err : GoError)
    (h : PullRules c join options s = (.error err, t)) : Grows setupNames s t := by
  rw [PullRules_eq_setup] at h
  have g := pullSetup_grows c join options s
  rcases hs : pullSetup c join options s with ⟨r, s1⟩
  rw [hs] at h g
  rcases r with e | ⟨a, b, files⟩
  · simp only [Prod.mk.injEq] at h
    rw [← h.2]; exact g
  · simp at h

theorem PushRules_error_calls {W : Type} (c : Collaborators W) (join : List String → String)
    (options : SyncOptions) (s t : State W) (err : GoError)
    (h : PushRules c join options s = (.error err, t)) : Grows setupNames s t := by
  rw [PushRules_eq_setup] at h
  have g := pushSetup_grows c join options s
  rcases hs : pushSetup c join options s with ⟨r, s1⟩
  rw [hs] at h g
  rcases r with e | ⟨a, b, root, files⟩
  · simp only [Prod.mk.injEq] at h
    rw [← h.2]; exact g
  · simp at h

theorem no_copy_of_grows_setup {W : Type} {s t : State W} (h : Grows setupNames s t) :
    ∃ evs, t.calls = s.calls ++ evs ∧ evs.filter Call.isCopy = [] := by
  obtain ⟨evs, he, hn⟩ := h
  refine ⟨evs, he, ?_⟩
  rw [List.filter_eq_nil_iff]
  intro e hmem hp
  have := (setup_call_not_copy e (hn e hmem)).2
  rw [this] at hp
  exact absurd hp (by decide)

theorem cleanupExtraFilesWithPatterns_error {W : Type} (c : Collaborators W)
    (srcFiles : List String) (srcBase dstBase : String) (patterns : List String)
    (s t : State W) (err : GoError)
    (h : cleanupExtraFilesWithPatterns c srcFiles srcBase dstBase patterns s = (some err, t)) :
    ∃ cause, err = .wrap "failed to cleanup extra files: " cause := by
  unfold cleanupExtraFilesWithPatterns at h
  simp only at h
  split at h
  · split at h
    · rename_i e s1 _
      simp only [Prod.mk.injEq, Option.some.injEq] at h
      exact ⟨e, h.1.symm⟩
    · simp at h
  · split at h
    · rename_i e s1 _
      simp only [Prod.mk.injEq, Option.some.injEq] at h
      exact ⟨e, h.1.symm⟩
    · simp at h

/-- C21: a purge that fails aborts the run.  (1) In the cleanup without patterns, when
the listing of the destination directory, `FindAllFiles dstBase`, fails with
`cause`, `cleanupExtraFiles` returns the error that wraps `cause` behind "error
walking destination directory: " and has called `RemoveFile` for no file, and
`cleanupExtraFilesWithPatterns` wraps that error behind "failed to cleanup extra
files: ".  (2) In the cleanup with patterns, when `CleanupExtraFilesByPatterns`
fails with `err`, `cleanupExtraFilesWithPatterns` has made that one call and
returns `err` wrapped behind "failed to cleanup extra files: ".  (3) Whenever
`cleanupExtraFilesWithPatterns` returns an error, with or without patterns, the
message contains "failed to cleanup extra files", and a run of `PullRules` or of
`PushRules` that reaches this cleanup returns no result and that error, without
a call of `Copy`. -/
theorem destination_walk_failure_aborts_run {W : Type} (c : Collaborators W)
    (join : List String → String) (options : SyncOptions) (srcFiles filePatterns : List String)
    (srcBase dstBase : String) (s : State W) :
    (∀ (cause : GoError) (w : W),
      c.FindAllFiles dstBase (srcFilesMapOf c srcFiles srcBase s).2.world = (.error cause, w) →
      cleanupExtraFiles c srcFiles srcBase dstBase s =
          (some (.wrap "error walking destination directory: " cause),
            { world := w,
              calls := (srcFilesMapOf c srcFiles srcBase s).2.calls ++
                [Call.FindAllFiles dstBase] }) ∧
        strContains (GoError.wrap "error walking destination directory: " cause).Error
          "error walking destination directory" ∧
        (∃ evs, (cleanupExtraFiles c srcFiles srcBase dstBase s).2.calls = s.calls ++ evs ∧
          evs.filter Call.isRemoveFile = []) ∧
        (RemoveDuplicates filePatterns = [] →
          cleanupExtraFilesWithPatterns c srcFiles srcBase dstBase filePatterns s =
            (some (.wrap "failed to cleanup extra files: "
                (.wrap "error walking destination directory: " cause)),
              { world := w,
                calls := (srcFilesMapOf c srcFiles srcBase s).2.calls ++
                  [Call.FindAllFiles dstBase] }))) ∧
    (∀ (err : GoError) (w : W),
      RemoveDuplicates filePatterns ≠ [] →
      c.CleanupExtraFilesByPatterns srcFiles srcBase dstBase (RemoveDuplicates filePatterns)
          s.world = (some err, w) →
      cleanupExtraFilesWithPatterns c srcFiles srcBase dstBase filePatterns s =
        (some (.wrap "failed to cleanup extra files: " err),
          { world := w,
            calls := s.calls ++
              [Call.CleanupExtraFilesByPatterns srcFiles srcBase dstBase
                (RemoveDuplicates filePatterns)] })) ∧
    (∀ (err : GoError) (t : State W),
      cleanupExtraFilesWithPatterns c srcFiles srcBase dstBase filePatterns s = (some err, t) →
      strContains err.Error "failed to cleanup extra files" ∧
        (∀ (s0 s1 : State W) (w2 w3 : W),
          preparePullPaths c join options.RulesDir s0 = (.ok (srcBase, dstBase), s1) →
          c.GetFilePatterns options.FilePatterns s1.world = (.ok filePatterns, w2) →
          c.MkdirAll dstBase ModePerm w2 = (none, w3) →
          findFilesWithPatterns c srcBase filePatterns
              { world := w3,
                calls := s1.calls ++
                  [Call.GetFilePatterns options.FilePatterns, Call.MkdirAll dstBase ModePerm] }
            = (.ok srcFiles, s) →
          PullRules c join options s0 = (.error err, t) ∧
            ∃ evs, (PullRules c join options s0).2.calls = s0.calls ++ evs ∧
              evs.filter Call.isCopy = []) ∧
        (∀ (s0 s1 s2 s4 : State W) (projectGitRoot : String) (w3 w5 : W),
          preparePushPaths c join options.RulesDir s0
            = (.ok (dstBase, srcBase, projectGitRoot), s1) →
          validateRulesDirectory c srcBase s1 = (none, s2) →
          c.GetFilePatterns options.FilePatterns s2.world = (.ok filePatterns, w3) →
          findFilesWithPatterns c srcBase filePatterns
              { world := w3, calls := s2.calls ++ [Call.GetFilePatterns options.FilePatterns] }
            = (.ok srcFiles, s4) →
          c.MkdirAll dstBase ModePerm s4.world = (none, w5) →
          s = { world := w5, calls := s4.calls ++ [Call.MkdirAll dstBase ModePerm] } →
          PushRules c join options s0 = (.error err, t) ∧
            ∃ evs, (PushRules c join options s0).2.calls = s0.calls ++ evs ∧
              evs.filter Call.isCopy = [])) := by
  refine ⟨?_, ?_, ?_⟩
  · intro cause w hwalk
    have hA : cleanupExtraFiles c srcFiles srcBase dstBase s =
        (some (.wrap "error walking destination directory: " cause),
          { world := w,
            calls := (srcFilesMapOf c srcFiles srcBase s).2.calls ++
              [Call.FindAllFiles dstBase] }) := by
      rcases hm : srcFilesMapOf c srcFiles srcBase s with ⟨m, s1⟩
      rw [hm] at hwalk
      simp only at hwalk
      simp [cleanupExtraFiles, hm, invoke, hwalk]
    refine ⟨hA, ?_, ?_, ?_⟩
    · apply strContains_append_right
      decide
    · obtain ⟨evs0, he0, hn0⟩ := srcFilesMapOf_no_remove c srcFiles srcBase s
      refine ⟨evs0 ++ [Call.FindAllFiles dstBase], ?_, ?_⟩
      · rw [hA]
        simp only [he0, List.append_assoc]
      · have hf0 : evs0.filter Call.isRemoveFile = [] := by
          apply filter_eq_nil_of_grows _ hn0
          intro x hp
          cases x <;> simp [Call.isRemoveFile] at hp
          simp [Call.name]
        simp [List.filter_append, hf0, Call.isRemoveFile]
    · intro hpat
      simp [cleanupExtraFilesWithPatterns, hpat, hA]
  · intro err w hpat hfail
    have hlen : ¬ (RemoveDuplicates filePatterns).length = 0 := by
      intro h0
      exact hpat (List.length_eq_zero.1 h0)
    simp [cleanupExtraFilesWithPatterns, hlen, invoke, hfail]
  · intro err t hD
    obtain ⟨cause, hcause⟩ :=
      cleanupExtraFilesWithPatterns_error c srcFiles srcBase dstBase filePatterns s t err hD
    refine ⟨?_, ?_, ?_⟩
    · rw [hcause]
      apply strContains_append_right
      decide
    · intro s0 s1 w2 w3 h1 h2 h3 h4
      have e : PullRules c join options s0 = (.error err, t) := by
        unfold PullRules
        simp [h1, invoke, h2, h3, h4, hD]
      refine ⟨e, ?_⟩
      have g := PullRules_error_calls c join options s0 _ _ e
      rw [e]
      exact no_copy_of_grows_setup g
    · intro s0 s1 s2 s4 projectGitRoot w3 w5 h1 h2 h3 h4 h5 h6
      have e : PushRules c join options s0 = (.error err, t) := by
        unfold PushRules
        rw [h6] at hD
        simp [h1, h2, invoke, h3, h4, h5, hD]
      refine ⟨e, ?_⟩
      have g := PushRules_error_calls c join options s0 _ _ e
      rw [e]
      exact no_copy_of_grows_setup g

theorem destination_walk_failure_aborts_run_witness :
    PullRules treesProjectUnlisted joinSlash optionsRules (State.start ()) =
        (.error (.wrap "failed to cleanup extra files: "
            (.wrap "error walking destination directory: " errWalk)),
          { world := (),
            calls :=
              [Call.GetCurrentDir, Call.GetGitRootDir "/project/sub", Call.GetFilePatterns "",
                Call.MkdirAll "/project/.cursor/rules" 511, Call.FindAllFiles "/rules",
                Call.GetRelativePath "/rules/a.mdc" "/rules",
                Call.GetRelativePath "/rules/stale.mdc" "/rules",
                Call.FindAllFiles "/project/.cursor/rules"] }) ∧
      PushRules treesRulesUnlisted joinSlash optionsRules (State.start ()) =
        (.error (.wrap "failed to cleanup extra files: "
            (.wrap "error walking destination directory: " errWalk)),
          { world := (),
            calls :=
              [Call.GetCurrentDir, Call.GetGitRootDir "/project/sub",
                Call.FileExists "/project/.cursor/rules", Call.GetFilePatterns "",
                Call.FindAllFiles "/project/.cursor/rules", Call.MkdirAll "/rules" 511,
                Call.GetRelativePath "/project/.cursor/rules/a.mdc" "/project/.cursor/rules",
                Call.FindAllFiles "/rules"] }) ∧
      PullRules treesPatternCleanupFails joinSlash optionsMdc (State.start ()) =
        (.error (.wrap "failed to cleanup extra files: " errCleanup),
          { world := (),
            calls :=
              [Call.GetCurrentDir, Call.GetGitRootDir "/project/sub",
                Call.GetFilePatterns "*.mdc", Call.MkdirAll "/project/.cursor/rules" 511,
                Call.FindFilesByPatterns "/rules" ["*.mdc"],
                Call.CleanupExtraFilesByPatterns ["/rules/a.mdc", "/rules/stale.mdc"] "/rules"
                  "/project/.cursor/rules" ["*.mdc"]] }) ∧
      PushRules treesPatternCleanupFails joinSlash optionsMdc (State.start ()) =
        (.error (.wrap "failed to cleanup extra files: " errCleanup),
          { world := (),
            calls :=
              [Call.GetCurrentDir, Call.GetGitRootDir "/project/sub",
                Call.FileExists "/project/.cursor/rules", Call.GetFilePatterns "*.mdc",
                Call.FindFilesByPatterns "/project/.cursor/rules" ["*.mdc"],
                Call.MkdirAll "/rules" 511,
                Call.CleanupExtraFilesByPatterns ["/project/.cursor/rules/a.mdc"]
                  "/project/.cursor/rules" "/rules" ["*.mdc"]] }) :=
  ⟨(((destination_walk_failure_aborts_run treesProjectUnlisted joinSlash optionsRules
      ["/rules/a.mdc", "/rules/stale.mdc"] [] "/rules" "/project/.cursor/rules"
      _).2.2 _ _ rfl).2.1 (State.start ()) _ () () rfl rfl rfl rfl).1,
    (((destination_walk_failure_aborts_run treesRulesUnlisted joinSlash optionsRules
      ["/project/.cursor/rules/a.mdc"] [] "/project/.cursor/rules" "/rules"
      _).2.2 _ _ rfl).2.2 (State.start ()) _ _ _ "/project" () () rfl rfl rfl rfl rfl
      rfl).1,
    (((destination_walk_failure_aborts_run treesPatternCleanupFails joinSlash optionsMdc
      ["/rules/a.mdc", "/rules/stale.mdc"] ["*.mdc"] "/rules" "/project/.cursor/rules"
      _).2.2 _ _ rfl).2.1 (State.start ()) _ () () rfl rfl rfl rfl).1,
    (((destination_walk_failure_aborts_run treesPatternCleanupFails joinSlash optionsMdc
      ["/project/.cursor/rules/a.mdc"] ["*.mdc"] "/project/.cursor/rules" "/rules"
      _).2.2 _ _ rfl).2.2 (State.start ()) _ _ _ "/project" () () rfl rfl rfl rfl rfl
      rfl).1⟩

/-! ## A removal that fails -/

/-- C22: a removal that fails does not abort the cleanup.  Let the relative paths be
computed by `rel`, let the destination be listed as `pre ++ d :: post`, let `d` be
an orphan (no source file has its relative path) and let `RemoveFile d` fail with
`err`, in the state `sp` that the cleanup reached after the files `pre`.  Then
`cleanupExtraFiles` returns no error; for `d` it calls `GetRelativePath`,
`RemoveFile` and reports `err` with `PrintErrorf`, and it goes on with the files
`post` as usual: the removals requested after the failure are, in order, all the
orphans among `post`. -/
theorem removal_failure_does_not_abort_cleanup {W : Type} (c : Collaborators W)
    (rel : String → String → String) (srcFiles pre post : List String)
    (srcBase dstBase d : String) (err : GoError) (s sp : State W) (w0 w2 : W)
    (hrel : ∀ p b w, (c.GetRelativePath p b w).1 = .ok (rel p b))
    (hlist : c.FindAllFiles dstBase (srcFilesMapOf c srcFiles srcBase s).2.world
      = (.ok (pre ++ d :: post), w0))
    (hpre : pre.foldl
        (cleanupExtraFilesStep c (srcFiles.map (fun f => rel f srcBase)) dstBase)
        { world := w0,
          calls := (srcFilesMapOf c srcFiles srcBase s).2.calls ++ [Call.FindAllFiles dstBase] }
      = sp)
    (horphan : ∀ f ∈ srcFiles, rel d dstBase ≠ rel f srcBase)
    (hfail : c.RemoveFile d (c.GetRelativePath d dstBase sp.world).2 = (some err, w2)) :
    cleanupExtraFiles c srcFiles srcBase dstBase s =
        (none,
          post.foldl (cleanupExtraFilesStep c (srcFiles.map (fun f => rel f srcBase)) dstBase)
            { world := c.PrintErrorf "Error deleting file %s: %v\n" [rel d dstBase, err.Error] w2,
              calls := sp.calls ++
                [Call.GetRelativePath d dstBase, Call.RemoveFile d,
                  Call.PrintErrorf "Error deleting file %s: %v\n"
                    [rel d dstBase, err.Error]] }) ∧
      ∃ evs,
        (cleanupExtraFiles c srcFiles srcBase dstBase s).2.calls =
            sp.calls ++
              [Call.GetRelativePath d dstBase, Call.RemoveFile d,
                Call.PrintErrorf "Error deleting file %s: %v\n" [rel d dstBase, err.Error]] ++
              evs ∧
          evs.filter Call.isRemoveFile =
            (post.filter
              (fun x => !(srcFiles.map (fun f => rel f srcBase)).contains (rel x dstBase))).map
              Call.RemoveFile := by
  have hkeys := srcFilesMapOf_keys c rel hrel srcFiles srcBase s
  have hnot : rel d dstBase ∉ srcFiles.map (fun f => rel f srcBase) := by
    intro hmem
    obtain ⟨f, hf, hfe⟩ := List.mem_map.1 hmem
    exact horphan f hf hfe.symm
  have estep : cleanupExtraFilesStep c (srcFiles.map (fun f => rel f srcBase)) dstBase sp d =
      { world := c.PrintErrorf "Error deleting file %s: %v\n" [rel d dstBase, err.Error] w2,
        calls := sp.calls ++
          [Call.GetRelativePath d dstBase, Call.RemoveFile d,
            Call.PrintErrorf "Error deleting file %s: %v\n" [rel d dstBase, err.Error]] } := by
    unfold cleanupExtraFilesStep
    simp [invoke, emit, hrel, hnot, hfail]
  have e : cleanupExtraFiles c srcFiles srcBase dstBase s =
      (none,
        post.foldl (cleanupExtraFilesStep c (srcFiles.map (fun f => rel f srcBase)) dstBase)
          { world := c.PrintErrorf "Error deleting file %s: %v\n" [rel d dstBase, err.Error] w2,
            calls := sp.calls ++
              [Call.GetRelativePath d dstBase, Call.RemoveFile d,
                Call.PrintErrorf "Error deleting file %s: %v\n"
                  [rel d dstBase, err.Error]] }) := by
    rw [← estep, ← hpre, ← List.foldl_cons, ← List.foldl_append]
    rcases hm : srcFilesMapOf c srcFiles srcBase s with ⟨m, s1⟩
    rw [hm] at hkeys hlist
    simp only at hkeys hlist
    simp [cleanupExtraFiles, hm, invoke, hlist, hkeys]
  refine ⟨e, ?_⟩
  rw [e]
  obtain ⟨evs, he, -⟩ := grows_foldl
    (cleanupExtraFilesStep c (srcFiles.map (fun f => rel f srcBase)) dstBase)
    (fun s x => cleanupExtraFilesStep_grows c _ dstBase s x) post
    { world := c.PrintErrorf "Error deleting file %s: %v\n" [rel d dstBase, err.Error] w2,
      calls := sp.calls ++
        [Call.GetRelativePath d dstBase, Call.RemoveFile d,
          Call.PrintErrorf "Error deleting file %s: %v\n" [rel d dstBase, err.Error]] }
  refine ⟨evs, he, ?_⟩
  have h1 := cleanup_foldl_removes c rel hrel (srcFiles.map (fun f => rel f srcBase)) dstBase post
    { world := c.PrintErrorf "Error deleting file %s: %v\n" [rel d dstBase, err.Error] w2,
      calls := sp.calls ++
        [Call.GetRelativePath d dstBase, Call.RemoveFile d,
          Call.PrintErrorf "Error deleting file %s: %v\n" [rel d dstBase, err.Error]] }
  rw [he, List.filter_append] at h1
  exact List.append_cancel_left h1

theorem removal_failure_does_not_abort_cleanup_witness :
    cleanupExtraFiles treesNoRemoval [] "/src" "/dst" (State.start ()) =
      (none,
        { world := (),
          calls :=
            [Call.FindAllFiles "/dst", Call.GetRelativePath "/dst/a.mdc" "/dst",
              Call.RemoveFile "/dst/a.mdc",
              Call.PrintErrorf "Error deleting file %s: %v\n"
                ["a.mdc", "open /dst/a.mdc: permission denied"],
              Call.GetRelativePath "/dst/stale.mdc" "/dst", Call.RemoveFile "/dst/stale.mdc",
              Call.PrintErrorf "Error deleting file %s: %v\n"
                ["stale.mdc", "open /dst/a.mdc: permission denied"]] }) :=
  (removal_failure_does_not_abort_cleanup treesNoRemoval below [] [] ["/dst/stale.mdc"]
    "/src" "/dst" "/dst/a.mdc" errRead (State.start ()) _ () ()
    (fun _ _ _ => rfl) rfl rfl (by simp) rfl).1

/-! ## Header-aware comparison and copy -/

theorem readFile_of_some (fs : FileSystem) (path : String) (content : Bytes)
    (h : fs path = some content) :
    ReadFileNormalized fs.readFile path = .ok (normalize content) := by
  simp [ReadFileNormalized, FileSystem.readFile, h]

/-- C23: let two readable files have, after normalisation, the same body and different
headers.  With header preservation on (`overwriteHeaders = false`) and both paths
ending in `.mdc`, `AreEqual` returns true.  With header preservation off, or when
one of the paths does not end in `.mdc`, `AreEqual` compares the full normalised
contents, and so returns false for these two files. -/
theorem AreEqual_compares_bodies_when_preserving (split : Splitter) (fs : FileSystem)
    (file1 file2 : String) (content1 content2 : Bytes)
    (h1 : fs file1 = some content1) (h2 : fs file2 = some content2)
    (hbody : (split (normalize content1)).2 = (split (normalize content2)).2)
    (hhead : (split (normalize content1)).1 ≠ (split (normalize content2)).1) :
    (isMdc file1 = true → isMdc file2 = true →
        Comparator.AreEqual split fs file1 file2 false = .ok true) ∧
      Comparator.AreEqual split fs file1 file2 true = .ok false ∧
      (isMdc file1 = false ∨ isMdc file2 = false →
        Comparator.AreEqual split fs file1 file2 false = .ok false) ∧
      (∀ overwriteHeaders,
        overwriteHeaders = true ∨ isMdc file1 = false ∨ isMdc file2 = false →
        Comparator.AreEqual split fs file1 file2 overwriteHeaders =
          .ok (normalize content1 == normalize content2)) := by
  have hne : normalize content1 ≠ normalize content2 := by
    intro heq
    rw [heq] at hhead
    exact hhead rfl
  have hfull : ∀ overwriteHeaders,
      overwriteHeaders = true ∨ isMdc file1 = false ∨ isMdc file2 = false →
      Comparator.AreEqual split fs file1 file2 overwriteHeaders =
        .ok (normalize content1 == normalize content2) := by
    intro oh hcase
    have hc : (oh || !isMdc file1 || !isMdc file2) = true := by
      rcases hcase with h | h | h <;> simp [h]
    simp only [Comparator.AreEqual, readFile_of_some fs file1 content1 h1,
      readFile_of_some fs file2 content2 h2, hc, if_true]
  have hfalse : (normalize content1 == normalize content2) = false := by
    simpa using hne
  refine ⟨?_, ?_, ?_, hfull⟩
  · intro m1 m2
    simp [Comparator.AreEqual, readFile_of_some fs file1 content1 h1,
      readFile_of_some fs file2 content2 h2, m1, m2, hbody]
  · rw [hfull true (Or.inl rfl), hfalse]
  · intro hcase
    rw [hfull false (Or.inr hcase), hfalse]

theorem AreEqual_compares_bodies_when_preserving_witness :
    Comparator.AreEqual splitFrontMatter rulesFS "/src/a.mdc" "/dst/a.mdc" false = .ok true ∧
      Comparator.AreEqual splitFrontMatter rulesFS "/src/a.mdc" "/dst/a.mdc" true = .ok false :=
  ⟨(AreEqual_compares_bodies_when_preserving splitFrontMatter rulesFS "/src/a.mdc" "/dst/a.mdc"
      (ascii "---\nglobs: *.go\n---\nUse tabs.\n")
      (ascii "---\nglobs: *.ts\n---\nUse tabs.\r\n\n") rfl rfl (by decide) (by decide)).1
      (by decide) (by decide),
    (AreEqual_compares_bodies_when_preserving splitFrontMatter rulesFS "/src/a.mdc" "/dst/a.mdc"
      (ascii "---\nglobs: *.go\n---\nUse tabs.\n")
      (ascii "---\nglobs: *.ts\n---\nUse tabs.\r\n\n") rfl rfl (by decide) (by decide)).2.1⟩

theorem write_other (fs : FileSystem) (path p : String) (content : Bytes) (h : p ≠ path) :
    (fs.write path content) p = fs p := by
  simp [FileSystem.write, h]

/-- C24, as stated, fails for a destination that is not in normal form: the header of
`/dst/crlf.mdc` has lines ending in CRLF; `Copy` with header preservation on reads
the destination normalised, so it writes that header with LF line endings: the
bytes of the original header are not the start of the new content. -/
theorem Copy_rewrites_a_header_with_CRLF :
    rulesFS "/dst/crlf.mdc" = some (ascii "---\r\nglobs: *.ts\r\n---\r\nUse tabs.\r\n") ∧
      (Copier.Copy splitFrontMatter rulesFS "/src/new.mdc" "/dst/crlf.mdc" false).map
          (fun fs2 => fs2 "/dst/crlf.mdc") =
        .ok (some (ascii "---\nglobs: *.ts\n---\nUse spaces.\n")) ∧
      ¬ (ascii "---\r\nglobs: *.ts\r\n---\r\n" <+:
        ascii "---\nglobs: *.ts\n---\nUse spaces.\n") := by
  decide

/-- C24, amended: let the source file be readable.  With header preservation on
(`overwriteHeaders = false`), `Copy` onto an existing destination whose path ends
in `.mdc` writes the header of the normalised destination content followed by the
body of the normalised source content.  When the destination content is in normal
form and its header and body make up the content, the content before the copy is
that header followed by the old body and the content after the copy is the same
header, byte for byte, followed by the body of the source.  With header
preservation off, or for a destination that is missing or whose path does not end
in `.mdc`, `Copy` writes the full normalised source content.  No other file
changes. -/
theorem Copy_keeps_destination_header_when_preserving (split : Splitter) (fs : FileSystem)
    (srcPath dstPath : String) (source : Bytes) (hsrc : fs srcPath = some source) :
    (∀ existing, fs dstPath = some existing → isMdc dstPath = true →
        Copier.Copy split fs srcPath dstPath false =
          .ok (fs.write dstPath
            (joinHeaderBody (split (normalize existing)).1 (split (normalize source)).2))) ∧
      (∀ existing, fs dstPath = some existing → isMdc dstPath = true →
        normalize existing = existing →
        joinHeaderBody (split existing).1 (split existing).2 = existing →
        ∃ header oldBody,
          header = (split existing).1 ∧ existing = header ++ oldBody ∧
            Copier.Copy split fs srcPath dstPath false =
              .ok (fs.write dstPath (header ++ (split (normalize source)).2))) ∧
      (∀ overwriteHeaders,
        overwriteHeaders = true ∨ fs dstPath = none ∨ isMdc dstPath = false →
        Copier.Copy split fs srcPath dstPath overwriteHeaders =
          .ok (fs.write dstPath (normalize source))) ∧
      (∀ overwriteHeaders fs2, Copier.Copy split fs srcPath dstPath overwriteHeaders = .ok fs2 →
        ∀ p, p ≠ dstPath → fs2 p = fs p) ∧
      (Copier.Copy splitFrontMatter rulesFS "/src/new.mdc" "/dst/b.mdc" false).map
          (fun fs2 => fs2 "/dst/b.mdc") =
        .ok (some (ascii "---\nglobs: *.ts\n---\nUse spaces.\n")) ∧
      (Copier.Copy splitFrontMatter rulesFS "/src/new.mdc" "/dst/b.mdc" true).map
          (fun fs2 => fs2 "/dst/b.mdc") =
        .ok (some (ascii "---\nglobs: *.go\n---\nUse spaces.\n")) := by
  have hpres : ∀ existing, fs dstPath = some existing → isMdc dstPath = true →
      Copier.Copy split fs srcPath dstPath false =
        .ok (fs.write dstPath
          (joinHeaderBody (split (normalize existing)).1 (split (normalize source)).2)) := by
    intro existing hdst hmdc
    simp [Copier.Copy, readFile_of_some fs srcPath source hsrc,
      readFile_of_some fs dstPath existing hdst, hdst, hmdc]
  refine ⟨hpres, ?_, ?_, ?_, by decide, by decide⟩
  · intro existing hdst hmdc hnorm hjoin
    refine ⟨(split existing).1, (split existing).2, rfl, hjoin.symm, ?_⟩
    have h := hpres existing hdst hmdc
    rw [hnorm] at h
    exact h
  · intro oh hcase
    have hc : ((fs dstPath).isNone || oh || !isMdc dstPath) = true := by
      rcases hcase with h | h | h <;> simp [h]
    simp only [Copier.Copy, readFile_of_some fs srcPath source hsrc, hc, if_true]
  · intro oh fs2 hcopy p hp
    unfold Copier.Copy at hcopy
    rw [readFile_of_some fs srcPath source hsrc] at hcopy
    simp only at hcopy
    split at hcopy
    · simp only [Except.ok.injEq] at hcopy
      rw [← hcopy]
      exact write_other fs dstPath p _ hp
    · split at hcopy
      · simp at hcopy
      · simp only [Except.ok.injEq] at hcopy
        rw [← hcopy]
        exact write_other fs dstPath p _ hp

theorem Copy_keeps_destination_header_when_preserving_witness :
    (∃ header oldBody,
        header = ascii "---\nglobs: *.ts\n---\n" ∧
          ascii "---\nglobs: *.ts\n---\nUse tabs.\n" = header ++ oldBody ∧
          Copier.Copy splitFrontMatter rulesFS "/src/new.mdc" "/dst/b.mdc" false =
            .ok (rulesFS.write "/dst/b.mdc" (header ++ ascii "Use spaces.\n"))) ∧
      Copier.Copy splitFrontMatter rulesFS "/src/new.mdc" "/dst/notes.txt" false =
        .ok (rulesFS.write "/dst/notes.txt" (ascii "---\nglobs: *.go\n---\nUse spaces.\n")) :=
  ⟨(Copy_keeps_destination_header_when_preserving splitFrontMatter rulesFS "/src/new.mdc"
      "/dst/b.mdc" (ascii "---\nglobs: *.go\n---\nUse spaces.\n") rfl).2.1
      (ascii "---\nglobs: *.ts\n---\nUse tabs.\n") rfl (by decide) (by decide) (by decide),
    (Copy_keeps_destination_header_when_preserving splitFrontMatter rulesFS "/src/new.mdc"
      "/dst/notes.txt" (ascii "---\nglobs: *.go\n---\nUse spaces.\n") rfl).2.2.1 false
      (Or.inr (Or.inr (by decide)))⟩

/-! ## The order of the cleanup and the copy loop -/

/-- C25, as stated, fails: in this pull run, and in this push run, the orphan of the
destination is removed before the first source file is compared or copied: the
call of `RemoveFile` is among the calls in front of the first `AreEqual` or `Copy`,
and the file `a.mdc` is compared and copied after it. -/
theorem cleanup_runs_before_the_copy_loop :
    Call.RemoveFile "/project/.cursor/rules/old.mdc" ∈
        (PullRules (trees listingStaleProject false none) joinSlash optionsRules
          (State.start ())).2.calls.takeWhile (fun e => !e.isAreEqual && !e.isCopy) ∧
      Call.Copy "/rules/a.mdc" "/project/.cursor/rules/a.mdc" false ∈
        (PullRules (trees listingStaleProject false none) joinSlash optionsRules
          (State.start ())).2.calls.dropWhile (fun e => !e.isAreEqual && !e.isCopy) ∧
      Call.RemoveFile "/rules/stale.mdc" ∈
        (PushRules (trees listingProject false none) joinSlash optionsRules
          (State.start ())).2.calls.takeWhile (fun e => !e.isAreEqual && !e.isCopy) ∧
      Call.Copy "/project/.cursor/rules/a.mdc" "/rules/a.mdc" false ∈
        (PushRules (trees listingProject false none) joinSlash optionsRules
          (State.start ())).2.calls.dropWhile (fun e => !e.isAreEqual && !e.isCopy) := by
  decide

/-- C25, amended: in every pull and push run the cleanup of the destination runs before
the copy loop.  The calls of a run are a first part without a call of `AreEqual` or
`Copy`, followed by a second part without a call of `RemoveFile` or
`CleanupExtraFilesByPatterns`: no destination file is removed after the first
source file has been compared or copied. -/
theorem cleanup_precedes_compare_and_copy {W : Type} (c : Collaborators W)
    (join : List String → String) (options : SyncOptions) (s : State W) :
    (∃ before after, (PullRules c join options s).2.calls = s.calls ++ before ++ after ∧
      (∀ e ∈ before, e.isAreEqual = false ∧ e.isCopy = false) ∧
      (∀ e ∈ after, e.isPurge = false)) ∧
    (∃ before after, (PushRules c join options s).2.calls = s.calls ++ before ++ after ∧
      (∀ e ∈ before, e.isAreEqual = false ∧ e.isCopy = false) ∧
      (∀ e ∈ after, e.isPurge = false)) := by
  constructor
  · obtain ⟨before, after, h1, h2, h3⟩ := PullRules_phases c join options s
    exact ⟨before, after, h1, fun e he => setup_call_not_copy e (h2 e he),
      fun e he => copy_call_not_purge e (List.mem_append_left _ (h3 e he))⟩
  · obtain ⟨before, after, h1, h2, h3⟩ := PushRules_phases c join options s
    exact ⟨before, after, h1, fun e he => setup_call_not_copy e (h2 e he),
      fun e he => copy_call_not_purge e (h3 e he)⟩

/-! ## Finding the files of a directory -/

/-- C26: with an empty pattern set `findFilesWithPatterns` makes one call, `FindAllFiles`
on the directory, and returns the list of that call as it is (on failure the error,
wrapped), without a call of `FindFilesByPatterns`; with a pattern set that is not
empty it makes one call, `FindFilesByPatterns` with the directory and the patterns,
and returns the list of that call as it is.  On the tree of the example the files
under `/dst` are returned in the order of the listing. -/
theorem findFilesWithPatterns_lists_all_or_filters {W : Type} (c : Collaborators W)
    (dir pattern : String) (patterns : List String) (s : State W) :
    (findFilesWithPatterns c dir [] s).1 =
        (match (c.FindAllFiles dir s.world).1 with
          | .ok files => .ok files
          | .error err => .error (.wrap ("failed to find source files in " ++ dir ++ ": ") err)) ∧
      (findFilesWithPatterns c dir [] s).2 =
        { world := (c.FindAllFiles dir s.world).2,
          calls := s.calls ++ [Call.FindAllFiles dir] } ∧
      (findFilesWithPatterns c dir (pattern :: patterns) s).1 =
        (match (c.FindFilesByPatterns dir (pattern :: patterns) s.world).1 with
          | .ok files => .ok files
          | .error err =>
              .error (.wrap ("failed to find files by patterns in " ++ dir ++ ": ") err)) ∧
      (findFilesWithPatterns c dir (pattern :: patterns) s).2 =
        { world := (c.FindFilesByPatterns dir (pattern :: patterns) s.world).2,
          calls := s.calls ++ [Call.FindFilesByPatterns dir (pattern :: patterns)] } ∧
      findFilesWithPatterns (trees listingSrcDst true none) "/dst" [] (State.start ()) =
        (.ok ["/dst/a.mdc", "/dst/stale.mdc"],
          { world := (), calls := [Call.FindAllFiles "/dst"] }) := by
  refine ⟨?_, ?_, ?_, ?_, rfl⟩
  · rcases h : c.FindAllFiles dir s.world with ⟨r, w⟩
    rcases r with err | files <;> simp [findFilesWithPatterns, invoke, h]
  · rcases h : c.FindAllFiles dir s.world with ⟨r, w⟩
    rcases r with err | files <;> simp [findFilesWithPatterns, invoke, h]
  · rcases h : c.FindFilesByPatterns dir (pattern :: patterns) s.world with ⟨r, w⟩
    rcases r with err | files <;> simp [findFilesWithPatterns, invoke, h]
  · rcases h : c.FindFilesByPatterns dir (pattern :: patterns) s.world with ⟨r, w⟩
    rcases r with err | files <;> simp [findFilesWithPatterns, invoke, h]

/-! ## Pull and push share the engine -/

theorem copyFilesStep_engine {W F : Type} (c : Collaborators W) (view : W → F)
    (m : EngineModel F) (hagree : Agrees c view m) (srcBase dstBase : String) (oh : Bool)
    (acc : SyncResult × State W) (src : String) :
    ((copyFilesStep c srcBase dstBase oh acc src).1,
        view (copyFilesStep c srcBase dstBase oh acc src).2.world) =
      engineStep m srcBase dstBase oh (acc.1, view acc.2.world) src := by
  obtain ⟨hR, hP, hB, hS, -, hE, hC, hPe, hPo, -⟩ := hagree
  have hR1 := fun src sb db w => (hR src sb db w).1
  have hR2 := fun src sb db w => (hR src sb db w).2
  have hP1 := fun p b w => (hP p b w).1
  have hP2 := fun p b w => (hP p b w).2
  have hB1 := fun p w => (hB p w).1
  have hB2 := fun p w => (hB p w).2
  have hS1 := fun p w => (hS p w).1
  have hS2 := fun p w => (hS p w).2
  have hE1 := fun a b o w => (hE a b o w).1
  have hE2 := fun a b o w => (hE a b o w).2
  have hC1 := fun a b o w => (hC a b o w).1
  have hC2 := fun a b o w => (hC a b o w).2
  unfold copyFilesStep engineStep
  rcases hr : m.recreate src srcBase dstBase (view acc.2.world) with ⟨r, f1⟩
  rcases r with e1 | dst
  · simp [resolvePaths, invoke, emit, hR1, hR2, hr, hPe]
  · rcases hp : m.relative src srcBase f1 with e2 | rel <;>
    rcases hs : m.stat dst f1 with e3 | u <;>
    rcases he : m.equal src dst oh f1 with e4 | eq <;>
    rcases hc : m.copy src dst oh f1 with ⟨r5, f2⟩ <;>
    rcases r5 with _ | e5 <;>
    (try cases eq) <;>
    (try by_cases hne : IsNotExist e3 = true) <;>
    first
    | simp [resolvePaths, checkFileExists, shouldCopyFile, copySingleFile, FileOps.FileExists,
        invoke, emit, hR1, hR2, hr, hP1, hP2, hp, hB1, hB2, hS1, hS2, hs, hE1, hE2, he, hC1,
        hC2, hc, hPe, hPo, hne]
    | simp [resolvePaths, checkFileExists, shouldCopyFile, copySingleFile, FileOps.FileExists,
        invoke, emit, hR1, hR2, hr, hP1, hP2, hp, hB1, hB2, hS1, hS2, hs, hE1, hE2, he, hC1,
        hC2, hc, hPe, hPo]

theorem copyFilesForPushStep_engine {W F : Type} (c : Collaborators W) (view : W → F)
    (m : EngineModel F) (hagree : Agrees c view m) (srcBase dstBase : String) (oh : Bool)
    (acc : SyncResult × State W) (src : String) :
    ((copyFilesForPushStep c srcBase dstBase oh acc src).1,
        view (copyFilesForPushStep c srcBase dstBase oh acc src).2.world) =
      engineStep m srcBase dstBase oh (acc.1, view acc.2.world) src := by
  obtain ⟨hR, hP, hB, -, hF, hE, hC, hPe, -, hPt⟩ := hagree
  have hR1 := fun src sb db w => (hR src sb db w).1
  have hR2 := fun src sb db w => (hR src sb db w).2
  have hP1 := fun p b w => (hP p b w).1
  have hP2 := fun p b w => (hP p b w).2
  have hB1 := fun p w => (hB p w).1
  have hB2 := fun p w => (hB p w).2
  have hF1 := fun p w => (hF p w).1
  have hF2 := fun p w => (hF p w).2
  have hE1 := fun a b o w => (hE a b o w).1
  have hE2 := fun a b o w => (hE a b o w).2
  have hC1 := fun a b o w => (hC a b o w).1
  have hC2 := fun a b o w => (hC a b o w).2
  unfold copyFilesForPushStep engineStep
  rcases hr : m.recreate src srcBase dstBase (view acc.2.world) with ⟨r, f1⟩
  rcases r with e1 | dst
  · simp [resolvePaths, invoke, emit, hR1, hR2, hr, hPe]
  · rcases hp : m.relative src srcBase f1 with e2 | rel <;>
    rcases hs : m.stat dst f1 with e3 | u <;>
    rcases he : m.equal src dst oh f1 with e4 | eq <;>
    rcases hc : m.copy src dst oh f1 with ⟨r5, f2⟩ <;>
    rcases r5 with _ | e5 <;>
    (try cases eq) <;>
    (try by_cases hne : IsNotExist e3 = true) <;>
    first
    | simp [resolvePaths, checkFileExistsForPush, shouldCopyFile, copySingleFileForPush,
        FileOps.FileExists, invoke, emit, hR1, hR2, hr, hP1, hP2, hp, hB1, hB2, hF1, hF2, hs,
        hE1, hE2, he, hC1, hC2, hc, hPe, hPt, hne]
    | simp [resolvePaths, checkFileExistsForPush, shouldCopyFile, copySingleFileForPush,
        FileOps.FileExists, invoke, emit, hR1, hR2, hr, hP1, hP2, hp, hB1, hB2, hF1, hF2, hs,
        hE1, hE2, he, hC1, hC2, hc, hPe, hPt]

theorem foldl_engine {W F : Type} (view : W → F)
    (step : SyncResult × State W → String → SyncResult × State W)
    (f : SyncResult × F → String → SyncResult × F)
    (hstep : ∀ acc src, ((step acc src).1, view (step acc src).2.world) =
      f (acc.1, view acc.2.world) src)
    (files : List String) (acc : SyncResult × State W) :
    ((files.foldl step acc).1, view (files.foldl step acc).2.world) =
      files.foldl f (acc.1, view acc.2.world) := by
  induction files generalizing acc with
  | nil => rfl
  | cons x rest ih => rw [List.foldl_cons, List.foldl_cons, ih, hstep]

/-- C27, as stated, fails: with collaborators that have a memory the two loops can
return different results.  Here `Copy` fails once `GetBaseName` has been called;
the existence checks agree (`Stat` reports "not found", `FileExists` reports
`false`).  Pull copies both files and records two operations; push calls
`GetBaseName` after its first copy, so its second copy fails and it records one
operation. -/
theorem pull_and_push_differ_with_memory :
    (copyFiles countingCollaborators ["/src/a.mdc", "/src/b.mdc"] "/src" "/dst" false
        (State.start 0)).1 =
      { Operations :=
          [{ OpType := "add", SourcePath := "/src/a.mdc", TargetPath := "/dst/a.mdc",
             RelativePath := "a.mdc" },
           { OpType := "add", SourcePath := "/src/b.mdc", TargetPath := "/dst/b.mdc",
             RelativePath := "b.mdc" }],
        HasChanges := true } ∧
      (copyFilesForPush countingCollaborators ["/src/a.mdc", "/src/b.mdc"] "/src" "/dst" false
        (State.start 0)).1 =
      { Operations :=
          [{ OpType := "add", SourcePath := "/src/a.mdc", TargetPath := "/dst/a.mdc",
             RelativePath := "a.mdc" }],
        HasChanges := true } ∧
      (copyFiles countingCollaborators ["/src/a.mdc", "/src/b.mdc"] "/src" "/dst" false
        (State.start 0)).1 ≠
      (copyFilesForPush countingCollaborators ["/src/a.mdc", "/src/b.mdc"] "/src" "/dst" false
        (State.start 0)).1 := by
  decide

/-- C27, amended: pull and push run the same engine on the same file system.  Let the
collaborators behave as a model `m` on the state of the file system that `view`
reads off the world (`Agrees`): the answers depend on that state only, `Copy` and
`RecreateDirectoryStructure` may change it, `FileExists` answers as
`FileOps.FileExists` does on `Stat`.  Then `copyFiles` and `copyFilesForPush`,
started on the same state of the file system, return the same result and leave
the same state of the file system, for every list of source files: the outcome
of folding `engineStep` over the list. -/
theorem pull_and_push_share_the_engine {W F : Type} (c : Collaborators W) (view : W → F)
    (m : EngineModel F) (srcBase dstBase : String) (oh : Bool) (files : List String)
    (s s2 : State W) (hagree : Agrees c view m) (hview : view s.world = view s2.world) :
    (copyFiles c files srcBase dstBase oh s).1 =
        (copyFilesForPush c files srcBase dstBase oh s2).1 ∧
      view (copyFiles c files srcBase dstBase oh s).2.world =
        view (copyFilesForPush c files srcBase dstBase oh s2).2.world ∧
      ((copyFiles c files srcBase dstBase oh s).1,
          view (copyFiles c files srcBase dstBase oh s).2.world) =
        files.foldl (engineStep m srcBase dstBase oh)
          ({ Operations := [], HasChanges := false }, view s.world) := by
  have pull : ((copyFiles c files srcBase dstBase oh s).1,
      view (copyFiles c files srcBase dstBase oh s).2.world) =
      files.foldl (engineStep m srcBase dstBase oh)
        ({ Operations := [], HasChanges := false }, view s.world) :=
    foldl_engine view _ _ (copyFilesStep_engine c view m hagree srcBase dstBase oh) files
      ({ Operations := [], HasChanges := false }, s)
  have push : ((copyFilesForPush c files srcBase dstBase oh s2).1,
      view (copyFilesForPush c files srcBase dstBase oh s2).2.world) =
      files.foldl (engineStep m srcBase dstBase oh)
        ({ Operations := [], HasChanges := false }, view s.world) := by
    rw [copyFilesForPush_eq_foldl, hview]
    exact foldl_engine view _ _ (copyFilesForPushStep_engine c view m hagree srcBase dstBase oh)
      files ({ Operations := [], HasChanges := false }, s2)
  have both := pull.trans push.symm
  simp only [Prod.mk.injEq] at both
  exact ⟨both.1, both.2, pull⟩

theorem pull_and_push_share_the_engine_witness :
    (copyFiles diskCollaborators ["/src/a.mdc", "/src/b.mdc", "/src/b.mdc"] "/src" "/dst" false
        (State.start ["/dst/a.mdc"])).1 =
      (copyFilesForPush diskCollaborators ["/src/a.mdc", "/src/b.mdc", "/src/b.mdc"] "/src"
        "/dst" false (State.start ["/dst/a.mdc"])).1 ∧
    (copyFiles diskCollaborators ["/src/a.mdc", "/src/b.mdc", "/src/b.mdc"] "/src" "/dst" false
        (State.start ["/dst/a.mdc"])).1.Operations.map (fun op => op.OpType) =
      ["update", "add", "update"] :=
  ⟨(pull_and_push_share_the_engine diskCollaborators id diskModel "/src" "/dst" false
      ["/src/a.mdc", "/src/b.mdc", "/src/b.mdc"] (State.start ["/dst/a.mdc"])
      (State.start ["/dst/a.mdc"])
      ⟨fun _ _ _ _ => ⟨rfl, rfl⟩, fun _ _ _ => ⟨rfl, rfl⟩, fun _ _ => ⟨rfl, rfl⟩,
        fun _ _ => ⟨rfl, rfl⟩, fun _ _ => ⟨rfl, rfl⟩, fun _ _ _ _ => ⟨rfl, rfl⟩,
        fun _ _ _ _ => ⟨rfl, rfl⟩, fun _ _ _ => rfl, fun _ _ _ => rfl, fun _ _ _ _ => rfl⟩
      rfl).1,
    by decide⟩

/-! ## The order of the operations of a result -/

theorem copySingleFile_ops {W : Type} (c : Collaborators W) (src dst rel : String)
    (existed oh : Bool) (result : SyncResult) (s : State W) :
    (copySingleFile c src dst rel existed oh result s).2.1.Operations = result.Operations ∨
      ∃ op, op.SourcePath = src ∧
        (copySingleFile c src dst rel existed oh result s).2.1.Operations =
          result.Operations ++ [op] := by
  unfold copySingleFile
  split
  · exact Or.inl rfl
  · exact Or.inr ⟨_, rfl, rfl⟩

theorem copySingleFileForPush_ops {W : Type} (c : Collaborators W) (src dst rel : String)
    (existed oh : Bool) (dstBase : String) (result : SyncResult) (s : State W) :
    (copySingleFileForPush c src dst rel existed oh dstBase result s).2.1.Operations =
        result.Operations ∨
      ∃ op, op.SourcePath = src ∧
        (copySingleFileForPush c src dst rel existed oh dstBase result s).2.1.Operations =
          result.Operations ++ [op] := by
  unfold copySingleFileForPush
  split
  · exact Or.inl rfl
  · exact Or.inr ⟨_, rfl, rfl⟩

theorem copyFilesStep_ops {W : Type} (c : Collaborators W) (srcBase dstBase : String)
    (oh : Bool) (acc : SyncResult × State W) (src : String) :
    (copyFilesStep c srcBase dstBase oh acc src).1.Operations = acc.1.Operations ∨
      ∃ op, op.SourcePath = src ∧
        (copyFilesStep c srcBase dstBase oh acc src).1.Operations = acc.1.Operations ++ [op] := by
  unfold copyFilesStep
  split
  · exact Or.inl rfl
  · rename_i dst rel s1 _
    split
    · exact Or.inl rfl
    · rename_i existed s2 _
      split
      · exact Or.inl rfl
      · rename_i s3 _
        have hr := copySingleFile_ops c src dst rel existed oh acc.1 s3
        split
        · rename_i h4
          rw [h4] at hr
          exact hr
        · rename_i h4
          rw [h4] at hr
          exact hr

theorem copyFilesForPushStep_ops {W : Type} (c : Collaborators W) (srcBase dstBase : String)
    (oh : Bool) (acc : SyncResult × State W) (src : String) :
    (copyFilesForPushStep c srcBase dstBase oh acc src).1.Operations = acc.1.Operations ∨
      ∃ op, op.SourcePath = src ∧
        (copyFilesForPushStep c srcBase dstBase oh acc src).1.Operations =
          acc.1.Operations ++ [op] := by
  unfold copyFilesForPushStep
  split
  · exact Or.inl rfl
  · rename_i dst rel s1 _
    split
    · exact Or.inl rfl
    · rename_i existed s2 _
      split
      · exact Or.inl rfl
      · rename_i s3 _
        have hr := copySingleFileForPush_ops c src dst rel existed oh dstBase acc.1 s3
        split
        · rename_i h4
          rw [h4] at hr
          exact hr
        · rename_i h4
          rw [h4] at hr
          exact hr

theorem foldl_ops_sublist {W : Type}
    (step : SyncResult × State W → String → SyncResult × State W)
    (hstep : ∀ acc src, (step acc src).1.Operations = acc.1.Operations ∨
      ∃ op, op.SourcePath = src ∧ (step acc src).1.Operations = acc.1.Operations ++ [op])
    (files : List String) (acc : SyncResult × State W) :
    ∃ ops, (files.foldl step acc).1.Operations = acc.1.Operations ++ ops ∧
      (ops.map (fun op => op.SourcePath)).Sublist files := by
  induction files generalizing acc with
  | nil => exact ⟨[], by simp, by simp⟩
  | cons f rest ih =>
    obtain ⟨ops, h1, h2⟩ := ih (step acc f)
    rw [List.foldl_cons]
    rcases hstep acc f with h | ⟨op, hsrc, h⟩
    · exact ⟨ops, by rw [h1, h], h2.cons f⟩
    · refine ⟨op :: ops, by rw [h1, h]; simp, ?_⟩
      rw [List.map_cons, hsrc]
      exact h2.cons₂ f

/-- C28: the source paths of the operations that `copyFiles` returns (and those that
`copyFilesForPush` returns) are a subsequence of the list of source files: the
operations follow the order of that list and a file at one position of the list
has at most one operation; so a result has at most as many operations as there
are source files. -/
theorem operations_follow_source_order {W : Type} (c : Collaborators W) (files : List String)
    (srcBase dstBase : String) (oh : Bool) (s : State W) :
    (((copyFiles c files srcBase dstBase oh s).1.Operations.map
        (fun op => op.SourcePath)).Sublist files) ∧
      (copyFiles c files srcBase dstBase oh s).1.Operations.length ≤ files.length ∧
      (((copyFilesForPush c files srcBase dstBase oh s).1.Operations.map
        (fun op => op.SourcePath)).Sublist files) ∧
      (copyFilesForPush c files srcBase dstBase oh s).1.Operations.length ≤ files.length := by
  have pull : ((copyFiles c files srcBase dstBase oh s).1.Operations.map
      (fun op => op.SourcePath)).Sublist files := by
    obtain ⟨ops, h1, h2⟩ := foldl_ops_sublist _ (copyFilesStep_ops c srcBase dstBase oh) files
      ({ Operations := [], HasChanges := false }, s)
    unfold copyFiles
    rw [h1]
    simpa using h2
  have push : ((copyFilesForPush c files srcBase dstBase oh s).1.Operations.map
      (fun op => op.SourcePath)).Sublist files := by
    obtain ⟨ops, h1, h2⟩ := foldl_ops_sublist _ (copyFilesForPushStep_ops c srcBase dstBase oh)
      files ({ Operations := [], HasChanges := false }, s)
    rw [copyFilesForPush_eq_foldl, h1]
    simpa using h2
  refine ⟨pull, ?_, push, ?_⟩
  · simpa using pull.length_le
  · simpa using push.length_le

/-! ## What a result records -/

theorem copySingleFile_optypes {W : Type} (c : Collaborators W) (src dst rel : String)
    (existed oh : Bool) (result : SyncResult) (s : State W)
    (h : ∀ op ∈ result.Operations, op.OpType = "add" ∨ op.OpType = "update") :
    ∀ op ∈ (copySingleFile c src dst rel existed oh result s).2.1.Operations,
      op.OpType = "add" ∨ op.OpType = "update" := by
  unfold copySingleFile
  split
  · exact h
  · intro op hop
    simp only [List.mem_append, List.mem_singleton] at hop
    rcases hop with hop | hop
    · exact h op hop
    · rw [hop]
      cases existed <;> simp

theorem copyFilesStep_optypes {W : Type} (c : Collaborators W)
    (srcBase dstBase : String) (oh : Bool) (acc : SyncResult × State W) (src : String)
    (h : ∀ op ∈ acc.1.Operations, op.OpType = "add" ∨ op.OpType = "update") :
    ∀ op ∈ (copyFilesStep c srcBase dstBase oh acc src).1.Operations,
      op.OpType = "add" ∨ op.OpType = "update" := by
  unfold copyFilesStep
  split
  · exact h
  · rename_i dst rel s1 _
    split
    · exact h
    · rename_i existed s2 _
      split
      · exact h
      · rename_i s3 _
        have hr := copySingleFile_optypes c src dst rel existed oh acc.1 s3 h
        split
        · rename_i h4
          rw [h4] at hr
          exact hr
        · rename_i h4
          rw [h4] at hr
          exact hr

theorem copyFiles_optypes {W : Type} (c : Collaborators W) (files : List String)
    (srcBase dstBase : String) (oh : Bool) (s : State W) :
    ∀ op ∈ (copyFiles c files srcBase dstBase oh s).1.Operations,
      op.OpType = "add" ∨ op.OpType = "update" :=
  foldl_preserves (fun r => ∀ op ∈ r.Operations, op.OpType = "add" ∨ op.OpType = "update")
    _ (copyFilesStep_optypes c srcBase dstBase oh) files _ (by simp)

theorem copyCount_le_of_grows {W : Type} {names : List String} {s t : State W}
    (h : Grows names s t) : copyCount s.calls ≤ copyCount t.calls := by
  obtain ⟨evs, he, -⟩ := h
  rw [he]
  simp [copyCount, List.filter_append]

theorem copySingleFile_copyCount {W : Type} (c : Collaborators W) (src dst rel : String)
    (existed oh : Bool) (result : SyncResult) (s : State W) :
    copyCount (copySingleFile c src dst rel existed oh result s).2.2.calls =
      copyCount s.calls + 1 := by
  unfold copySingleFile
  split
  · rename_i h1
    simp only [invoke, Prod.mk.injEq] at h1
    rw [← h1.2]
    simp [emit, copyCount, List.filter_append, Call.isCopy]
  · rename_i h1
    simp only [invoke, Prod.mk.injEq] at h1
    rw [← h1.2]
    simp [emit, copyCount, List.filter_append, Call.isCopy]

theorem copySingleFileForPush_copyCount {W : Type} (c : Collaborators W) (src dst rel : String)
    (existed oh : Bool) (dstBase : String) (result : SyncResult) (s : State W) :
    copyCount (copySingleFileForPush c src dst rel existed oh dstBase result s).2.2.calls =
      copyCount s.calls + 1 := by
  unfold copySingleFileForPush
  split
  · rename_i h1
    simp only [invoke, Prod.mk.injEq] at h1
    rw [← h1.2]
    simp [emit, copyCount, List.filter_append, Call.isCopy]
  · rename_i h1
    simp only [invoke, Prod.mk.injEq] at h1
    rw [← h1.2]
    simp [invoke, emit, copyCount, List.filter_append, Call.isCopy]

theorem copyFilesStep_unchanged_or_copy {W : Type} (c : Collaborators W)
    (srcBase dstBase : String) (oh : Bool) (acc : SyncResult × State W) (src : String) :
    (copyFilesStep c srcBase dstBase oh acc src).1 = acc.1 ∨
      copyCount acc.2.calls < copyCount (copyFilesStep c srcBase dstBase oh acc src).2.calls := by
  unfold copyFilesStep
  have g1 := copyCount_le_of_grows (resolvePaths_grows c src srcBase dstBase acc.2)
  split
  · exact Or.inl rfl
  · rename_i dst rel s1 h1
    rw [h1] at g1
    have g2 := copyCount_le_of_grows (checkFileExists_grows c dst rel s1)
    split
    · exact Or.inl rfl
    · rename_i existed s2 h2
      rw [h2] at g2
      have g3 := copyCount_le_of_grows (shouldCopyFile_grows c src dst existed oh rel s2)
      split
      · exact Or.inl rfl
      · rename_i s3 h3
        rw [h3] at g3
        have g4 := copySingleFile_copyCount c src dst rel existed oh acc.1 s3
        simp only at g1 g2 g3
        split
        · rename_i h4
          rw [h4] at g4
          simp only at g4
          refine Or.inr ?_
          simp only
          omega
        · rename_i h4
          rw [h4] at g4
          simp only at g4
          refine Or.inr ?_
          simp only
          omega

theorem copyFilesForPushStep_unchanged_or_copy {W : Type} (c : Collaborators W)
    (srcBase dstBase : String) (oh : Bool) (acc : SyncResult × State W) (src : String) :
    (copyFilesForPushStep c srcBase dstBase oh acc src).1 = acc.1 ∨
      copyCount acc.2.calls <
        copyCount (copyFilesForPushStep c srcBase dstBase oh acc src).2.calls := by
  unfold copyFilesForPushStep
  have g1 := copyCount_le_of_grows (resolvePaths_grows c src srcBase dstBase acc.2)
  split
  · exact Or.inl rfl
  · rename_i dst rel s1 h1
    rw [h1] at g1
    have g2 := copyCount_le_of_grows (checkFileExistsForPush_grows c dst rel dstBase s1)
    split
    · exact Or.inl rfl
    · rename_i existed s2 h2
      rw [h2] at g2
      have g3 := copyCount_le_of_grows (shouldCopyFile_grows c src dst existed oh rel s2)
      split
      · exact Or.inl rfl
      · rename_i s3 h3
        rw [h3] at g3
        have g4 := copySingleFileForPush_copyCount c src dst rel existed oh dstBase acc.1 s3
        simp only at g1 g2 g3
        split
        · rename_i h4
          rw [h4] at g4
          simp only at g4
          refine Or.inr ?_
          simp only
          omega
        · rename_i h4
          rw [h4] at g4
          simp only at g4
          refine Or.inr ?_
          simp only
          omega

theorem foldl_unchanged_or_copy {W : Type}
    (step : SyncResult × State W → String → SyncResult × State W)
    (hstep : ∀ acc src, (step acc src).1 = acc.1 ∨
      copyCount acc.2.calls < copyCount (step acc src).2.calls)
    (hmono : ∀ acc src, copyCount acc.2.calls ≤ copyCount (step acc src).2.calls)
    (files : List String) (acc : SyncResult × State W) :
    copyCount acc.2.calls ≤ copyCount (files.foldl step acc).2.calls ∧
      ((files.foldl step acc).1 = acc.1 ∨
        copyCount acc.2.calls < copyCount (files.foldl step acc).2.calls) := by
  induction files generalizing acc with
  | nil => exact ⟨Nat.le_refl _, Or.inl rfl⟩
  | cons f rest ih =>
    rw [List.foldl_cons]
    obtain ⟨h1, h2⟩ := ih (step acc f)
    have h3 := hmono acc f
    refine ⟨by omega, ?_⟩
    rcases h2 with h2 | h2
    · rcases hstep acc f with h4 | h4
      · exact Or.inl (h2.trans h4)
      · exact Or.inr (by omega)
    · exact Or.inr (by omega)

theorem copyFiles_without_copy {W : Type} (c : Collaborators W) (files : List String)
    (srcBase dstBase : String) (oh : Bool) (s : State W) :
    copyCount s.calls ≤ copyCount (copyFiles c files srcBase dstBase oh s).2.calls ∧
      ((copyFiles c files srcBase dstBase oh s).1 = { Operations := [], HasChanges := false } ∨
        copyCount s.calls < copyCount (copyFiles c files srcBase dstBase oh s).2.calls) :=
  foldl_unchanged_or_copy _ (copyFilesStep_unchanged_or_copy c srcBase dstBase oh)
    (fun acc src => copyCount_le_of_grows (copyFilesStep_grows c srcBase dstBase oh acc src))
    files ({ Operations := [], HasChanges := false }, s)

theorem copyFilesForPush_without_copy {W : Type} (c : Collaborators W) (files : List String)
    (srcBase dstBase : String) (oh : Bool) (s : State W) :
    copyCount s.calls ≤ copyCount (copyFilesForPush c files srcBase dstBase oh s).2.calls ∧
      ((copyFilesForPush c files srcBase dstBase oh s).1 =
          { Operations := [], HasChanges := false } ∨
        copyCount s.calls <
          copyCount (copyFilesForPush c files srcBase dstBase oh s).2.calls) := by
  rw [copyFilesForPush_eq_foldl]
  exact foldl_unchanged_or_copy _ (copyFilesForPushStep_unchanged_or_copy c srcBase dstBase oh)
    (fun acc src =>
      copyCount_le_of_grows (copyFilesForPushStep_grows c srcBase dstBase oh acc src))
    files ({ Operations := [], HasChanges := false }, s)

/-- C29: every operation of a result that `PullRules` or `PushRules` returns has the
type `add` or `update`; and a run that made no call of `Copy` returns the empty
list of operations with `HasChanges = false`, whatever its cleanup removed.  In the
pull of the example the cleanup removes `old.mdc` from the project and reports the
`delete` to the output, and the result is empty. -/
theorem results_record_only_add_and_update {W : Type} (c : Collaborators W)
    (join : List String → String) (options : SyncOptions) (s t : State W)
    (result : SyncResult)
    (h : PullRules c join options s = (.ok result, t) ∨
      PushRules c join options s = (.ok result, t)) :
    (∀ op ∈ result.Operations, op.OpType = "add" ∨ op.OpType = "update") ∧
      (copyCount t.calls = copyCount s.calls →
        result = { Operations := [], HasChanges := false }) ∧
      PullRules (trees listingStaleProject true none) joinSlash optionsRules (State.start ()) =
        (.ok { Operations := [], HasChanges := false },
          { world := (),
            calls :=
              [Call.GetCurrentDir, Call.GetGitRootDir "/project/sub", Call.GetFilePatterns "",
                Call.MkdirAll "/project/.cursor/rules" 511, Call.FindAllFiles "/rules",
                Call.GetRelativePath "/rules/a.mdc" "/rules",
                Call.FindAllFiles "/project/.cursor/rules",
                Call.GetRelativePath "/project/.cursor/rules/a.mdc" "/project/.cursor/rules",
                Call.GetRelativePath "/project/.cursor/rules/old.mdc" "/project/.cursor/rules",
                Call.RemoveFile "/project/.cursor/rules/old.mdc",
                Call.PrintOperation "delete" "old.mdc",
                Call.RecreateDirectoryStructure "/rules/a.mdc" "/rules" "/project/.cursor/rules",
                Call.GetRelativePath "/rules/a.mdc" "/rules",
                Call.Stat "/project/.cursor/rules/a.mdc",
                Call.AreEqual "/rules/a.mdc" "/project/.cursor/rules/a.mdc" false] }) := by
  refine ⟨?_, ?_, rfl⟩
  · rcases h with h | h
    · obtain ⟨files, srcBase, dstBase, s5, -, hr⟩ := PullRules_result c join options s t result h
      rw [hr]
      exact copyFiles_optypes c _ _ _ _ _
    · obtain ⟨files, env, proj, root, s6, -, hr⟩ := PushRules_result c join options s t result h
      rw [hr]
      exact copyFilesForPush_optypes c _ _ _ _ _
  · intro hcount
    rcases h with h | h
    · obtain ⟨files, srcBase, dstBase, s5, hs, hr⟩ :=
        PullRules_result c join options s t result h
      have g1 := pullSetup_grows c join options s
      rw [hs] at g1
      have k1 := copyCount_le_of_grows g1
      have ht : t = (copyFiles c files srcBase dstBase options.OverwriteHeaders s5).2 := by
        rw [PullRules_ok_of_setup c join options s s5 srcBase dstBase files hs] at h
        simp only [Prod.mk.injEq] at h
        exact h.2.symm
      obtain ⟨k2, k3⟩ := copyFiles_without_copy c files srcBase dstBase options.OverwriteHeaders s5
      rw [← ht] at k2 k3
      simp only at k1
      rcases k3 with k3 | k3
      · rw [hr]; exact k3
      · omega
    · obtain ⟨files, env, proj, root, s6, hs, hr⟩ :=
        PushRules_result c join options s t result h
      have g1 := pushSetup_grows c join options s
      rw [hs] at g1
      have k1 := copyCount_le_of_grows g1
      have ht : t = commitPhase c env root options.GitWithoutPush
          (copyFilesForPush c files proj env options.OverwriteHeaders s6).1
          (copyFilesForPush c files proj env options.OverwriteHeaders s6).2 := by
        rw [PushRules_ok_of_setup c join options s s6 env proj root files hs] at h
        simp only [Prod.mk.injEq] at h
        exact h.2.symm
      have k4 := copyCount_le_of_grows (commitPhase_grows c env root options.GitWithoutPush
          (copyFilesForPush c files proj env options.OverwriteHeaders s6).1
          (copyFilesForPush c files proj env options.OverwriteHeaders s6).2)
      rw [← ht] at k4
      obtain ⟨k2, k3⟩ :=
        copyFilesForPush_without_copy c files proj env options.OverwriteHeaders s6
      simp only at k1
      rcases k3 with k3 | k3
      · rw [hr]; exact k3
      · omega

theorem results_record_only_add_and_update_witness :
    (∀ op ∈ [updateOfA], op.OpType = "add" ∨ op.OpType = "update") ∧
      (copyCount (PullRules (trees listingStaleProject true none) joinSlash optionsRules
          (State.start ())).2.calls = copyCount [] →
        (pushedNothing : SyncResult) = { Operations := [], HasChanges := false }) :=
  ⟨(results_record_only_add_and_update (trees listingStaleProject false none) joinSlash
      optionsRules (State.start ()) _ _ (Or.inl rfl)).1,
    (results_record_only_add_and_update (trees listingStaleProject true none) joinSlash
      optionsRules (State.start ()) _ _ (Or.inl rfl)).2.1⟩

/-! ## When the normalised content is empty -/

theorem trimRight_split (s cutset : Bytes) :
    ∃ ws, s = TrimRight s cutset ++ ws ∧ ∀ b ∈ ws, cutset.contains b = true := by
  induction s using List.reverseRecOn with
  | nil => exact ⟨[], rfl, by simp⟩
  | append_singleton l x ih =>
    rw [trimRight_concat]
    by_cases hx : cutset.contains x = true
    · obtain ⟨ws, h1, h2⟩ := ih
      rw [if_pos hx]
      refine ⟨ws ++ [x], ?_, ?_⟩
      · rw [← List.append_assoc, ← h1]
      · intro b hb
        rcases List.mem_append.1 hb with hb | hb
        · exact h2 b hb
        · rw [List.mem_singleton.1 hb]; exact hx
    · rw [if_neg hx]
      exact ⟨[], by simp, by simp⟩

theorem trimRight_append_of_all (s ws cutset : Bytes)
    (h : ∀ b ∈ ws, cutset.contains b = true) :
    TrimRight (s ++ ws) cutset = TrimRight s cutset := by
  induction ws using List.reverseRecOn with
  | nil => simp
  | append_singleton l x ih =>
    rw [← List.append_assoc, trimRight_concat, if_pos (h x (by simp))]
    exact ih (fun b hb => h b (by simp [hb]))

theorem trimRight_eq_nil_iff (s cutset : Bytes) :
    TrimRight s cutset = [] ↔ ∀ b ∈ s, cutset.contains b = true :=
  List.rdropWhile_eq_nil_iff

theorem normalize_eq_nil_iff_trimmed (x : Bytes) : normalize x = [] ↔ trimmed x = [] := by
  rw [normalize_eq]
  by_cases h : trimmed x = []
  · simp [h]
  · simp [h]

/-- C30: the normalised content is empty exactly when the content, once every CRLF and
CR is an LF, is a run of newlines followed by a run of spaces and tabs, and
`ReadFileNormalized` returns the empty string exactly then.  Content of white space
only is therefore not always normalised to the empty string: a newline followed by
a space is, a space followed by a newline is returned as it is. -/
theorem normalize_empty_iff (x : Bytes) :
    (normalize x = [] ↔
      ∃ k ws, convertLineEndings x = List.replicate k LF ++ ws ∧
        ∀ b ∈ ws, b = SP ∨ b = TAB) ∧
    (ReadFileNormalized (fun _ => .ok x) "rule.mdc" = .ok [] ↔ normalize x = []) ∧
    normalize [LF, SP] = [] ∧ normalize [SP, LF] = [SP, LF] := by
  refine ⟨?_, by simp [ReadFileNormalized], by decide, by decide⟩
  rw [normalize_eq_nil_iff_trimmed]
  constructor
  · intro h
    have h1 : ∀ b ∈ TrimRight (convertLineEndings x) [SP, TAB], List.contains [LF] b = true :=
      (trimRight_eq_nil_iff _ _).1 h
    obtain ⟨ws, hsplit, hws⟩ := trimRight_split (convertLineEndings x) [SP, TAB]
    refine ⟨(TrimRight (convertLineEndings x) [SP, TAB]).length, ws, ?_, ?_⟩
    · have hrep : TrimRight (convertLineEndings x) [SP, TAB] =
          List.replicate (TrimRight (convertLineEndings x) [SP, TAB]).length LF := by
        rw [List.eq_replicate_iff]
        refine ⟨rfl, ?_⟩
        intro b hb
        simpa using h1 b hb
      rw [← hrep]; exact hsplit
    · intro b hb
      simpa using hws b hb
  · rintro ⟨k, ws, hc, hws⟩
    unfold trimmed
    rw [hc, trimRight_append_of_all _ ws [SP, TAB] (fun b hb => by simpa using hws b hb)]
    rw [trimRight_eq_nil_iff]
    intro b hb
    have hb2 : b ∈ List.replicate k LF :=
      (trimRight_isPrefix (List.replicate k LF) [SP, TAB]).subset hb
    rw [List.mem_replicate] at hb2
    rw [hb2.2]; decide

end Cursync
